import Mathlib

/-!
Isometric tile renderer (src/render/render.cpp, src/render/render.h)

A shallow embedding of the tile renderer: the two iterators that walk the
voxels of one tile, the neighbour pass `checkNeighbors`, and `renderTile`.

Conventions of the embedding.

* C++ `int` values are mathematical integers; `a / b` on ints is truncated
  division (`Int.tdiv`). Signed overflow is undefined in C++ and is not
  modelled.
* `uint16_t` values are naturals; a store into a `uint16_t` is `% 65536`,
  a store into a `uint8_t` is `% 256`.
* `mc/pos.h`, `mc/cache.h` and `render/textures.h` are not part of the two
  files embedded here. What the renderer calls from them is carried as a
  parameter (`PosApi`, `WorldCache`, `BlockImages`, `Consts`); what a theorem
  needs to know about such a parameter is a named hypothesis.
-/

set_option autoImplicit false

namespace Mapcrafter

/-! ## Positions (interface of mc/pos.h) -/

/-- Block position. The constructor order is `(x, z, y)`: render.cpp builds
`LocalBlockPos(8, 6, 255)` for a block at height 255, comments
`BlockPos(0, 1, 0)` as "z+1" and writes `BlockPos(dx, dz, 0)`. -/
structure BlockPos where
  x : Int
  z : Int
  y : Int
deriving DecidableEq, Repr

/-- Componentwise sum, `operator+` / `operator+=` of `mc::BlockPos`. -/
def BlockPos.add (a b : BlockPos) : BlockPos :=
  ⟨a.x + b.x, a.z + b.z, a.y + b.y⟩

/-- Componentwise difference, `operator-=` of `mc::BlockPos`. -/
def BlockPos.sub (a b : BlockPos) : BlockPos :=
  ⟨a.x - b.x, a.z - b.z, a.y - b.y⟩

/-- Chunk position `(x, z)`. -/
structure ChunkPos where
  x : Int
  z : Int
deriving DecidableEq, Repr

/-- Tile position, read through `getX()` and `getY()`. -/
structure TilePos where
  x : Int
  y : Int
deriving DecidableEq, Repr

/-- The functions of mc/pos.h used by the renderer. `LocalBlockPos` shares the
representation of `BlockPos`. -/
structure PosApi where
  /-- `BlockPos::getRow` -/
  getRow : BlockPos → Int
  /-- `BlockPos::getCol` -/
  getCol : BlockPos → Int
  /-- `ChunkPos::byRowCol` -/
  byRowCol : Int → Int → ChunkPos
  /-- `LocalBlockPos::toGlobalPos` -/
  toGlobalPos : BlockPos → ChunkPos → BlockPos
  /-- `ChunkPos(const BlockPos&)` -/
  chunkOf : BlockPos → ChunkPos
  /-- `LocalBlockPos(const BlockPos&)` -/
  localOf : BlockPos → BlockPos

/-- Moving a block by `d` along `+z` moves it `d` rows down and `d` columns
right: render.cpp line 69 "go one block to bottom right (z+1)", and line 82
adds `min_col - col - 1` to `z` to land on column `min_col - 1`. -/
def PosApi.ZStep (P : PosApi) : Prop :=
  ∀ (p : BlockPos) (d : Int),
    P.getRow (p.add ⟨0, d, 0⟩) = P.getRow p + d ∧
    P.getCol (p.add ⟨0, d, 0⟩) = P.getCol p + d

/-- Subtracting `(1, 1, 0)` moves a block one block to the left (line 74), that
is two columns (line 55: "every column is a 1/2 block"), in the same row. -/
def PosApi.LeftStep (P : PosApi) : Prop :=
  ∀ p : BlockPos,
    P.getRow (p.sub ⟨1, 1, 0⟩) = P.getRow p ∧
    P.getCol (p.sub ⟨1, 1, 0⟩) = P.getCol p - 2

/-- The blocks `(x+1, z-1, y-1)` "are on a tile on the same position"
(render.h lines 60-61): the viewing diagonal keeps row and column. -/
def PosApi.DiagStep (P : PosApi) : Prop :=
  ∀ p : BlockPos,
    P.getRow ⟨p.x + 1, p.z - 1, p.y - 1⟩ = P.getRow p ∧
    P.getCol ⟨p.x + 1, p.z - 1, p.y - 1⟩ = P.getCol p

/-- Converting a chunk-local position to a global one keeps the height. -/
def PosApi.KeepsHeight (P : PosApi) : Prop :=
  ∀ (l : BlockPos) (c : ChunkPos), (P.toGlobalPos l c).y = l.y

/-- One isometric layout that satisfies `ZStep`, `LeftStep`, `DiagStep` and
`KeepsHeight`; it instantiates the theorems below at concrete inputs. -/
def isoPos : PosApi where
  getRow := fun p => p.z - p.x + (256 - p.y) * 2
  getCol := fun p => p.x + p.z
  byRowCol := fun row col => ⟨(col - row) / 2, (col + row) / 2⟩
  toGlobalPos := fun l c => ⟨l.x + 16 * c.x, l.z + 16 * c.z, l.y⟩
  chunkOf := fun p => ⟨p.x / 16, p.z / 16⟩
  localOf := fun p => ⟨p.x % 16, p.z % 16, p.y⟩

/-! ## TileTopBlockIterator (render.cpp lines 34-101) -/

/-- State of `TileTopBlockIterator`. -/
structure TileTopBlockIterator where
  block_size : Int
  tile_size : Int
  is_end : Bool
  min_row : Int
  max_row : Int
  min_col : Int
  max_col : Int
  top : BlockPos
  current : BlockPos
  draw_x : Int
  draw_y : Int
deriving DecidableEq, Repr

/-- Constructor, lines 34-59. -/
def TileTopBlockIterator.init (P : PosApi) (tile : TilePos)
    (block_size tile_size : Int) : TileTopBlockIterator :=
  let topright_chunk := P.byRowCol (4 * tile.y) (2 * tile.x + 2)
  let top := P.toGlobalPos ⟨8, 6, 255⟩ topright_chunk
  let current := top
  let min_row := P.getRow top + 1
  let max_row := P.getRow top + 64 + 4
  let max_col := P.getCol top + 2
  let min_col := max_col - 32
  let row := P.getRow current - min_row
  let col := P.getCol current - min_col
  let draw_x := (col * block_size).tdiv 2
  let draw_y := (row * block_size).tdiv 4 - block_size.tdiv 2
  { block_size := block_size, tile_size := tile_size, is_end := false,
    min_row := min_row, max_row := max_row, min_col := min_col, max_col := max_col,
    top := top, current := current, draw_x := draw_x, draw_y := draw_y }

/-- The method `next()`, lines 65-97. -/
def TileTopBlockIterator.next (P : PosApi) (it : TileTopBlockIterator) :
    TileTopBlockIterator :=
  if it.is_end then it
  else
    let current := it.current.add ⟨0, 1, 0⟩
    let tc : BlockPos × BlockPos :=
      if P.getCol current > it.max_col ∨ P.getRow current > it.max_row then
        let top := it.top.sub ⟨1, 1, 0⟩
        let current := top
        if P.getCol current < it.min_col - 1 then
          (top, current.add ⟨0, it.min_col - P.getCol current - 1, 0⟩)
        else (top, current)
      else (it.top, current)
    let top := tc.1
    let current := tc.2
    let row := P.getRow current
    let col := P.getCol current
    let draw_x := ((col - it.min_col) * it.block_size).tdiv 2
    let draw_y := ((row - it.min_row) * it.block_size).tdiv 4 - it.block_size.tdiv 2
    let is_end :=
      if row = it.max_row ∧ col = it.min_col then true
      else if row = it.max_row ∧ col = it.min_col + 1 then true
      else it.is_end
    { it with top := top, current := current, draw_x := draw_x, draw_y := draw_y,
              is_end := is_end }

/-- The method `end()`, lines 99-101. -/
def TileTopBlockIterator.end_ (it : TileTopBlockIterator) : Bool :=
  it.is_end

/-- The states at which the body of
`for (TileTopBlockIterator it(...); !it.end(); it.next())` runs, in order;
`none` when the loop has not finished within `fuel` iterations. -/
def TileTopBlockIterator.run (P : PosApi) :
    Nat → TileTopBlockIterator → Option (List TileTopBlockIterator)
  | 0, it => if it.end_ then some [] else none
  | fuel + 1, it =>
    if it.end_ then some []
    else (TileTopBlockIterator.run P fuel (it.next P)).map (fun l => it :: l)

/-! ## BlockRowIterator (render.cpp lines 103-120) -/

/-- State of `BlockRowIterator`. -/
structure BlockRowIterator where
  current : BlockPos
deriving DecidableEq, Repr

/-- Constructor, lines 103-105. -/
def BlockRowIterator.init (block : BlockPos) : BlockRowIterator :=
  ⟨block⟩

/-- The method `next()`, lines 111-116. -/
def BlockRowIterator.next (it : BlockRowIterator) : BlockRowIterator :=
  ⟨⟨it.current.x + 1, it.current.z - 1, it.current.y - 1⟩⟩

/-- The method `end()`, lines 118-120. -/
def BlockRowIterator.end_ (it : BlockRowIterator) : Bool :=
  decide (it.current.y < 0)

/-- The positions at which the body of
`for (BlockRowIterator block(p); !block.end(); block.next())` runs, in order;
`none` when the loop has not finished within `fuel` iterations. -/
def BlockRowIterator.run : Nat → BlockRowIterator → Option (List BlockPos)
  | 0, it => if it.end_ then some [] else none
  | fuel + 1, it =>
    if it.end_ then some []
    else (BlockRowIterator.run fuel it.next).map (fun l => it.current :: l)


/-! ## Reachable states of the top iterator -/

/-- What holds of every state the top iterator reaches from a constructor
state whose `top` has row `r0`, column `c0` and height `y0`. -/
structure TopInv (P : PosApi) (r0 c0 y0 : Int) (it : TileTopBlockIterator) : Prop where
  min_row_eq : it.min_row = r0 + 1
  max_row_eq : it.max_row = r0 + 68
  max_col_eq : it.max_col = c0 + 2
  min_col_eq : it.min_col = c0 - 30
  top_row : P.getRow it.top = r0
  top_col : P.getCol it.top ≤ c0
  top_par : (c0 - P.getCol it.top) % 2 = 0
  diag : P.getRow it.current - P.getCol it.current = r0 - P.getCol it.top
  row_lo : r0 ≤ P.getRow it.current
  row_hi : P.getRow it.current ≤ r0 + 68
  col_lo : c0 - 31 ≤ P.getCol it.current
  col_hi : P.getCol it.current ≤ c0 + 2
  end_iff : it.is_end = true ↔
    (P.getRow it.current = r0 + 68 ∧ P.getCol it.current = c0 - 30)
  draw_x_eq : it.draw_x = ((P.getCol it.current - it.min_col) * it.block_size).tdiv 2
  draw_y_eq : it.draw_y =
    ((P.getRow it.current - it.min_row) * it.block_size).tdiv 4 - it.block_size.tdiv 2
  top_y : it.top.y = y0
  cur_y : it.current.y = y0

/-- How one call of `next()` moves the current block, in rows and columns. -/
def TopStep (P : PosApi) (r0 c0 : Int) (it it' : TileTopBlockIterator) : Prop :=
  (P.getRow it'.current = P.getRow it.current + 1 ∧
    P.getCol it'.current = P.getCol it.current + 1) ∨
  ((P.getCol it.current + 1 > c0 + 2 ∨ P.getRow it.current + 1 > r0 + 68) ∧
    P.getRow it'.current - P.getCol it'.current =
      P.getRow it.current - P.getCol it.current + 2 ∧
    (P.getRow it'.current = r0 ∨ P.getCol it'.current = c0 - 31))

/-- Rank of a (row, column) pair in the order in which the top iterator walks
the tile: diagonal first, row along the diagonal second. -/
def topRank (r0 c0 row col : Int) : Int :=
  50 * ((row - r0) - (col - c0)) + (row - r0)

/-- Rank of the current block of an iterator state. -/
def TileTopBlockIterator.rank (P : PosApi) (r0 c0 : Int) (it : TileTopBlockIterator) : Int :=
  topRank r0 c0 (P.getRow it.current) (P.getCol it.current)

/-- The (row, column) pairs of the isometric lattice inside the box walked by
the iterator that was built on a top block of row `r0` and column `c0`. -/
def InLattice (r0 c0 row col : Int) : Prop :=
  r0 ≤ row ∧ row ≤ r0 + 68 ∧ c0 - 31 ≤ col ∧ col ≤ c0 + 2 ∧
    ((row - col) - (r0 - c0)) % 2 = 0

/-- Everything the development needs about the list `ys` of states at which
the body of the loop over the top iterator runs, started in state `it`. -/
structure TopRun (P : PosApi) (r0 c0 y0 : Int) (it : TileTopBlockIterator)
    (ys : List TileTopBlockIterator) : Prop where
  run_eq : ∀ fuel, ys.length ≤ fuel → TileTopBlockIterator.run P fuel it = some ys
  inv : ∀ s ∈ ys, TopInv P r0 c0 y0 s ∧ s.is_end = false ∧
    it.rank P r0 c0 ≤ s.rank P r0 c0
  sorted : ys.Pairwise (fun a b => a.rank P r0 c0 < b.rank P r0 c0)
  cover : ∀ row col, InLattice r0 c0 row col → it.rank P r0 c0 ≤ topRank r0 c0 row col →
    topRank r0 c0 row col < 4968 →
    ∃ s ∈ ys, P.getRow s.current = row ∧ P.getCol s.current = col
  final_inv : TopInv P r0 c0 y0 ((TileTopBlockIterator.next P)^[ys.length] it)
  final_end : ((TileTopBlockIterator.next P)^[ys.length] it).is_end = true
  before_end : ∀ j, j < ys.length →
    ((TileTopBlockIterator.next P)^[j] it).is_end = false
  sizes : ∀ s ∈ ys, s.block_size = it.block_size ∧ s.tile_size = it.tile_size


/-- The (row, column) pair of the current block of an iterator state. -/
def TileTopBlockIterator.rowCol (P : PosApi) (it : TileTopBlockIterator) : Int × Int :=
  (P.getRow it.current, P.getCol it.current)

/-- The blocks `p, p + (1, -1, -1), ...` of the first `n` steps of the row
iterator started at `p`. -/
def rowBlocks (p : BlockPos) (n : Nat) : List BlockPos :=
  (List.range n).map (fun (i : Nat) => (⟨p.x + (i : Int), p.z - (i : Int), p.y - (i : Int)⟩ : BlockPos))

/-! ## World store, image catalog and constants (interfaces) -/

/-- A combination of id and data (render.h lines 77-81). -/
structure Block where
  id : Nat
  data : Nat
deriving DecidableEq, Repr

/-- What the renderer reads from a `mc::Chunk`. -/
structure Chunk where
  /-- `getPos()` -/
  pos : ChunkPos
  /-- `getBlockID(local)` -/
  getBlockID : BlockPos → Nat
  /-- `getBlockData(local)` -/
  getBlockData : BlockPos → Nat
  /-- `getBiomeAt(local)` -/
  getBiomeAt : BlockPos → Nat

/-- The world store `mc::WorldCache`: a chunk lookup that may return `NULL`. -/
structure WorldCache where
  getChunk : ChunkPos → Option Chunk

/-- The image catalog `BlockImages` of render/textures.h. -/
structure BlockImages (Image Biome : Type) where
  getBlockImageSize : Int
  getTileSize : Int
  getMaxWaterNeededOpaque : Int
  isBlockTransparent : Nat → Nat → Bool
  getBlock : Nat → Nat → Image
  getBiomeDependBlock : Nat → Nat → Biome → Image
  getOpaqueWater : Bool → Bool → Image

/-- The constants render.cpp takes from render/textures.h and mc/pos.h, and the
biome table with the two operations `+=` and `/=` of `Biome`. -/
structure Consts (Biome : Type) where
  DATA_NORTH : Nat
  DATA_SOUTH : Nat
  DATA_EAST : Nat
  DATA_WEST : Nat
  DOOR_NORTH : Nat
  DOOR_SOUTH : Nat
  DOOR_EAST : Nat
  DOOR_WEST : Nat
  DOOR_TOP : Nat
  DOOR_FLIP_X : Nat
  EDGE_NORTH : Nat
  EDGE_EAST : Nat
  EDGE_BOTTOM : Nat
  DIR_NORTH : BlockPos
  DIR_SOUTH : BlockPos
  DIR_EAST : BlockPos
  DIR_WEST : BlockPos
  DIR_TOP : BlockPos
  DIR_BOTTOM : BlockPos
  BIOMES : Nat → Biome
  BIOMES_SIZE : Nat
  DEFAULT_BIOME : Nat
  biomeAdd : Biome → Biome → Biome
  biomeDiv : Biome → Int → Biome

/-- The renderer: the members `world`, `images`, `render_biomes` of the class
`TileRenderer` (render.h lines 101-118), with the position functions and the
constants it is compiled against. -/
structure TileRenderer (Image Biome : Type) where
  posApi : PosApi
  consts : Consts Biome
  world : WorldCache
  images : BlockImages Image Biome
  render_biomes : Bool

/-- Modelled from the spec: `BlockPos::operator<` of mc/pos.h, which orders
render blocks; the spec gives it as lexicographic on `(y, z, x)`. -/
def BlockPos.lt (a b : BlockPos) : Bool :=
  decide (a.y < b.y ∨ (a.y = b.y ∧ (a.z < b.z ∨ (a.z = b.z ∧ a.x < b.x))))

/-! ## Render blocks and the ordered set holding them -/

/-- A block to draw (render.h lines 86-96). The member `transparent` is never
written or read and is left out; `id` and `data` are `uint8_t`. -/
structure RenderBlock (Image : Type) where
  x : Int
  y : Int
  image : Image
  pos : BlockPos
  id : Nat
  data : Nat

/-- `RenderBlock::operator<`, lines 126-128. -/
def RenderBlock.lt {Image : Type} (a b : RenderBlock Image) : Bool :=
  a.pos.lt b.pos

/-- `std::set<RenderBlock>::insert` on the set held as its ascending list: the
element goes before the first one that is not smaller, unless that one is
equivalent to it, in which case the set is left as it is. -/
def setInsert {Image : Type} (x : RenderBlock Image) :
    List (RenderBlock Image) → List (RenderBlock Image)
  | [] => [x]
  | a :: l =>
    if a.lt x then a :: setInsert x l
    else if x.lt a then x :: a :: l
    else a :: l

/-- A `uint16_t` after `data |= flag`. -/
def or16 (data flag : Nat) : Nat :=
  (data ||| flag) % 65536

/-! ## Block and biome lookup (render.cpp lines 138-195) -/

/-- The chunk used for a position: the hint when it is the chunk of that
position, the world store otherwise (lines 143-146 and 392-398). -/
def TileRenderer.chunkFor {Image Biome : Type} (R : TileRenderer Image Biome)
    (chunk_pos : ChunkPos) (chunk : Option Chunk) : Option Chunk :=
  match chunk with
  | none => R.world.getChunk chunk_pos
  | some c => if chunk_pos ≠ c.pos then R.world.getChunk chunk_pos else some c

/-- `TileRenderer::getBlock`, lines 138-159. -/
def TileRenderer.getBlock {Image Biome : Type} (R : TileRenderer Image Biome)
    (pos : BlockPos) (chunk : Option Chunk) : Block :=
  if pos.y < 0 then ⟨0, 0⟩
  else
    let chunk_pos := R.posApi.chunkOf pos
    let mychunk := R.chunkFor chunk_pos chunk
    match mychunk with
    | none => ⟨0, 0⟩
    | some c =>
      let local_ := R.posApi.localOf pos
      let id := c.getBlockID local_ % 65536
      if id = 0 then ⟨0, 0⟩
      else ⟨id, c.getBlockData local_ % 65536⟩

/-- The pairs `(dx, dz)` of the two nested loops of lines 172-175, in order. -/
def biomeOffsets : List (Int × Int) :=
  [(-1, -1), (-1, 0), (-1, 1), (0, -1), (0, 1), (1, -1), (1, 0), (1, 1)]

/-- One iteration of the loop body of lines 177-190 on `(biome, count)`. -/
def TileRenderer.biomeStep {Image Biome : Type} (R : TileRenderer Image Biome)
    (pos : BlockPos) (chunk : Chunk) (acc : Biome × Int) (d : Int × Int) : Biome × Int :=
  let other := pos.add ⟨d.1, d.2, 0⟩
  let chunk_pos := R.posApi.chunkOf other
  let other_id := chunk.getBiomeAt (R.posApi.localOf other) % 256
  if chunk_pos ≠ chunk.pos then
    match R.world.getChunk chunk_pos with
    | none => acc
    | some other_chunk =>
      let other_id := other_chunk.getBiomeAt (R.posApi.localOf other) % 256
      if other_id < R.consts.BIOMES_SIZE then
        (R.consts.biomeAdd acc.1 (R.consts.BIOMES other_id), acc.2 + 1)
      else acc
  else if other_id < R.consts.BIOMES_SIZE then
    (R.consts.biomeAdd acc.1 (R.consts.BIOMES other_id), acc.2 + 1)
  else acc

/-- `TileRenderer::getBiome`, lines 161-195. -/
def TileRenderer.getBiome {Image Biome : Type} (R : TileRenderer Image Biome)
    (pos : BlockPos) (chunk : Chunk) : Biome :=
  let biome_id := chunk.getBiomeAt (R.posApi.localOf pos) % 256
  let biome := R.consts.BIOMES R.consts.DEFAULT_BIOME
  if R.render_biomes ∧ biome_id < R.consts.BIOMES_SIZE then
    let biome := R.consts.BIOMES biome_id
    let acc := biomeOffsets.foldl (R.biomeStep pos chunk) (biome, 1)
    R.consts.biomeDiv acc.1 acc.2
  else biome

/-! ## Neighbour rules (render.cpp lines 197-363) -/

/-- `getDoorDirectionClosed`, lines 200-228; the result is a `uint16_t`. -/
def getDoorDirectionClosed {Biome : Type} (K : Consts Biome) (direction : Nat)
    (flip : Bool) : Nat :=
  if !flip then
    if direction = K.DOOR_NORTH then K.DOOR_EAST % 65536
    else if direction = K.DOOR_SOUTH then K.DOOR_WEST % 65536
    else if direction = K.DOOR_EAST then K.DOOR_SOUTH % 65536
    else if direction = K.DOOR_WEST then K.DOOR_NORTH % 65536
    else 0
  else
    if direction = K.DOOR_NORTH then K.DOOR_WEST % 65536
    else if direction = K.DOOR_SOUTH then K.DOOR_EAST % 65536
    else if direction = K.DOOR_EAST then K.DOOR_NORTH % 65536
    else if direction = K.DOOR_WEST then K.DOOR_SOUTH % 65536
    else 0

/-- The block-specific part of `checkNeighbors`, lines 238-344. -/
def TileRenderer.specialData {Image Biome : Type} (R : TileRenderer Image Biome)
    (pos : BlockPos) (chunk : Option Chunk) (id data : Nat) : Nat :=
  let K := R.consts
  if (id = 8 ∨ id = 9) ∧ data = 0 then
    let west := R.getBlock (pos.add K.DIR_WEST) chunk
    let south := R.getBlock (pos.add K.DIR_SOUTH) chunk
    let data := if (west.id = 8 ∨ west.id = 9) ∧ west.data = 0
      then or16 data K.DATA_WEST else data
    let data := if (south.id = 8 ∨ south.id = 9) ∧ south.data = 0
      then or16 data K.DATA_SOUTH else data
    data
  else if id = 54 ∨ id = 95 ∨ id = 130 ∨ id = 146 then
    let north := R.getBlock (pos.add K.DIR_NORTH) chunk
    let south := R.getBlock (pos.add K.DIR_SOUTH) chunk
    let east := R.getBlock (pos.add K.DIR_EAST) chunk
    let west := R.getBlock (pos.add K.DIR_WEST) chunk
    let data :=
      if data = 2 then K.DATA_NORTH % 65536
      else if data = 3 then K.DATA_SOUTH % 65536
      else if data = 4 then K.DATA_WEST % 65536
      else K.DATA_EAST % 65536
    if id = 54 then
      let data := if north.id = 54 then or16 data (K.DATA_NORTH <<< 4) else data
      let data := if south.id = 54 then or16 data (K.DATA_SOUTH <<< 4) else data
      let data := if east.id = 54 then or16 data (K.DATA_EAST <<< 4) else data
      let data := if west.id = 54 then or16 data (K.DATA_WEST <<< 4) else data
      data
    else data
  else if id = 64 ∨ id = 71 then
    let top := if data &&& 8 ≠ 0 then K.DOOR_TOP % 65536 else 0
    let halves : Nat × Nat × Nat :=
      if top ≠ 0 then
        (data, (R.getBlock (pos.add K.DIR_BOTTOM) chunk).data, or16 data K.DOOR_TOP)
      else
        ((R.getBlock (pos.add K.DIR_TOP) chunk).data, data, data)
    let top_data := halves.1
    let bottom_data := halves.2.1
    let data := halves.2.2
    let door_flip := decide (top_data &&& 1 ≠ 0)
    let data := if door_flip then or16 data K.DOOR_FLIP_X else data
    let opened := !(decide (bottom_data &&& 4 ≠ 0))
    let direction := bottom_data &&& 3
    let direction :=
      if direction = 0 then K.DOOR_WEST % 65536
      else if direction = 1 then K.DOOR_NORTH % 65536
      else if direction = 2 then K.DOOR_EAST % 65536
      else if direction = 3 then K.DOOR_SOUTH % 65536
      else direction
    if !opened then or16 data (getDoorDirectionClosed K direction door_flip)
    else or16 data direction
  else if id = 85 ∨ id = 101 ∨ id = 102 ∨ id = 113 then
    let north := R.getBlock (pos.add K.DIR_NORTH) chunk
    let south := R.getBlock (pos.add K.DIR_SOUTH) chunk
    let east := R.getBlock (pos.add K.DIR_EAST) chunk
    let west := R.getBlock (pos.add K.DIR_WEST) chunk
    let data := if north.id ≠ 0 ∧
        (north.id = id ∨ !R.images.isBlockTransparent north.id north.data)
      then or16 data K.DATA_NORTH else data
    let data := if south.id ≠ 0 ∧
        (south.id = id ∨ !R.images.isBlockTransparent south.id south.data)
      then or16 data K.DATA_SOUTH else data
    let data := if east.id ≠ 0 ∧
        (east.id = id ∨ !R.images.isBlockTransparent east.id east.data)
      then or16 data K.DATA_EAST else data
    let data := if west.id ≠ 0 ∧
        (west.id = id ∨ !R.images.isBlockTransparent west.id west.data)
      then or16 data K.DATA_WEST else data
    let data := if id = 85 ∧ north.id = 107 then or16 data K.DATA_NORTH else data
    let data := if id = 85 ∧ south.id = 107 then or16 data K.DATA_SOUTH else data
    let data := if id = 85 ∧ east.id = 107 then or16 data K.DATA_EAST else data
    let data := if id = 85 ∧ west.id = 107 then or16 data K.DATA_WEST else data
    data
  else data

/-- The shadow-edge part of `checkNeighbors`, lines 347-362. -/
def TileRenderer.shadowEdges {Image Biome : Type} (R : TileRenderer Image Biome)
    (pos : BlockPos) (chunk : Option Chunk) (id data : Nat) : Nat :=
  let K := R.consts
  if !R.images.isBlockTransparent id data then
    let north := R.getBlock (pos.add K.DIR_NORTH) chunk
    let east := R.getBlock (pos.add K.DIR_EAST) chunk
    let bottom := R.getBlock (pos.add K.DIR_BOTTOM) chunk
    let data := if north.id = 0 ∨ R.images.isBlockTransparent north.id north.data
      then or16 data K.EDGE_NORTH else data
    let data := if east.id = 0 ∨ R.images.isBlockTransparent east.id east.data
      then or16 data K.EDGE_EAST else data
    let data := if bottom.id = 0 ∨ R.images.isBlockTransparent bottom.id bottom.data
      then or16 data K.EDGE_BOTTOM else data
    data
  else data

/-- `TileRenderer::checkNeighbors`, lines 233-363: the block-specific rule, then
the shadow edges. -/
def TileRenderer.checkNeighbors {Image Biome : Type} (R : TileRenderer Image Biome)
    (pos : BlockPos) (chunk : Option Chunk) (id data : Nat) : Nat :=
  R.shadowEdges pos chunk id (R.specialData pos chunk id data)

/-! ## renderTile (render.cpp lines 365-507) -/

/-- The variables of the loop over one block row: the chunk hint `chunk`, the
counter `water`, and the set `row_nodes` as its ascending list. -/
structure RowState (Image : Type) where
  chunk : Option Chunk
  water : Int
  row_nodes : List (RenderBlock Image)

/-- The loop of lines 422-449 over `row_nodes` from `begin()`: water render
blocks are erased until the one whose successor is not water (or is missing),
which is erased and inserted again with the opaque water image. -/
def TileRenderer.collapseWater {Image Biome : Type} (R : TileRenderer Image Biome)
    (chunk : Option Chunk) : List (RenderBlock Image) → List (RenderBlock Image)
  | [] => []
  | current :: rest =>
    let reached : Bool :=
      match rest with
      | [] => true
      | nxt :: _ => decide (nxt.id ≠ 8 ∧ nxt.id ≠ 9)
    if reached then
      let top := current
      let south := R.getBlock (top.pos.add R.consts.DIR_SOUTH) chunk
      let west := R.getBlock (top.pos.add R.consts.DIR_WEST) chunk
      let neighbor_south := decide (south.id = 8 ∨ south.id = 9)
      let neighbor_west := decide (west.id = 8 ∨ west.id = 9)
      setInsert { top with image := R.images.getOpaqueWater neighbor_south neighbor_west }
        rest
    else R.collapseWater chunk rest

/-- One run of the body of the loop over a block row, lines 391-482, for the
block `current` of the row iterator; the flag says whether the loop was left
by `break`. -/
def TileRenderer.rowBody {Image Biome : Type} (R : TileRenderer Image Biome)
    (draw_x draw_y max_water : Int) (current : BlockPos) (st : RowState Image) :
    RowState Image × Bool :=
  let current_chunk := R.posApi.chunkOf current
  let chunk := R.chunkFor current_chunk st.chunk
  match chunk with
  | none => ({ st with chunk := none }, false)
  | some c =>
    let local_ := R.posApi.localOf current
    let id := c.getBlockID local_ % 65536
    if id = 0 then ({ st with chunk := some c }, false)
    else
      let data := c.getBlockData local_ % 65536
      let full_water : Bool := decide ((id = 8 ∨ id = 9) ∧ data = 0)
      let water := if full_water then st.water + 1 else 0
      if full_water ∧ water > max_water then
        ({ chunk := some c, water := water,
           row_nodes := R.collapseWater (some c) st.row_nodes }, true)
      else
        let data := R.checkNeighbors current (some c) id data
        let transparent := R.images.isBlockTransparent id data
        let image :=
          if id = 2 ∨ id = 18 ∨ id = 31 ∨ id = 106 ∨ id = 111 then
            R.images.getBiomeDependBlock id data (R.getBiome current c)
          else R.images.getBlock id data
        let node : RenderBlock Image :=
          { x := draw_x, y := draw_y, pos := current, image := image,
            id := id % 256, data := data % 256 }
        ({ chunk := some c, water := water, row_nodes := setInsert node st.row_nodes },
          !transparent)

/-- The loop `for (BlockRowIterator block(it.current); !block.end(); block.next())`
of lines 390-483; `none` when it has not finished within `fuel` iterations. -/
def TileRenderer.rowLoop {Image Biome : Type} (R : TileRenderer Image Biome)
    (draw_x draw_y max_water : Int) :
    Nat → BlockRowIterator → RowState Image → Option (RowState Image)
  | 0, block, st => if block.end_ then some st else none
  | fuel + 1, block, st =>
    if block.end_ then some st
    else
      let r := R.rowBody draw_x draw_y max_water block.current st
      if r.2 then some r.1
      else R.rowLoop draw_x draw_y max_water fuel block.next r.1

/-- The loop of lines 486-499 that moves the render blocks of a row into
`blocks`, skipping leaves under leaves. -/
def flushRow {Image : Type} :
    List (RenderBlock Image) → List (RenderBlock Image) → List (RenderBlock Image)
  | [], blocks => blocks
  | [a], blocks => setInsert a blocks
  | a :: nxt :: rest, blocks =>
    if a.id = 18 ∧ nxt.id = 18 ∧ (nxt.data &&& 3) = (a.data &&& 3) then
      flushRow (nxt :: rest) blocks
    else flushRow (nxt :: rest) (setInsert a blocks)

/-- The body of the loop over the top blocks, lines 383-499, on the pair
`(chunk, blocks)`. The row loop is given `current.y + 1` iterations, one for
each height from `current.y` down to 0. -/
def TileRenderer.tileBody {Image Biome : Type} (R : TileRenderer Image Biome)
    (max_water : Int) (it : TileTopBlockIterator)
    (acc : Option Chunk × List (RenderBlock Image)) :
    Option (Option Chunk × List (RenderBlock Image)) :=
  match R.rowLoop it.draw_x it.draw_y max_water (it.current.y + 1).toNat
      (BlockRowIterator.init it.current)
      { chunk := acc.1, water := 0, row_nodes := [] } with
  | none => none
  | some st => some (st.chunk, flushRow st.row_nodes acc.2)

/-- The loop over the top blocks, lines 382-500; `none` when it has not
finished within `fuel` iterations. -/
def TileRenderer.tileLoop {Image Biome : Type} (R : TileRenderer Image Biome)
    (max_water : Int) :
    Nat → TileTopBlockIterator → Option Chunk × List (RenderBlock Image) →
      Option (Option Chunk × List (RenderBlock Image))
  | 0, it, acc => if it.end_ then some acc else none
  | fuel + 1, it, acc =>
    if it.end_ then some acc
    else
      match R.tileBody max_water it acc with
      | none => none
      | some acc' => R.tileLoop max_water fuel (it.next R.posApi) acc'

/-- The tile after `renderTile`: its size and the calls
`tile.alphablit(it->image, it->x, it->y)` of lines 503-506, in order. -/
structure TileOutput (Image : Type) where
  width : Int
  height : Int
  blits : List (RenderBlock Image)

/-- `TileRenderer::renderTile`, lines 365-507; `none` when the loop over the top
blocks has not finished within `fuel` iterations. -/
def TileRenderer.renderTile {Image Biome : Type} (R : TileRenderer Image Biome)
    (fuel : Nat) (pos : TilePos) : Option (TileOutput Image) :=
  let block_size := R.images.getBlockImageSize
  let tile_size := R.images.getTileSize
  let max_water := R.images.getMaxWaterNeededOpaque
  match R.tileLoop max_water fuel
      (TileTopBlockIterator.init R.posApi pos block_size tile_size) (none, []) with
  | none => none
  | some res => some { width := tile_size, height := tile_size, blits := res.2 }

/-! ## Notions used to state the properties of renderTile -/

/-- The variables of the loop over a block row when its body is about to run
for the `k`-th time (counting from 0), started at `block` with variables `st`;
`none` when the loop is left earlier, through `end()` or `break`. -/
def TileRenderer.rowStateAt {Image Biome : Type} (R : TileRenderer Image Biome)
    (draw_x draw_y max_water : Int) :
    Nat → BlockRowIterator → RowState Image → Option (RowState Image)
  | 0, _, st => some st
  | k + 1, block, st =>
    if block.end_ then none
    else
      let r := R.rowBody draw_x draw_y max_water block.current st
      if r.2 then none
      else R.rowStateAt draw_x draw_y max_water k block.next r.1

/-- The body of the row loop, run for the voxel `p` with variables `st`, reads
a block that is not air and that the catalog reports as not transparent under
the data `checkNeighbors` returns for it. -/
def TileRenderer.OpaqueAt {Image Biome : Type} (R : TileRenderer Image Biome)
    (p : BlockPos) (st : RowState Image) : Prop :=
  ∃ c, R.chunkFor (R.posApi.chunkOf p) st.chunk = some c ∧
    c.getBlockID (R.posApi.localOf p) % 65536 ≠ 0 ∧
    R.images.isBlockTransparent (c.getBlockID (R.posApi.localOf p) % 65536)
      (R.checkNeighbors p (some c) (c.getBlockID (R.posApi.localOf p) % 65536)
        (c.getBlockData (R.posApi.localOf p) % 65536)) = false

/-- A render block comes from the voxel `a` stands for: same position and
the same drawing offsets. -/
def SameSpot {Image : Type} (a b : RenderBlock Image) : Prop :=
  b.pos = a.pos ∧ b.x = a.x ∧ b.y = a.y

/-! ## Sample renderers, to instantiate the theorems -/

/-- Sample values for the constants: the four sides in bits 4-7, the door and
edge flags above them, unit steps for the six directions, and numbers as
biomes. -/
def demoConsts : Consts Nat where
  DATA_NORTH := 16
  DATA_EAST := 32
  DATA_SOUTH := 64
  DATA_WEST := 128
  DOOR_NORTH := 16
  DOOR_SOUTH := 32
  DOOR_EAST := 64
  DOOR_WEST := 128
  DOOR_TOP := 256
  DOOR_FLIP_X := 512
  EDGE_NORTH := 8192
  EDGE_EAST := 16384
  EDGE_BOTTOM := 32768
  DIR_NORTH := ⟨0, -1, 0⟩
  DIR_SOUTH := ⟨0, 1, 0⟩
  DIR_EAST := ⟨1, 0, 0⟩
  DIR_WEST := ⟨-1, 0, 0⟩
  DIR_TOP := ⟨0, 0, 1⟩
  DIR_BOTTOM := ⟨0, 0, -1⟩
  BIOMES := fun i => i
  BIOMES_SIZE := 23
  DEFAULT_BIOME := 0
  biomeAdd := fun a b => a + b
  biomeDiv := fun a n => a / n.toNat

/-- A sample catalog: 16-pixel blocks, 256-pixel tiles, water, leaves, glass,
doors, fences, panes and fence gates transparent, every other block opaque;
an image is the number `65536 * id + data`. -/
def demoImages : BlockImages Nat Nat where
  getBlockImageSize := 16
  getTileSize := 256
  getMaxWaterNeededOpaque := 5
  isBlockTransparent := fun id _ =>
    decide (id ∈ [0, 8, 9, 18, 20, 64, 71, 85, 101, 102, 107, 113])
  getBlock := fun id data => 65536 * id + data
  getBiomeDependBlock := fun id data biome => 65536 * (65536 * biome + id) + data
  getOpaqueWater := fun s w => (if s then 2 else 0) + (if w then 1 else 0)

/-- The world store in which every chunk is loaded and the block at the global
position `p` is `blockAt p`. -/
def worldOf (blockAt : BlockPos → Block) : WorldCache where
  getChunk := fun cp =>
    some { pos := cp,
           getBlockID := fun l => (blockAt (isoPos.toGlobalPos l cp)).id,
           getBlockData := fun l => (blockAt (isoPos.toGlobalPos l cp)).data,
           getBiomeAt := fun _ => 1 }

/-- The sample renderer over a world given by its blocks. -/
def demoRenderer (blockAt : BlockPos → Block) : TileRenderer Nat Nat where
  posApi := isoPos
  consts := demoConsts
  world := worldOf blockAt
  images := demoImages
  render_biomes := true

/-- The sample renderer over the world store that has no chunk at all. -/
def emptyRenderer : TileRenderer Nat Nat where
  posApi := isoPos
  consts := demoConsts
  world := ⟨fun _ => none⟩
  images := demoImages
  render_biomes := true

/-- Scenario A of the spec: stone at (0, 64, 0), air everywhere else. -/
def oneStone (p : BlockPos) : Block :=
  if p = ⟨0, 0, 64⟩ then ⟨1, 0⟩ else ⟨0, 0⟩
/-! ## Notions used to state the neighbour rules -/

/-- A door facing, as the glossary of the spec names them. -/
inductive Facing where
  | north
  | south
  | east
  | west
deriving DecidableEq, Repr

/-- Spec side: the facing held in bits 0-1 of the lower half of a door
(0 = west, 1 = north, 2 = east, 3 = south). -/
def Facing.ofBits (n : Nat) : Facing :=
  if n = 0 then Facing.west
  else if n = 1 then Facing.north
  else if n = 2 then Facing.east
  else Facing.south

/-- Spec side: the door-closed rotation table of the glossary (unflipped
N->E, S->W, E->S, W->N; flipped N->W, S->E, E->N, W->S). -/
def Facing.rotateClosed (flip : Bool) : Facing → Facing
  | Facing.north => if flip then Facing.west else Facing.east
  | Facing.south => if flip then Facing.east else Facing.west
  | Facing.east => if flip then Facing.north else Facing.south
  | Facing.west => if flip then Facing.south else Facing.north

/-- The door direction constant of a facing. -/
def Facing.door {Biome : Type} (K : Consts Biome) : Facing → Nat
  | Facing.north => K.DOOR_NORTH
  | Facing.south => K.DOOR_SOUTH
  | Facing.east => K.DOOR_EAST
  | Facing.west => K.DOOR_WEST

/-- What the switch of `getDoorDirectionClosed` and the `uint16_t` stores need
of the door constants of render/textures.h: the four directions are distinct
(they are `case` labels of one switch), all fit 16 bits, and `DOOR_TOP` is not
zero (it is tested as a truth value on line 282). -/
def Consts.DoorsOk {Biome : Type} (K : Consts Biome) : Prop :=
  K.DOOR_NORTH < 65536 ∧ K.DOOR_SOUTH < 65536 ∧ K.DOOR_EAST < 65536 ∧
  K.DOOR_WEST < 65536 ∧ 0 < K.DOOR_TOP ∧ K.DOOR_TOP < 65536 ∧
  K.DOOR_NORTH ≠ K.DOOR_SOUTH ∧ K.DOOR_NORTH ≠ K.DOOR_EAST ∧
  K.DOOR_NORTH ≠ K.DOOR_WEST ∧ K.DOOR_SOUTH ≠ K.DOOR_EAST ∧
  K.DOOR_SOUTH ≠ K.DOOR_WEST ∧ K.DOOR_EAST ≠ K.DOOR_WEST

/-- Spec side: the data of a door after the door rule. `upper` is bit 3 of the
data, the hinge flag is bit 0 of the upper half, closed is bit 2 of the lower
half and the facing is bits 0-1 of the lower half; the direction is the facing
for an open door and its rotation for a closed one. -/
def TileRenderer.doorSpec {Image Biome : Type} (R : TileRenderer Image Biome)
    (pos : BlockPos) (chunk : Option Chunk) (data : Nat) : Nat :=
  let K := R.consts
  let upper : Bool := decide (data &&& 8 ≠ 0)
  let upper_data := if upper then data else (R.getBlock (pos.add K.DIR_TOP) chunk).data
  let lower_data := if upper then (R.getBlock (pos.add K.DIR_BOTTOM) chunk).data else data
  let flip : Bool := decide (upper_data &&& 1 ≠ 0)
  let closed : Bool := decide (lower_data &&& 4 ≠ 0)
  let f := Facing.ofBits (lower_data &&& 3)
  let flags := if upper then or16 data K.DOOR_TOP else data
  let flags := if flip then or16 flags K.DOOR_FLIP_X else flags
  or16 flags ((if closed then f.rotateClosed flip else f).door K)

/-- Whether a bit of `flag` is set in `data`. -/
def hasFlag (data flag : Nat) : Bool :=
  decide (data &&& flag ≠ 0)

/-- The connectivity and edge flags that `checkNeighbors` ORs into the data. -/
def Consts.flags {Biome : Type} (K : Consts Biome) : List Nat :=
  [K.DATA_NORTH, K.DATA_SOUTH, K.DATA_EAST, K.DATA_WEST,
   K.EDGE_NORTH, K.EDGE_EAST, K.EDGE_BOTTOM]

/-- The flags are flags of a `uint16_t`: each is a non-empty set of bits below
bit 16 and no two of them share a bit. -/
def Consts.FlagsOk {Biome : Type} (K : Consts Biome) : Prop :=
  (∀ f ∈ K.flags, 0 < f ∧ f < 65536) ∧ K.flags.Pairwise (fun a b => a &&& b = 0)

/-- Spec side: whether a fence, iron bar, glass pane or nether fence with id
`id` connects to the neighbour `nb`: the neighbour is not air and has the same
id or is opaque, or the block is a fence (85) and the neighbour a fence gate
(107). -/
def TileRenderer.connects {Image Biome : Type} (R : TileRenderer Image Biome)
    (id : Nat) (nb : Block) : Bool :=
  (decide (nb.id ≠ 0) &&
      (decide (nb.id = id) || !R.images.isBlockTransparent nb.id nb.data)) ||
    (decide (id = 85) && decide (nb.id = 107))

/-- Spec side: a full water block, id 8 or 9 with data 0. -/
def Block.isFullWater (b : Block) : Bool :=
  (decide (b.id = 8) || decide (b.id = 9)) && decide (b.data = 0)

/-- Spec side: the facing constant of a chest with raw data `data`
(2 north, 3 south, 4 west, anything else east). -/
def chestFacing {Biome : Type} (K : Consts Biome) (data : Nat) : Nat :=
  if data = 2 then K.DATA_NORTH
  else if data = 3 then K.DATA_SOUTH
  else if data = 4 then K.DATA_WEST
  else K.DATA_EAST

/-- Spec side: the double-chest flag of one side, the side's connectivity
constant shifted left by 4 when the neighbour on that side has id 54. -/
def chestFlag (side : Nat) (nb : Block) : Nat :=
  if nb.id = 54 then side <<< 4 else 0

/-- Spec side: a neighbour that lets a shadow edge show, air or a transparent
block. -/
def TileRenderer.seesThrough {Image Biome : Type} (R : TileRenderer Image Biome)
    (nb : Block) : Bool :=
  decide (nb.id = 0) || R.images.isBlockTransparent nb.id nb.data

/-- Scenario E of the spec: a closed door facing north, hinge not flipped; the
lower half (facing 1, closed bit 4) below the upper half (bit 8). -/
def closedDoor (p : BlockPos) : Block :=
  if p = ⟨0, 0, 64⟩ then ⟨64, 5⟩
  else if p = ⟨0, 0, 65⟩ then ⟨64, 8⟩
  else ⟨0, 0⟩

/-- Three fences in a line along the east-west axis, air everywhere else. -/
def fenceLine (p : BlockPos) : Block :=
  if p = ⟨-1, 0, 64⟩ ∨ p = ⟨0, 0, 64⟩ ∨ p = ⟨1, 0, 64⟩ then ⟨85, 0⟩ else ⟨0, 0⟩

/-- A layer of full water (id 9, data 0) at height 64, air everywhere else. -/
def waterLayer (p : BlockPos) : Block :=
  if p.y = 64 then ⟨9, 0⟩ else ⟨0, 0⟩

/-- Scenario D of the spec: two chests (id 54) facing south (raw data 3), one
at x = 0 and one at x = 1, both at height 64 and z = 0. -/
def doubleChest (p : BlockPos) : Block :=
  if p = ⟨0, 0, 64⟩ ∨ p = ⟨1, 0, 64⟩ then ⟨54, 3⟩ else ⟨0, 0⟩

/-- Scenario B of the spec: stone at every position of height 64, air
everywhere else. -/
def stonePlane (p : BlockPos) : Block :=
  if p.y = 64 then ⟨1, 0⟩ else ⟨0, 0⟩

/-! ## Biome blending (spec side) -/

/-- Spec side: the biome id of the horizontal neighbour of `pos` at offset
`d`, when its chunk is loaded (the hint chunk counts as loaded). -/
def TileRenderer.neighborBiome {Image Biome : Type} (R : TileRenderer Image Biome)
    (pos : BlockPos) (chunk : Chunk) (d : Int × Int) : Option Nat :=
  let other := pos.add ⟨d.1, d.2, 0⟩
  if R.posApi.chunkOf other = chunk.pos then
    some (chunk.getBiomeAt (R.posApi.localOf other) % 256)
  else
    (R.world.getChunk (R.posApi.chunkOf other)).map
      (fun c => c.getBiomeAt (R.posApi.localOf other) % 256)

/-- Spec side: the biome ids of the contributing neighbours among the given
offsets, those whose chunk is loaded and whose id is in range. -/
def TileRenderer.contributing {Image Biome : Type} (R : TileRenderer Image Biome)
    (pos : BlockPos) (chunk : Chunk) (offsets : List (Int × Int)) : List Nat :=
  (offsets.filterMap (R.neighborBiome pos chunk)).filter
    (fun i => decide (i < R.consts.BIOMES_SIZE))

/-- A chunk of air with one biome id everywhere. -/
def biomeChunk (cp : ChunkPos) (biome_id : Nat) : Chunk where
  pos := cp
  getBlockID := fun _ => 0
  getBlockData := fun _ => 0
  getBiomeAt := fun _ => biome_id

/-- A world store for the biome blend: chunk (0, 0) has biome 2, chunk (-1, 0)
has biome 5, chunk (0, -1) has the out-of-range biome id 200, and no other
chunk is loaded. -/
def biomeWorld : WorldCache where
  getChunk := fun cp =>
    if cp = ⟨0, 0⟩ then some (biomeChunk cp 2)
    else if cp = ⟨-1, 0⟩ then some (biomeChunk cp 5)
    else if cp = ⟨0, -1⟩ then some (biomeChunk cp 200)
    else none

/-- The sample renderer over `biomeWorld`. -/
def biomeRenderer : TileRenderer Nat Nat where
  posApi := isoPos
  consts := demoConsts
  world := biomeWorld
  images := demoImages
  render_biomes := true

/-- The items of a row, in the order of the row set, that the flush loop
(lines 486-499) passes to `blocks.insert`: every item but a leaf item (id 18)
followed by a leaf item with the same `data & 3`. -/
def flushKept {Image : Type} : List (RenderBlock Image) → List (RenderBlock Image)
  | [] => []
  | [a] => [a]
  | a :: nxt :: rest =>
    if a.id = 18 ∧ nxt.id = 18 ∧ (nxt.data &&& 3) = (a.data &&& 3) then
      flushKept (nxt :: rest)
    else a :: flushKept (nxt :: rest)

/-- Leaves (id 18) at (0, 2, 0) and, next on the viewing diagonal, a block
whose 16-bit id is 274 = 256 + 18; air everywhere else. -/
def wideId (p : BlockPos) : Block :=
  if p = ⟨0, 0, 2⟩ then ⟨18, 0⟩
  else if p = ⟨1, -1, 1⟩ then ⟨274, 0⟩
  else ⟨0, 0⟩

/-- Two leaves of the same variant on one viewing diagonal, air everywhere
else. -/
def twoLeaves (p : BlockPos) : Block :=
  if p = ⟨0, 0, 2⟩ ∨ p = ⟨1, -1, 1⟩ then ⟨18, 0⟩ else ⟨0, 0⟩

/-! ## The projection formulas of the spec -/

/-- The render blocks that the loop over the top blocks (lines 382-500) passes
to `blocks.insert`, in the order of the calls; `none` when the loop has not
finished within `fuel` iterations. The rows are those of `tileBody`. -/
def TileRenderer.tileKept {Image Biome : Type} (R : TileRenderer Image Biome)
    (max_water : Int) :
    Nat → TileTopBlockIterator → Option Chunk → Option (List (RenderBlock Image))
  | 0, it, _ => if it.end_ then some [] else none
  | fuel + 1, it, chunk =>
    if it.end_ then some []
    else
      match R.rowLoop it.draw_x it.draw_y max_water (it.current.y + 1).toNat
          (BlockRowIterator.init it.current)
          { chunk := chunk, water := 0, row_nodes := [] } with
      | none => none
      | some st =>
        (R.tileKept max_water fuel (it.next R.posApi) st.chunk).map
          (fun l => flushKept st.row_nodes ++ l)

/-! ## The world store as seen through the chunk hint -/

/-- The world store hands out, for a chunk position, a chunk that carries
that position (`Chunk::getPos`). -/
def WorldCache.Stable (W : WorldCache) : Prop :=
  ∀ (cp : ChunkPos) (c : Chunk), W.getChunk cp = some c → c.pos = cp

/-- The chunk hint is a chunk the world store hands out for the hint's own
position (or there is no hint). -/
def TileRenderer.HintOk {Image Biome : Type} (R : TileRenderer Image Biome)
    (hint : Option Chunk) : Prop :=
  ∀ c, hint = some c → R.world.getChunk c.pos = some c

/-- Glass (id 20) at (24, 255, 23), the second top voxel of tile (0, 0) under
`isoPos`, and stone (id 1) at (25, 254, 22), the next voxel of its row; air
everywhere else. -/
def glassOverStone (p : BlockPos) : Block :=
  if p = ⟨24, 23, 255⟩ then ⟨20, 0⟩
  else if p = ⟨25, 22, 254⟩ then ⟨1, 0⟩
  else ⟨0, 0⟩

/-- Spec side: the voxel at `p` lets a shadow edge show. It is air, that is it
lies below y = 0, or in a chunk that is missing, or has id 0; or the catalog
reports its block transparent. The chunk is the one `getBlock` reads with the
hint `chunk`. -/
def TileRenderer.openAt {Image Biome : Type} (R : TileRenderer Image Biome)
    (chunk : Option Chunk) (p : BlockPos) : Bool :=
  if p.y < 0 then true
  else
    match R.chunkFor (R.posApi.chunkOf p) chunk with
    | none => true
    | some c =>
      decide (c.getBlockID (R.posApi.localOf p) % 65536 = 0) ||
        R.images.isBlockTransparent (c.getBlockID (R.posApi.localOf p) % 65536)
          (c.getBlockData (R.posApi.localOf p) % 65536)

/-- Stone at (0, 0, 0) with stone to its north, glass (id 20) to its east and
nothing below the bottom of the world; air everywhere else. -/
def edgeCorner (p : BlockPos) : Block :=
  if p = ⟨0, 0, 0⟩ ∨ p = ⟨0, -1, 0⟩ then ⟨1, 0⟩
  else if p = ⟨1, 0, 0⟩ then ⟨20, 0⟩
  else ⟨0, 0⟩

/-- The flags of a chest's data: the connectivity and edge flags and the four
double-chest flags, the connectivity constants shifted left by 4. -/
def Consts.chestFlags {Biome : Type} (K : Consts Biome) : List Nat :=
  [K.DATA_NORTH, K.DATA_SOUTH, K.DATA_EAST, K.DATA_WEST,
   K.EDGE_NORTH, K.EDGE_EAST, K.EDGE_BOTTOM,
   K.DATA_NORTH <<< 4, K.DATA_SOUTH <<< 4, K.DATA_EAST <<< 4, K.DATA_WEST <<< 4]

/-- The flags of a chest's data are flags of a `uint16_t`: each is a non-empty
set of bits below bit 16 and no two of them share a bit (the spec puts the
connectivity flags in bits 4-7, the double-chest flags in bits 8-11 and the
edge flags in distinct bits above). -/
def Consts.ChestFlagsOk {Biome : Type} (K : Consts Biome) : Prop :=
  (∀ f ∈ K.chestFlags, 0 < f ∧ f < 65536) ∧
    K.chestFlags.Pairwise (fun a b => a &&& b = 0)


/-! ## The walk of the top iterator -/

theorem TileTopBlockIterator.init_inv (P : PosApi) (tile : TilePos) (bs ts : Int) :
    TopInv P
      (P.getRow (TileTopBlockIterator.init P tile bs ts).top)
      (P.getCol (TileTopBlockIterator.init P tile bs ts).top)
      (TileTopBlockIterator.init P tile bs ts).top.y
      (TileTopBlockIterator.init P tile bs ts) := by
  constructor <;> simp [TileTopBlockIterator.init] <;> omega

theorem TileTopBlockIterator.next_fields (P : PosApi) (it : TileTopBlockIterator) :
    (it.next P).min_row = it.min_row ∧ (it.next P).max_row = it.max_row ∧
    (it.next P).min_col = it.min_col ∧ (it.next P).max_col = it.max_col ∧
    (it.next P).block_size = it.block_size ∧ (it.next P).tile_size = it.tile_size := by
  unfold TileTopBlockIterator.next
  split <;> simp

theorem TileTopBlockIterator.next_inv (P : PosApi) (hZ : P.ZStep) (hL : P.LeftStep)
    (r0 c0 y0 : Int) (it : TileTopBlockIterator) (h : TopInv P r0 c0 y0 it)
    (hne : it.is_end = false) :
    TopInv P r0 c0 y0 (it.next P) ∧ TopStep P r0 c0 it (it.next P) := by
  have hz := hZ it.current 1
  have hl := hL it.top
  have hz2 := hZ (it.top.sub ⟨1, 1, 0⟩) (it.min_col - P.getCol (it.top.sub ⟨1, 1, 0⟩) - 1)
  obtain ⟨h1, h2, h3, h4, h5, h6, h7, h8, h9, h10, h11, h12, h13, h14, h15, h16, h17⟩ := h
  have hnend : ¬ (P.getRow it.current = r0 + 68 ∧ P.getCol it.current = c0 - 30) := by
    intro hh
    rw [h13.mpr hh] at hne
    exact Bool.noConfusion hne
  by_cases hnew : P.getCol (it.current.add ⟨0, 1, 0⟩) > it.max_col ∨
      P.getRow (it.current.add ⟨0, 1, 0⟩) > it.max_row
  · by_cases hout : P.getCol (it.top.sub ⟨1, 1, 0⟩) < it.min_col - 1
    · refine ⟨⟨?_, ?_, ?_, ?_, ?_, ?_, ?_, ?_, ?_, ?_, ?_, ?_, ?_, ?_, ?_, ?_, ?_⟩, ?_⟩ <;>
        simp only [TileTopBlockIterator.next, TopStep, hne, hnew, hout, if_true, if_false,
          Bool.false_eq_true] <;>
        first
          | omega
          | rfl
          | (simp [BlockPos.add, BlockPos.sub]; omega)
          | (split_ifs <;> simp <;> omega)
    · refine ⟨⟨?_, ?_, ?_, ?_, ?_, ?_, ?_, ?_, ?_, ?_, ?_, ?_, ?_, ?_, ?_, ?_, ?_⟩, ?_⟩ <;>
        simp only [TileTopBlockIterator.next, TopStep, hne, hnew, hout, if_true, if_false,
          Bool.false_eq_true] <;>
        first
          | omega
          | rfl
          | (simp [BlockPos.add, BlockPos.sub]; omega)
          | (split_ifs <;> simp <;> omega)
  · refine ⟨⟨?_, ?_, ?_, ?_, ?_, ?_, ?_, ?_, ?_, ?_, ?_, ?_, ?_, ?_, ?_, ?_, ?_⟩, ?_⟩ <;>
      simp only [TileTopBlockIterator.next, TopStep, hne, hnew, if_true, if_false,
        Bool.false_eq_true] <;>
      first
        | omega
        | rfl
        | (simp [BlockPos.add, BlockPos.sub]; omega)
        | (split_ifs <;> simp <;> omega)

theorem TopInv.rank_le {P : PosApi} {r0 c0 y0 : Int} {it : TileTopBlockIterator}
    (h : TopInv P r0 c0 y0 it) : 0 ≤ it.rank P r0 c0 ∧ it.rank P r0 c0 ≤ 4968 := by
  obtain ⟨h1, h2, h3, h4, h5, h6, h7, h8, h9, h10, h11, h12, h13, h14, h15, h16, h17⟩ := h
  simp only [TileTopBlockIterator.rank, topRank]
  omega

theorem TopInv.rank_lt {P : PosApi} {r0 c0 y0 : Int} {it : TileTopBlockIterator}
    (h : TopInv P r0 c0 y0 it) (hne : it.is_end = false) : it.rank P r0 c0 < 4968 := by
  obtain ⟨h1, h2, h3, h4, h5, h6, h7, h8, h9, h10, h11, h12, h13, h14, h15, h16, h17⟩ := h
  have hnend : ¬ (P.getRow it.current = r0 + 68 ∧ P.getCol it.current = c0 - 30) := by
    intro hh
    rw [h13.mpr hh] at hne
    exact Bool.noConfusion hne
  simp only [TileTopBlockIterator.rank, topRank]
  omega

theorem TopInv.lattice {P : PosApi} {r0 c0 y0 : Int} {it : TileTopBlockIterator}
    (h : TopInv P r0 c0 y0 it) :
    InLattice r0 c0 (P.getRow it.current) (P.getCol it.current) := by
  obtain ⟨h1, h2, h3, h4, h5, h6, h7, h8, h9, h10, h11, h12, h13, h14, h15, h16, h17⟩ := h
  simp only [InLattice]
  omega

theorem TileTopBlockIterator.rank_next_gt {P : PosApi} {r0 c0 y0 : Int}
    {it : TileTopBlockIterator} (h : TopInv P r0 c0 y0 it)
    (h' : TopInv P r0 c0 y0 (it.next P)) (hs : TopStep P r0 c0 it (it.next P)) :
    it.rank P r0 c0 < (it.next P).rank P r0 c0 := by
  have a := h.lattice
  have b := h'.lattice
  simp only [InLattice] at a b
  simp only [TileTopBlockIterator.rank, topRank, TopStep] at hs ⊢
  omega

/-- The step goes to the next lattice pair in rank order: no pair of the
lattice lies strictly between the current block and its successor. -/
theorem TileTopBlockIterator.rank_next_le {P : PosApi} {r0 c0 y0 : Int}
    {it : TileTopBlockIterator} (h : TopInv P r0 c0 y0 it)
    (h' : TopInv P r0 c0 y0 (it.next P)) (hs : TopStep P r0 c0 it (it.next P))
    (row col : Int) (hT : InLattice r0 c0 row col)
    (hlt : it.rank P r0 c0 < topRank r0 c0 row col) :
    (it.next P).rank P r0 c0 ≤ topRank r0 c0 row col := by
  have a := h.lattice
  have b := h'.lattice
  simp only [InLattice] at a b hT
  simp only [TileTopBlockIterator.rank, topRank, TopStep] at hs hlt ⊢
  omega

theorem topRank_inj {r0 c0 r1 c1 r2 c2 : Int} (h1 : InLattice r0 c0 r1 c1)
    (h2 : InLattice r0 c0 r2 c2) (h : topRank r0 c0 r1 c1 = topRank r0 c0 r2 c2) :
    r1 = r2 ∧ c1 = c2 := by
  simp only [InLattice] at h1 h2
  simp only [topRank] at h
  omega

theorem TileTopBlockIterator.run_of_end (P : PosApi) (fuel : Nat)
    (it : TileTopBlockIterator) (h : it.is_end = true) :
    TileTopBlockIterator.run P fuel it = some [] := by
  cases fuel <;> simp [TileTopBlockIterator.run, TileTopBlockIterator.end_, h]

theorem TileTopBlockIterator.run_of_not_end (P : PosApi) (fuel : Nat)
    (it : TileTopBlockIterator) (h : it.is_end = false) :
    TileTopBlockIterator.run P (fuel + 1) it =
      (TileTopBlockIterator.run P fuel (it.next P)).map (fun l => it :: l) := by
  simp [TileTopBlockIterator.run, TileTopBlockIterator.end_, h]

theorem topRun_exists (P : PosApi) (hZ : P.ZStep) (hL : P.LeftStep) (r0 c0 y0 : Int) :
    ∀ (m : Nat) (it : TileTopBlockIterator), TopInv P r0 c0 y0 it →
      4968 - it.rank P r0 c0 ≤ m → ∃ ys, TopRun P r0 c0 y0 it ys := by
  intro m
  induction m with
  | zero =>
    intro it h hm
    have hend : it.is_end = true := by
      cases hb : it.is_end with
      | true => rfl
      | false =>
        have := h.rank_lt hb
        omega
    refine ⟨[], ?_, ?_, ?_, ?_, ?_, ?_, ?_, ?_⟩
    · intro fuel _
      exact TileTopBlockIterator.run_of_end P fuel it hend
    · intro s hs
      cases hs
    · exact List.Pairwise.nil
    · intro row col hT hle hlt
      have := h.rank_le
      omega
    · simpa using h
    · simpa using hend
    · intro j hj
      simp at hj
    · intro s hs
      cases hs
  | succ m ih =>
    intro it h hm
    cases hb : it.is_end with
    | true =>
      refine ⟨[], ?_, ?_, ?_, ?_, ?_, ?_, ?_, ?_⟩
      · intro fuel _
        exact TileTopBlockIterator.run_of_end P fuel it hb
      · intro s hs
        cases hs
      · exact List.Pairwise.nil
      · intro row col hT hle hlt
        have e := (h.end_iff).mp hb
        simp only [TileTopBlockIterator.rank, topRank] at hle
        simp only [topRank] at hlt
        simp only [InLattice] at hT
        omega
      · simpa using h
      · simpa using hb
      · intro j hj
        simp at hj
      · intro s hs
        cases hs
    | false =>
      obtain ⟨h', hs⟩ := TileTopBlockIterator.next_inv P hZ hL r0 c0 y0 it h hb
      have hgt := TileTopBlockIterator.rank_next_gt h h' hs
      obtain ⟨ys, hys⟩ := ih (it.next P) h' (by omega)
      refine ⟨it :: ys, ?_, ?_, ?_, ?_, ?_, ?_, ?_, ?_⟩
      · intro fuel hf
        cases fuel with
        | zero => simp at hf
        | succ f =>
          rw [TileTopBlockIterator.run_of_not_end P f it hb,
            hys.run_eq f (by simpa using hf)]
          rfl
      · intro s hs
        rcases List.mem_cons.mp hs with rfl | hs
        · exact ⟨h, hb, le_refl _⟩
        · obtain ⟨a, b, c⟩ := hys.inv s hs
          exact ⟨a, b, by omega⟩
      · refine List.Pairwise.cons ?_ hys.sorted
        intro s hs
        have := (hys.inv s hs).2.2
        omega
      · intro row col hT hle hlt
        by_cases heq : it.rank P r0 c0 = topRank r0 c0 row col
        · obtain ⟨e1, e2⟩ := topRank_inj h.lattice hT heq
          exact ⟨it, List.mem_cons_self _ _, e1, e2⟩
        · have hlt2 : it.rank P r0 c0 < topRank r0 c0 row col := by omega
          have := TileTopBlockIterator.rank_next_le h h' hs row col hT hlt2
          obtain ⟨s, hs1, hs2⟩ := hys.cover row col hT this hlt
          exact ⟨s, List.mem_cons_of_mem _ hs1, hs2⟩
      · simpa [Function.iterate_succ_apply] using hys.final_inv
      · simpa [Function.iterate_succ_apply] using hys.final_end
      · intro j hj
        cases j with
        | zero => simpa using hb
        | succ j =>
          simpa [Function.iterate_succ_apply] using
            hys.before_end j (by simpa using hj)
      · intro s hs
        rcases List.mem_cons.mp hs with rfl | hs
        · exact ⟨rfl, rfl⟩
        · obtain ⟨a, b⟩ := hys.sizes s hs
          have f := TileTopBlockIterator.next_fields P it
          exact ⟨a.trans f.2.2.2.2.1, b.trans f.2.2.2.2.2⟩

/-- The loop over the top iterator of a tile finishes; `ys` lists its states. -/
theorem topRun_init (P : PosApi) (hZ : P.ZStep) (hL : P.LeftStep) (tile : TilePos)
    (bs ts : Int) :
    ∃ ys, TopRun P
      (P.getRow (TileTopBlockIterator.init P tile bs ts).top)
      (P.getCol (TileTopBlockIterator.init P tile bs ts).top)
      (TileTopBlockIterator.init P tile bs ts).top.y
      (TileTopBlockIterator.init P tile bs ts) ys := by
  have h := TileTopBlockIterator.init_inv P tile bs ts
  exact topRun_exists P hZ hL _ _ _
    (4968 - (TileTopBlockIterator.init P tile bs ts).rank P
      (P.getRow (TileTopBlockIterator.init P tile bs ts).top)
      (P.getCol (TileTopBlockIterator.init P tile bs ts).top)).toNat _ h
    (by omega)


theorem isoPos_zstep : isoPos.ZStep := by
  intro p d
  simp only [isoPos, BlockPos.add]
  constructor <;> omega

theorem isoPos_leftstep : isoPos.LeftStep := by
  intro p
  simp only [isoPos, BlockPos.sub]
  constructor <;> omega

theorem isoPos_diagstep : isoPos.DiagStep := by
  intro p
  simp only [isoPos]
  constructor <;> omega

theorem isoPos_keepsheight : isoPos.KeepsHeight := by
  intro l c
  rfl

theorem TopRun.nodup {P : PosApi} {r0 c0 y0 : Int} {it : TileTopBlockIterator}
    {ys : List TileTopBlockIterator} (h : TopRun P r0 c0 y0 it ys) :
    (ys.map (TileTopBlockIterator.rowCol P)).Nodup := by
  rw [List.Nodup, List.pairwise_map]
  refine h.sorted.imp ?_
  intro a b hab heq
  simp only [TileTopBlockIterator.rowCol, Prod.mk.injEq] at heq
  simp only [TileTopBlockIterator.rank, heq.1, heq.2] at hab
  omega

theorem countP_eq_one_of_nodup {α β : Type} [DecidableEq β] (g : α → β) (x : β) :
    ∀ l : List α, (l.map g).Nodup → x ∈ l.map g →
      l.countP (fun s => decide (g s = x)) = 1 := by
  intro l
  induction l with
  | nil => intro _ h; simp at h
  | cons a l ih =>
    intro hnd hmem
    rw [List.map_cons, List.nodup_cons] at hnd
    by_cases ha : g a = x
    · have hz : l.countP (fun s => decide (g s = x)) = 0 := by
        rw [List.countP_eq_zero]
        intro s hs hsx
        exact hnd.1 (List.mem_map.mpr ⟨s, hs, by rw [ha]; simpa using hsx⟩)
      simp [List.countP_cons, ha, hz]
    · have hx : x ∈ l.map g := by
        rw [List.map_cons] at hmem
        rcases List.mem_cons.mp hmem with h | h
        · exact absurd h.symm ha
        · exact h
      simp [List.countP_cons, ha, ih hnd.2 hx]

/-- Pairs of the lattice other than the final one are met exactly once. -/
theorem TopRun.count_one {P : PosApi} {r0 c0 y0 : Int} {it : TileTopBlockIterator}
    {ys : List TileTopBlockIterator} (h : TopRun P r0 c0 y0 it ys)
    (row col : Int) (hT : InLattice r0 c0 row col)
    (hge : it.rank P r0 c0 ≤ topRank r0 c0 row col)
    (hlt : topRank r0 c0 row col < 4968) :
    ys.countP (fun s => decide (s.rowCol P = (row, col))) = 1 := by
  obtain ⟨s, hs, e1, e2⟩ := h.cover row col hT hge hlt
  refine countP_eq_one_of_nodup _ _ ys h.nodup ?_
  refine List.mem_map.mpr ⟨s, hs, ?_⟩
  simp [TileTopBlockIterator.rowCol, e1, e2]

/-- Pairs off the lattice, and the pair at which the iterator ends, are never met. -/
theorem TopRun.count_zero {P : PosApi} {r0 c0 y0 : Int} {it : TileTopBlockIterator}
    {ys : List TileTopBlockIterator} (h : TopRun P r0 c0 y0 it ys)
    (row col : Int)
    (hT : ¬ InLattice r0 c0 row col ∨ (row = r0 + 68 ∧ col = c0 - 30)) :
    ys.countP (fun s => decide (s.rowCol P = (row, col))) = 0 := by
  rw [List.countP_eq_zero]
  intro s hs hsx
  have e : s.rowCol P = (row, col) := by simpa using hsx
  simp only [TileTopBlockIterator.rowCol, Prod.mk.injEq] at e
  obtain ⟨hinv, hne, _⟩ := h.inv s hs
  rcases hT with hT | hT
  · exact hT (by simpa [e.1, e.2] using hinv.lattice)
  · have := hinv.end_iff.mpr (by rw [e.1, e.2]; exact hT)
    rw [this] at hne
    exact Bool.noConfusion hne

/-! ## The row iterator -/

theorem BlockRowIterator.iterate_next (p : BlockPos) (j : Nat) :
    BlockRowIterator.next^[j] (BlockRowIterator.init p) =
      ⟨⟨p.x + j, p.z - j, p.y - j⟩⟩ := by
  induction j with
  | zero => simp [BlockRowIterator.init]
  | succ j ih =>
    rw [Function.iterate_succ_apply', ih]
    simp only [BlockRowIterator.next, Nat.cast_add, Nat.cast_one, BlockRowIterator.mk.injEq,
      BlockPos.mk.injEq]
    refine ⟨?_, ?_, ?_⟩ <;> omega

theorem rowBlocks_succ (p : BlockPos) (n : Nat) :
    rowBlocks p (n + 1) = p :: rowBlocks ⟨p.x + 1, p.z - 1, p.y - 1⟩ n := by
  simp only [rowBlocks, List.range_succ_eq_map, List.map_cons, List.map_map]
  congr 1
  · simp
  · refine List.map_congr_left ?_
    intro i _
    simp only [Function.comp, Nat.succ_eq_add_one, Nat.cast_add, Nat.cast_one,
      BlockPos.mk.injEq]
    refine ⟨?_, ?_, ?_⟩ <;> omega

/-- Started at height `y ≥ 0` the row loop runs `y + 1` times, over the blocks
of `rowBlocks`, for every fuel of at least `y + 1`. -/
theorem BlockRowIterator.run_eq_rowBlocks :
    ∀ (n : Nat) (p : BlockPos), p.y + 1 = n → ∀ fuel, n ≤ fuel →
      BlockRowIterator.run fuel (BlockRowIterator.init p) = some (rowBlocks p n) := by
  intro n
  induction n with
  | zero =>
    intro p hp fuel _
    have hy : p.y < 0 := by omega
    cases fuel <;>
      simp [BlockRowIterator.run, BlockRowIterator.end_, BlockRowIterator.init, hy, rowBlocks]
  | succ n ih =>
    intro p hp fuel hf
    have hy : ¬ p.y < 0 := by omega
    cases fuel with
    | zero => omega
    | succ f =>
      have := ih ⟨p.x + 1, p.z - 1, p.y - 1⟩ (by simp only []; omega) f (by omega)
      simp only [BlockRowIterator.init] at this
      simp [BlockRowIterator.run, BlockRowIterator.end_, BlockRowIterator.init, hy,
        BlockRowIterator.next, this, rowBlocks_succ]

theorem rowBlocks_length (p : BlockPos) (n : Nat) : (rowBlocks p n).length = n := by
  simp [rowBlocks]

theorem mem_rowBlocks {p q : BlockPos} {n : Nat} (h : q ∈ rowBlocks p n) :
    ∃ i : Nat, i < n ∧ q = ⟨p.x + i, p.z - i, p.y - i⟩ := by
  simp only [rowBlocks, List.mem_map, List.mem_range] at h
  obtain ⟨i, hi, e⟩ := h
  exact ⟨i, hi, e.symm⟩

/-! ## Truncated division in the pixel offsets -/

theorem tdiv_mul_nonneg {k bs d : Int} (hk : 0 ≤ k) (hbs : 0 ≤ bs) (hd : 0 ≤ d) :
    (k * bs).tdiv d = (k * bs) / d :=
  Int.tdiv_eq_ediv (Int.mul_nonneg hk hbs) hd

theorem tdiv_neg_one_mul {bs d : Int} (hbs : 0 ≤ bs) (hd : 0 ≤ d) :
    ((-1) * bs).tdiv d = -(bs / d) := by
  rw [neg_one_mul, Int.neg_tdiv, Int.tdiv_eq_ediv hbs hd]

theorem draw_x_bounds {k bs : Int} (hk : -1 ≤ k) (hk2 : k ≤ 32) (hbs : 0 ≤ bs) :
    -(bs.tdiv 2) ≤ (k * bs).tdiv 2 ∧ (k * bs).tdiv 2 ≤ 16 * bs := by
  rw [Int.tdiv_eq_ediv hbs (by decide)]
  rcases (show k = -1 ∨ 0 ≤ k by omega) with rfl | h0
  · rw [tdiv_neg_one_mul hbs (by decide)]
    omega
  · rw [tdiv_mul_nonneg h0 hbs (by decide)]
    have h1 : 0 ≤ k * bs := Int.mul_nonneg h0 hbs
    have h2 : k * bs ≤ 32 * bs := Int.mul_le_mul_of_nonneg_right hk2 hbs
    omega

theorem draw_y_bounds {k bs : Int} (hk : -1 ≤ k) (hk2 : k ≤ 67) (hbs : 0 ≤ bs) :
    -bs ≤ (k * bs).tdiv 4 - bs.tdiv 2 ∧
      (k * bs).tdiv 4 - bs.tdiv 2 ≤ 16 * bs + bs.tdiv 4 + 1 := by
  rw [Int.tdiv_eq_ediv hbs (by decide), Int.tdiv_eq_ediv hbs (by decide)]
  rcases (show k = -1 ∨ 0 ≤ k by omega) with rfl | h0
  · rw [tdiv_neg_one_mul hbs (by decide)]
    omega
  · rw [tdiv_mul_nonneg h0 hbs (by decide)]
    have h1 : 0 ≤ k * bs := Int.mul_nonneg h0 hbs
    have h2 : k * bs ≤ 67 * bs := Int.mul_le_mul_of_nonneg_right hk2 hbs
    omega

/-! ## C1 - C4: the walk over a tile -/

/-- C1 (as amended). For every tile, the loop over the top iterator finishes,
and for every (row, col) with `min_row ≤ row ≤ max_row` and
`min_col ≤ col ≤ max_col`: when `row - col` has the parity of the first block
and (row, col) is not (max_row, min_col), exactly one yielded voxel has that
row and column; otherwise none has. -/
theorem top_iterator_covers_lattice_once (P : PosApi) (hZ : P.ZStep) (hL : P.LeftStep)
    (tile : TilePos) (bs ts : Int) :
    ∃ fuel ys,
      TileTopBlockIterator.run P fuel (TileTopBlockIterator.init P tile bs ts) = some ys ∧
      ∀ row col : Int,
        (TileTopBlockIterator.init P tile bs ts).min_row ≤ row →
        row ≤ (TileTopBlockIterator.init P tile bs ts).max_row →
        (TileTopBlockIterator.init P tile bs ts).min_col ≤ col →
        col ≤ (TileTopBlockIterator.init P tile bs ts).max_col →
        ys.countP (fun s => decide (s.rowCol P = (row, col))) =
          if ((row - col) - (P.getRow (TileTopBlockIterator.init P tile bs ts).current -
                P.getCol (TileTopBlockIterator.init P tile bs ts).current)) % 2 = 0 ∧
              ¬ (row = (TileTopBlockIterator.init P tile bs ts).max_row ∧
                  col = (TileTopBlockIterator.init P tile bs ts).min_col)
          then 1 else 0 := by
  obtain ⟨ys, h⟩ := topRun_init P hZ hL tile bs ts
  refine ⟨ys.length, ys, h.run_eq _ (le_refl _), ?_⟩
  intro row col h1 h2 h3 h4
  simp only [TileTopBlockIterator.init] at h1 h2 h3 h4 h ⊢
  split_ifs with hc
  · refine h.count_one row col ?_ ?_ ?_
    · simp only [InLattice]; omega
    · simp only [TileTopBlockIterator.rank, topRank]; omega
    · simp only [topRank]; omega
  · refine h.count_zero row col ?_
    by_cases hpar : ((row - col) - (P.getRow (P.toGlobalPos ⟨8, 6, 255⟩
        (P.byRowCol (4 * tile.y) (2 * tile.x + 2))) - P.getCol (P.toGlobalPos ⟨8, 6, 255⟩
        (P.byRowCol (4 * tile.y) (2 * tile.x + 2))))) % 2 = 0
    · right
      have : row = P.getRow (P.toGlobalPos ⟨8, 6, 255⟩
          (P.byRowCol (4 * tile.y) (2 * tile.x + 2))) + 64 + 4 ∧
          col = P.getCol (P.toGlobalPos ⟨8, 6, 255⟩
          (P.byRowCol (4 * tile.y) (2 * tile.x + 2))) + 2 - 32 := by
        by_contra hn
        exact hc ⟨hpar, hn⟩
      omega
    · left
      simp only [InLattice]
      omega

/-- C1, witness: the amended statement at tile (0, 0), block size 16. -/
theorem top_iterator_covers_lattice_once_witness :
    isoPos.ZStep ∧ isoPos.LeftStep ∧
    ∃ fuel ys,
      TileTopBlockIterator.run isoPos fuel (TileTopBlockIterator.init isoPos ⟨0, 0⟩ 16 256)
        = some ys ∧
      ∀ row col : Int,
        (TileTopBlockIterator.init isoPos ⟨0, 0⟩ 16 256).min_row ≤ row →
        row ≤ (TileTopBlockIterator.init isoPos ⟨0, 0⟩ 16 256).max_row →
        (TileTopBlockIterator.init isoPos ⟨0, 0⟩ 16 256).min_col ≤ col →
        col ≤ (TileTopBlockIterator.init isoPos ⟨0, 0⟩ 16 256).max_col →
        ys.countP (fun s => decide (s.rowCol isoPos = (row, col))) =
          if ((row - col) -
                (isoPos.getRow (TileTopBlockIterator.init isoPos ⟨0, 0⟩ 16 256).current -
                isoPos.getCol (TileTopBlockIterator.init isoPos ⟨0, 0⟩ 16 256).current)) % 2 = 0 ∧
              ¬ (row = (TileTopBlockIterator.init isoPos ⟨0, 0⟩ 16 256).max_row ∧
                  col = (TileTopBlockIterator.init isoPos ⟨0, 0⟩ 16 256).min_col)
          then 1 else 0 :=
  ⟨isoPos_zstep, isoPos_leftstep,
    top_iterator_covers_lattice_once isoPos isoPos_zstep isoPos_leftstep ⟨0, 0⟩ 16 256⟩

/-- C1, counterexample. At tile (0, 0) the bounds are rows 1..68 and columns
16..48; the loop over the top iterator finishes, and neither (68, 16), the
pair (max_row, min_col), nor (1, 16), a pair of the other parity, is the
(row, col) of exactly one yielded voxel. -/
theorem top_iterator_misses_positions :
    (TileTopBlockIterator.init isoPos ⟨0, 0⟩ 16 256).min_row = 1 ∧
    (TileTopBlockIterator.init isoPos ⟨0, 0⟩ 16 256).max_row = 68 ∧
    (TileTopBlockIterator.init isoPos ⟨0, 0⟩ 16 256).min_col = 16 ∧
    (TileTopBlockIterator.init isoPos ⟨0, 0⟩ 16 256).max_col = 48 ∧
    ∃ fuel ys,
      TileTopBlockIterator.run isoPos fuel (TileTopBlockIterator.init isoPos ⟨0, 0⟩ 16 256)
        = some ys ∧
      ys.countP (fun s => decide (s.rowCol isoPos = (68, 16))) ≠ 1 ∧
      ys.countP (fun s => decide (s.rowCol isoPos = (1, 16))) ≠ 1 := by
  refine ⟨by decide, by decide, by decide, by decide, ?_⟩
  obtain ⟨ys, h⟩ := topRun_init isoPos isoPos_zstep isoPos_leftstep ⟨0, 0⟩ 16 256
  have e1 : isoPos.getRow (TileTopBlockIterator.init isoPos ⟨0, 0⟩ 16 256).top = 0 := by
    decide
  have e2 : isoPos.getCol (TileTopBlockIterator.init isoPos ⟨0, 0⟩ 16 256).top = 46 := by
    decide
  rw [e1, e2] at h
  refine ⟨ys.length, ys, h.run_eq _ (le_refl _), ?_, ?_⟩
  · rw [h.count_zero 68 16 (Or.inr ⟨by decide, by decide⟩)]
    decide
  · rw [h.count_zero 1 16 (Or.inl (by simp only [InLattice]; omega))]
    decide

/-- C2. For every tile, block size and tile size there is an `n` such that
after `n` calls of `next()` the method `end()` is true, not before; the
iterator then stands at row `max_row` and column `min_col` or `min_col + 1`. -/
theorem top_iterator_terminates (P : PosApi) (hZ : P.ZStep) (hL : P.LeftStep)
    (tile : TilePos) (bs ts : Int) :
    ∃ n : Nat,
      ((TileTopBlockIterator.next P)^[n] (TileTopBlockIterator.init P tile bs ts)).end_
        = true ∧
      P.getRow ((TileTopBlockIterator.next P)^[n]
          (TileTopBlockIterator.init P tile bs ts)).current =
        (TileTopBlockIterator.init P tile bs ts).max_row ∧
      (P.getCol ((TileTopBlockIterator.next P)^[n]
          (TileTopBlockIterator.init P tile bs ts)).current =
          (TileTopBlockIterator.init P tile bs ts).min_col ∨
        P.getCol ((TileTopBlockIterator.next P)^[n]
          (TileTopBlockIterator.init P tile bs ts)).current =
          (TileTopBlockIterator.init P tile bs ts).min_col + 1) ∧
      ∀ j, j < n →
        ((TileTopBlockIterator.next P)^[j] (TileTopBlockIterator.init P tile bs ts)).end_
          = false := by
  obtain ⟨ys, h⟩ := topRun_init P hZ hL tile bs ts
  have he := h.final_inv.end_iff.mp h.final_end
  refine ⟨ys.length, h.final_end, ?_, Or.inl ?_, h.before_end⟩
  · rw [he.1]
    simp only [TileTopBlockIterator.init]
    omega
  · rw [he.2]
    simp only [TileTopBlockIterator.init]
    omega

/-- C2, witness: termination at tile (3, -2) with block size 16. -/
theorem top_iterator_terminates_witness :
    isoPos.ZStep ∧ isoPos.LeftStep ∧
    ∃ n : Nat,
      ((TileTopBlockIterator.next isoPos)^[n]
        (TileTopBlockIterator.init isoPos ⟨3, -2⟩ 16 256)).end_ = true ∧
      isoPos.getRow ((TileTopBlockIterator.next isoPos)^[n]
          (TileTopBlockIterator.init isoPos ⟨3, -2⟩ 16 256)).current =
        (TileTopBlockIterator.init isoPos ⟨3, -2⟩ 16 256).max_row ∧
      (isoPos.getCol ((TileTopBlockIterator.next isoPos)^[n]
          (TileTopBlockIterator.init isoPos ⟨3, -2⟩ 16 256)).current =
          (TileTopBlockIterator.init isoPos ⟨3, -2⟩ 16 256).min_col ∨
        isoPos.getCol ((TileTopBlockIterator.next isoPos)^[n]
          (TileTopBlockIterator.init isoPos ⟨3, -2⟩ 16 256)).current =
          (TileTopBlockIterator.init isoPos ⟨3, -2⟩ 16 256).min_col + 1) ∧
      ∀ j, j < n →
        ((TileTopBlockIterator.next isoPos)^[j]
          (TileTopBlockIterator.init isoPos ⟨3, -2⟩ 16 256)).end_ = false :=
  ⟨isoPos_zstep, isoPos_leftstep,
    top_iterator_terminates isoPos isoPos_zstep isoPos_leftstep ⟨3, -2⟩ 16 256⟩

/-- C3. Every voxel yielded by the top iterator has height 255, so the row
iterator started there reaches `end()` after at most 256 calls of `next()`;
and started at any block of height `y ≥ 0` the row loop runs over exactly the
`y + 1` blocks of heights `y, y - 1, ..., 0`, `end()` being true after `y + 1`
calls of `next()` and not before. -/
theorem row_iterator_terminates (P : PosApi) (hZ : P.ZStep) (hL : P.LeftStep)
    (hK : P.KeepsHeight) (tile : TilePos) (bs ts : Int) :
    (∃ fuel ys,
      TileTopBlockIterator.run P fuel (TileTopBlockIterator.init P tile bs ts) = some ys ∧
      ∀ s ∈ ys, 0 ≤ s.current.y ∧ s.current.y ≤ 255 ∧
        ∃ n : Nat, n ≤ 256 ∧
          (BlockRowIterator.next^[n] (BlockRowIterator.init s.current)).end_ = true) ∧
    (∀ p : BlockPos, 0 ≤ p.y →
      BlockRowIterator.run (p.y + 1).toNat (BlockRowIterator.init p) =
        some (rowBlocks p (p.y + 1).toNat) ∧
      (rowBlocks p (p.y + 1).toNat).length = (p.y + 1).toNat ∧
      (rowBlocks p (p.y + 1).toNat).map (fun q => q.y) =
        (List.range (p.y + 1).toNat).map (fun (i : Nat) => p.y - (i : Int)) ∧
      (BlockRowIterator.next^[(p.y + 1).toNat] (BlockRowIterator.init p)).end_ = true ∧
      ∀ j, j < (p.y + 1).toNat →
        (BlockRowIterator.next^[j] (BlockRowIterator.init p)).end_ = false) := by
  constructor
  · obtain ⟨ys, h⟩ := topRun_init P hZ hL tile bs ts
    refine ⟨ys.length, ys, h.run_eq _ (le_refl _), ?_⟩
    intro s hs
    have hy := (h.inv s hs).1.cur_y
    have h255 : (TileTopBlockIterator.init P tile bs ts).top.y = 255 := by
      simp only [TileTopBlockIterator.init]
      exact hK _ _
    rw [h255] at hy
    refine ⟨by omega, by omega, 256, le_refl _, ?_⟩
    rw [BlockRowIterator.iterate_next]
    simp only [BlockRowIterator.end_, hy]
    decide
  · intro p hp
    refine ⟨?_, rowBlocks_length _ _, ?_, ?_, ?_⟩
    · exact BlockRowIterator.run_eq_rowBlocks _ p (by omega) _ (le_refl _)
    · simp [rowBlocks]
    · rw [BlockRowIterator.iterate_next]
      simp only [BlockRowIterator.end_, decide_eq_true_eq]
      omega
    · intro j hj
      rw [BlockRowIterator.iterate_next]
      simp only [BlockRowIterator.end_, decide_eq_false_iff_not]
      omega

/-- C3, witness: tile (0, 0), and the row started at the block (24, 22, 255). -/
theorem row_iterator_terminates_witness :
    isoPos.ZStep ∧ isoPos.LeftStep ∧ isoPos.KeepsHeight ∧ (0 : Int) ≤ 255 ∧
    BlockRowIterator.run 256 (BlockRowIterator.init ⟨24, 22, 255⟩) =
      some (rowBlocks ⟨24, 22, 255⟩ 256) :=
  ⟨isoPos_zstep, isoPos_leftstep, isoPos_keepsheight, by decide,
    ((row_iterator_terminates isoPos isoPos_zstep isoPos_leftstep isoPos_keepsheight
      ⟨0, 0⟩ 16 256).2 ⟨24, 22, 255⟩ (by decide)).1⟩

/-- C4 (as amended). With `block_size ≥ 0` and `tile_size = 16 * block_size`,
every voxel yielded by the top iterator has
`-block_size/2 ≤ draw_x ≤ tile_size` and
`-block_size ≤ draw_y ≤ tile_size + block_size/4 + 1`. -/
theorem draw_offsets_bounded (P : PosApi) (hZ : P.ZStep) (hL : P.LeftStep)
    (tile : TilePos) (bs ts : Int) (hbs : 0 ≤ bs) (hts : ts = 16 * bs) :
    ∃ fuel ys,
      TileTopBlockIterator.run P fuel (TileTopBlockIterator.init P tile bs ts) = some ys ∧
      ∀ s ∈ ys, -(bs.tdiv 2) ≤ s.draw_x ∧ s.draw_x ≤ ts ∧
        -bs ≤ s.draw_y ∧ s.draw_y ≤ ts + bs.tdiv 4 + 1 := by
  obtain ⟨ys, h⟩ := topRun_init P hZ hL tile bs ts
  refine ⟨ys.length, ys, h.run_eq _ (le_refl _), ?_⟩
  intro s hs
  obtain ⟨hinv, _, _⟩ := h.inv s hs
  have hb : s.block_size = bs := (h.sizes s hs).1
  have hx := hinv.draw_x_eq
  have hy := hinv.draw_y_eq
  have h1 := hinv.min_row_eq
  have h2 := hinv.min_col_eq
  have h3 := hinv.row_lo
  have h4 := hinv.row_hi
  have h5 := hinv.col_lo
  have h6 := hinv.col_hi
  rw [hb] at hx hy
  have bx := draw_x_bounds (k := P.getCol s.current - s.min_col) (by omega) (by omega) hbs
  have by_ := draw_y_bounds (k := P.getRow s.current - s.min_row) (by omega) (by omega) hbs
  rw [← hx] at bx
  rw [← hy] at by_
  subst hts
  exact ⟨bx.1, bx.2, by_.1, by_.2⟩

/-- C4, witness: the amended bounds at tile (0, 0), block size 16, tile size 256. -/
theorem draw_offsets_bounded_witness :
    isoPos.ZStep ∧ isoPos.LeftStep ∧ (0 : Int) ≤ 16 ∧ (256 : Int) = 16 * 16 ∧
    ∃ fuel ys,
      TileTopBlockIterator.run isoPos fuel (TileTopBlockIterator.init isoPos ⟨0, 0⟩ 16 256)
        = some ys ∧
      ∀ s ∈ ys, -((16 : Int).tdiv 2) ≤ s.draw_x ∧ s.draw_x ≤ 256 ∧
        -16 ≤ s.draw_y ∧ s.draw_y ≤ 256 + (16 : Int).tdiv 4 + 1 :=
  ⟨isoPos_zstep, isoPos_leftstep, by decide, by decide,
    draw_offsets_bounded isoPos isoPos_zstep isoPos_leftstep ⟨0, 0⟩ 16 256
      (by decide) (by decide)⟩

/-- C4, counterexample. At tile (0, 0) with block size 16 and tile size
256 = 16 * 16 the top iterator yields a voxel with `draw_y = 260`, which is
above `tile_size`. -/
theorem draw_y_exceeds_tile_size :
    ∃ fuel ys,
      TileTopBlockIterator.run isoPos fuel (TileTopBlockIterator.init isoPos ⟨0, 0⟩ 16 256)
        = some ys ∧
      ∃ s ∈ ys, s.draw_y = 260 ∧ ¬ (s.draw_y ≤ 256) := by
  obtain ⟨ys, h⟩ := topRun_init isoPos isoPos_zstep isoPos_leftstep ⟨0, 0⟩ 16 256
  have e1 : isoPos.getRow (TileTopBlockIterator.init isoPos ⟨0, 0⟩ 16 256).top = 0 := by
    decide
  have e2 : isoPos.getCol (TileTopBlockIterator.init isoPos ⟨0, 0⟩ 16 256).top = 46 := by
    decide
  rw [e1, e2] at h
  obtain ⟨s, hs, hr, _⟩ := h.cover 68 48 (by simp only [InLattice]; omega)
    (by simp only [TileTopBlockIterator.rank, topRank, TileTopBlockIterator.init]; decide)
    (by decide)
  refine ⟨ys.length, ys, h.run_eq _ (le_refl _), s, hs, ?_⟩
  have hy := (h.inv s hs).1.draw_y_eq
  have hb := (h.sizes s hs).1
  have hm := (h.inv s hs).1.min_row_eq
  rw [hr, hb, hm] at hy
  have hv : s.draw_y = 260 := by
    rw [hy]
    decide
  rw [hv]
  exact ⟨rfl, by decide⟩

/-! ## The ordered set and the loops of renderTile -/

theorem mem_setInsert {Image : Type} (x b : RenderBlock Image) :
    ∀ l : List (RenderBlock Image), b ∈ setInsert x l → b = x ∨ b ∈ l := by
  intro l
  induction l with
  | nil =>
    intro h
    simp only [setInsert, List.mem_singleton] at h
    exact Or.inl h
  | cons a l ih =>
    intro h
    simp only [setInsert] at h
    split_ifs at h
    · rcases List.mem_cons.mp h with h | h
      · exact Or.inr (h ▸ List.mem_cons_self _ _)
      · rcases ih h with h | h
        · exact Or.inl h
        · exact Or.inr (List.mem_cons_of_mem _ h)
    · rcases List.mem_cons.mp h with h | h
      · exact Or.inl h
      · exact Or.inr h
    · exact Or.inr h

theorem mem_collapseWater {Image Biome : Type} (R : TileRenderer Image Biome)
    (chunk : Option Chunk) (b : RenderBlock Image) :
    ∀ l : List (RenderBlock Image), b ∈ R.collapseWater chunk l →
      ∃ a ∈ l, SameSpot a b := by
  intro l
  induction l with
  | nil =>
    intro h
    simp [TileRenderer.collapseWater] at h
  | cons a l ih =>
    intro h
    simp only [TileRenderer.collapseWater] at h
    split_ifs at h
    · rcases mem_setInsert _ _ _ h with h | h
      · exact ⟨a, List.mem_cons_self _ _, by rw [h]; exact ⟨rfl, rfl, rfl⟩⟩
      · exact ⟨b, List.mem_cons_of_mem _ h, rfl, rfl, rfl⟩
    · obtain ⟨a', ha', hs⟩ := ih h
      exact ⟨a', List.mem_cons_of_mem _ ha', hs⟩

/-- Every render block in the variables after one run of the row body stands
for a voxel that was already there, or for the current voxel. -/
theorem TileRenderer.mem_rowBody {Image Biome : Type} (R : TileRenderer Image Biome)
    (dx dy mw : Int) (p : BlockPos) (st : RowState Image) (b : RenderBlock Image)
    (h : b ∈ (R.rowBody dx dy mw p st).1.row_nodes) :
    (∃ a ∈ st.row_nodes, SameSpot a b) ∨ (b.pos = p ∧ b.x = dx ∧ b.y = dy) := by
  unfold TileRenderer.rowBody at h
  simp only [] at h
  split at h
  · exact Or.inl ⟨b, h, rfl, rfl, rfl⟩
  · split_ifs at h
    all_goals
      first
        | exact Or.inl ⟨b, h, rfl, rfl, rfl⟩
        | exact Or.inl (mem_collapseWater R _ b _ h)
        | (rcases mem_setInsert _ _ _ h with h | h
           · exact Or.inr (by rw [h]; exact ⟨rfl, rfl, rfl⟩)
           · exact Or.inl ⟨b, h, rfl, rfl, rfl⟩)

/-- Every render block of a finished row stands for a voxel that was in the
variables at the start, or for one of the voxels of the row. -/
theorem TileRenderer.mem_rowLoop {Image Biome : Type} (R : TileRenderer Image Biome)
    (dx dy mw : Int) (b : RenderBlock Image) :
    ∀ (fuel : Nat) (block : BlockRowIterator) (st st' : RowState Image),
      R.rowLoop dx dy mw fuel block st = some st' → b ∈ st'.row_nodes →
      (∃ a ∈ st.row_nodes, SameSpot a b) ∨
      (∃ j : Nat, (j : Int) ≤ block.current.y ∧
        b.pos = (BlockRowIterator.next^[j] block).current ∧ b.x = dx ∧ b.y = dy) := by
  intro fuel
  induction fuel with
  | zero =>
    intro block st st' h hb
    simp only [TileRenderer.rowLoop] at h
    split_ifs at h
    simp only [Option.some.injEq] at h
    subst h
    exact Or.inl ⟨b, hb, rfl, rfl, rfl⟩
  | succ fuel ih =>
    intro block st st' h hb
    simp only [TileRenderer.rowLoop] at h
    split_ifs at h with he hbrk
    · simp only [Option.some.injEq] at h
      subst h
      exact Or.inl ⟨b, hb, rfl, rfl, rfl⟩
    · simp only [Option.some.injEq] at h
      subst h
      have hy : 0 ≤ block.current.y := by
        simpa [BlockRowIterator.end_] using he
      rcases R.mem_rowBody dx dy mw _ _ b hb with h1 | h1
      · exact Or.inl h1
      · exact Or.inr ⟨0, by simpa using hy, by simpa using h1⟩
    · have hy : 0 ≤ block.current.y := by
        simpa [BlockRowIterator.end_] using he
      rcases ih _ _ _ h hb with ⟨a, ha, hs⟩ | ⟨j, hj, hp, hx⟩
      · rcases R.mem_rowBody dx dy mw _ _ a ha with ⟨a', ha', hs'⟩ | h1
        · exact Or.inl ⟨a', ha', hs.1.trans hs'.1, hs.2.1.trans hs'.2.1,
            hs.2.2.trans hs'.2.2⟩
        · exact Or.inr ⟨0, by simpa using hy, by simpa using
            ⟨hs.1.trans h1.1, hs.2.1.trans h1.2.1, hs.2.2.trans h1.2.2⟩⟩
      · refine Or.inr ⟨j + 1, ?_, ?_, hx⟩
        · simp only [BlockRowIterator.next] at hj
          push_cast
          omega
        · rw [Function.iterate_succ_apply]
          exact hp

/-- The row loop finishes within `y + 1` iterations. -/
theorem TileRenderer.rowLoop_some {Image Biome : Type} (R : TileRenderer Image Biome)
    (dx dy mw : Int) :
    ∀ (fuel : Nat) (block : BlockRowIterator) (st : RowState Image),
      block.current.y + 1 ≤ fuel → ∃ st', R.rowLoop dx dy mw fuel block st = some st' := by
  intro fuel
  induction fuel with
  | zero =>
    intro block st h
    have : block.current.y < 0 := by omega
    exact ⟨st, by simp [TileRenderer.rowLoop, BlockRowIterator.end_, this]⟩
  | succ fuel ih =>
    intro block st h
    simp only [TileRenderer.rowLoop]
    split_ifs
    · exact ⟨st, rfl⟩
    · exact ⟨_, rfl⟩
    · refine ih _ _ ?_
      simp only [BlockRowIterator.next]
      push_cast at h
      omega

theorem TileRenderer.tileBody_some {Image Biome : Type} (R : TileRenderer Image Biome)
    (mw : Int) (it : TileTopBlockIterator)
    (acc : Option Chunk × List (RenderBlock Image)) :
    ∃ acc', R.tileBody mw it acc = some acc' := by
  obtain ⟨st, hst⟩ := R.rowLoop_some it.draw_x it.draw_y mw (it.current.y + 1).toNat
    (BlockRowIterator.init it.current) { chunk := acc.1, water := 0, row_nodes := [] }
    (by simp only [BlockRowIterator.init]; omega)
  exact ⟨(st.chunk, flushRow st.row_nodes acc.2), by simp only [TileRenderer.tileBody, hst]⟩

/-- The loop over the top blocks finishes whenever the loop over the bare
iterator does, and a property of `(chunk, blocks)` that every row keeps holds
at the end. -/
theorem TileRenderer.tileLoop_inv {Image Biome : Type} (R : TileRenderer Image Biome)
    (mw : Int) (Inv : Option Chunk × List (RenderBlock Image) → Prop) :
    ∀ (fuel : Nat) (it : TileTopBlockIterator) (ys : List TileTopBlockIterator)
      (acc : Option Chunk × List (RenderBlock Image)),
      TileTopBlockIterator.run R.posApi fuel it = some ys →
      Inv acc →
      (∀ s ∈ ys, ∀ a a', Inv a → R.tileBody mw s a = some a' → Inv a') →
      ∃ res, R.tileLoop mw fuel it acc = some res ∧ Inv res := by
  intro fuel
  induction fuel with
  | zero =>
    intro it ys acc hrun hacc _
    simp only [TileTopBlockIterator.run] at hrun
    split_ifs at hrun with he
    exact ⟨acc, by simp [TileRenderer.tileLoop, he], hacc⟩
  | succ fuel ih =>
    intro it ys acc hrun hacc hstep
    simp only [TileTopBlockIterator.run] at hrun
    split_ifs at hrun with he
    · exact ⟨acc, by simp [TileRenderer.tileLoop, he], hacc⟩
    · cases hr : TileTopBlockIterator.run R.posApi fuel (it.next R.posApi) with
      | none => simp [hr] at hrun
      | some ys' =>
        simp only [hr, Option.map_some', Option.some.injEq] at hrun
        subst hrun
        obtain ⟨acc', hacc'⟩ := R.tileBody_some mw it acc
        have hI := hstep it (List.mem_cons_self _ _) acc acc' hacc hacc'
        obtain ⟨res, hres, hinv⟩ := ih (it.next R.posApi) ys' acc' hr hI
          (fun s hs => hstep s (List.mem_cons_of_mem _ hs))
        exact ⟨res, by simp [TileRenderer.tileLoop, he, hacc', hres], hinv⟩

/-! ## C5 - C8: renderTile -/

theorem diag_iterate (P : PosApi) (hD : P.DiagStep) (p : BlockPos) (j : Nat) :
    P.getRow (BlockRowIterator.next^[j] (BlockRowIterator.init p)).current = P.getRow p ∧
    P.getCol (BlockRowIterator.next^[j] (BlockRowIterator.init p)).current = P.getCol p := by
  induction j with
  | zero => exact ⟨rfl, rfl⟩
  | succ j ih =>
    rw [Function.iterate_succ_apply']
    have := hD (BlockRowIterator.next^[j] (BlockRowIterator.init p)).current
    simp only [BlockRowIterator.next]
    exact ⟨this.1.trans ih.1, this.2.trans ih.2⟩

theorem TileRenderer.renderTile_of_tileLoop {Image Biome : Type}
    (R : TileRenderer Image Biome) (fuel : Nat) (tile : TilePos)
    (res : Option Chunk × List (RenderBlock Image))
    (h : R.tileLoop R.images.getMaxWaterNeededOpaque fuel
      (TileTopBlockIterator.init R.posApi tile R.images.getBlockImageSize
        R.images.getTileSize) (none, []) = some res) :
    R.renderTile fuel tile =
      some { width := R.images.getTileSize, height := R.images.getTileSize,
             blits := res.2 } := by
  simp only [TileRenderer.renderTile, h]

theorem TileRenderer.rowLoop_empty_world {Image Biome : Type}
    (R : TileRenderer Image Biome) (hW : ∀ cp, R.world.getChunk cp = none)
    (dx dy mw : Int) :
    ∀ (fuel : Nat) (block : BlockRowIterator) (w : Int) (st' : RowState Image),
      R.rowLoop dx dy mw fuel block { chunk := none, water := w, row_nodes := [] } = some st' →
      st'.chunk = none ∧ st'.row_nodes = [] := by
  intro fuel
  induction fuel with
  | zero =>
    intro block w st' h
    simp only [TileRenderer.rowLoop] at h
    split_ifs at h
    simp only [Option.some.injEq] at h
    subst h
    exact ⟨rfl, rfl⟩
  | succ fuel ih =>
    intro block w st' h
    have hb : R.rowBody dx dy mw block.current { chunk := none, water := w, row_nodes := [] }
        = ({ chunk := none, water := w, row_nodes := [] }, false) := by
      simp only [TileRenderer.rowBody, TileRenderer.chunkFor, hW]
    simp only [TileRenderer.rowLoop, hb] at h
    split_ifs at h
    · simp only [Option.some.injEq] at h
      subst h
      exact ⟨rfl, rfl⟩
    · simp only [Option.some.injEq] at h
      subst h
      exact ⟨rfl, rfl⟩
    · exact ih _ _ _ h

/-- C7. If the world store returns null for every chunk position then, for
every tile, renderTile finishes for every fuel from some bound on, sets the
tile to `tile_size × tile_size` and blits nothing. -/
theorem empty_world_blits_nothing {Image Biome : Type} (R : TileRenderer Image Biome)
    (hZ : R.posApi.ZStep) (hL : R.posApi.LeftStep)
    (hW : ∀ cp, R.world.getChunk cp = none) (tile : TilePos) :
    ∃ n : Nat, ∀ fuel, n ≤ fuel →
      R.renderTile fuel tile =
        some { width := R.images.getTileSize, height := R.images.getTileSize, blits := [] } := by
  obtain ⟨ys, h⟩ := topRun_init R.posApi hZ hL tile R.images.getBlockImageSize
    R.images.getTileSize
  refine ⟨ys.length, fun fuel hf => ?_⟩
  obtain ⟨res, hres, hinv⟩ := R.tileLoop_inv R.images.getMaxWaterNeededOpaque
    (fun acc => acc.1 = none ∧ acc.2 = [])
    fuel _ ys (none, []) (h.run_eq _ hf) ⟨rfl, rfl⟩
    (by
      intro s _ a a' ha hbody
      simp only [TileRenderer.tileBody] at hbody
      split at hbody
      · exact absurd hbody (by simp)
      · rename_i st hst
        simp only [Option.some.injEq] at hbody
        subst hbody
        rw [ha.1] at hst
        obtain ⟨e1, e2⟩ := R.rowLoop_empty_world hW _ _ _ _ _ _ _ hst
        exact ⟨e1, by simp only [e2, flushRow, ha.2]⟩)
  rw [R.renderTile_of_tileLoop fuel tile res hres, hinv.2]

/-- C7, witness: the sample renderer over the world store without chunks. -/
theorem empty_world_blits_nothing_witness :
    emptyRenderer.posApi.ZStep ∧ emptyRenderer.posApi.LeftStep ∧
    (∀ cp, emptyRenderer.world.getChunk cp = none) ∧
    ∃ n : Nat, ∀ fuel, n ≤ fuel →
      emptyRenderer.renderTile fuel ⟨0, 0⟩ =
        some { width := 256, height := 256, blits := [] } :=
  ⟨isoPos_zstep, isoPos_leftstep, fun _ => rfl,
    empty_world_blits_nothing emptyRenderer isoPos_zstep isoPos_leftstep (fun _ => rfl)
      ⟨0, 0⟩⟩

/-! ### The order of the blits -/

theorem BlockPos.lt_trans {a b c : BlockPos} (h1 : a.lt b = true) (h2 : b.lt c = true) :
    a.lt c = true := by
  simp only [BlockPos.lt, decide_eq_true_eq] at *
  omega

theorem BlockPos.lt_irrefl (a : BlockPos) : a.lt a = false := by
  simp [BlockPos.lt]

theorem BlockPos.lt_height {a b : BlockPos} (h : a.lt b = true) : a.y ≤ b.y := by
  simp only [BlockPos.lt, decide_eq_true_eq] at h
  omega

theorem setInsert_sorted {Image : Type} (x : RenderBlock Image) :
    ∀ l : List (RenderBlock Image),
      l.Pairwise (fun a b => a.pos.lt b.pos = true) →
      (setInsert x l).Pairwise (fun a b => a.pos.lt b.pos = true) := by
  intro l
  induction l with
  | nil =>
    intro _
    simp [setInsert]
  | cons a l ih =>
    intro h
    rw [List.pairwise_cons] at h
    simp only [setInsert]
    split_ifs with h1 h2
    · rw [List.pairwise_cons]
      refine ⟨?_, ih h.2⟩
      intro b hb
      rcases mem_setInsert _ _ _ hb with hb | hb
      · rw [hb]
        exact h1
      · exact h.1 b hb
    · rw [List.pairwise_cons]
      refine ⟨?_, List.pairwise_cons.mpr h⟩
      intro b hb
      rcases List.mem_cons.mp hb with hb | hb
      · rw [hb]
        exact h2
      · exact BlockPos.lt_trans h2 (h.1 b hb)
    · exact List.pairwise_cons.mpr h

theorem flushRow_sorted {Image : Type} :
    ∀ (row blocks : List (RenderBlock Image)),
      blocks.Pairwise (fun a b => a.pos.lt b.pos = true) →
      (flushRow row blocks).Pairwise (fun a b => a.pos.lt b.pos = true) := by
  intro row
  induction row with
  | nil =>
    intro blocks h
    simpa [flushRow] using h
  | cons a rest ih =>
    intro blocks h
    cases rest with
    | nil =>
      simp only [flushRow]
      exact setInsert_sorted a blocks h
    | cons nxt rest =>
      simp only [flushRow]
      split_ifs
      · exact ih blocks h
      · exact ih _ (setInsert_sorted a blocks h)

/-- C8. For every tile renderTile finishes, and its blits are in strictly
increasing order of `pos`: of two blits the earlier has the smaller position
(so no position is blitted twice) and never the greater height, so that of
two render blocks of one row the deeper one is blitted first. -/
theorem blits_in_painters_order {Image Biome : Type} (R : TileRenderer Image Biome)
    (hZ : R.posApi.ZStep) (hL : R.posApi.LeftStep) (tile : TilePos) :
    ∃ n : Nat, ∀ fuel, n ≤ fuel → ∃ out, R.renderTile fuel tile = some out ∧
      out.blits.Pairwise (fun a b => a.pos.lt b.pos = true) ∧
      out.blits.Pairwise (fun a b => a.pos ≠ b.pos) ∧
      out.blits.Pairwise (fun a b => a.pos.y ≤ b.pos.y) := by
  obtain ⟨ys, h⟩ := topRun_init R.posApi hZ hL tile R.images.getBlockImageSize
    R.images.getTileSize
  refine ⟨ys.length, fun fuel hf => ?_⟩
  obtain ⟨res, hres, hinv⟩ := R.tileLoop_inv R.images.getMaxWaterNeededOpaque
    (fun acc => acc.2.Pairwise (fun a b => a.pos.lt b.pos = true))
    fuel _ ys (none, []) (h.run_eq _ hf) List.Pairwise.nil
    (by
      intro s _ a a' ha hbody
      simp only [TileRenderer.tileBody] at hbody
      split at hbody
      · exact absurd hbody (by simp)
      · simp only [Option.some.injEq] at hbody
        subst hbody
        exact flushRow_sorted _ _ ha)
  refine ⟨_, R.renderTile_of_tileLoop fuel tile res hres, hinv, ?_, ?_⟩
  · refine hinv.imp ?_
    intro a b hab heq
    rw [heq, BlockPos.lt_irrefl] at hab
    exact Bool.noConfusion hab
  · exact hinv.imp (fun hab => BlockPos.lt_height hab)


/-! ### Opaque voxels end a row -/

theorem TileRenderer.rowBody_break_of_opaque {Image Biome : Type}
    (R : TileRenderer Image Biome) (dx dy mw : Int) (p : BlockPos) (st : RowState Image)
    (h : R.OpaqueAt p st) : (R.rowBody dx dy mw p st).2 = true := by
  obtain ⟨c, hc, hid, htr⟩ := h
  simp only [TileRenderer.rowBody, hc, hid, if_false]
  split_ifs <;> simp only [htr, Bool.not_false]

theorem SameSpot.trans {Image : Type} {a b c : RenderBlock Image} (h1 : SameSpot a b)
    (h2 : SameSpot b c) : SameSpot a c :=
  ⟨h2.1.trans h1.1, h2.2.1.trans h1.2.1, h2.2.2.trans h1.2.2⟩

/-- When the body reads an opaque voxel on its `k`-th run, the finished row
holds only render blocks of the voxels `0, ..., k` of the row. -/
theorem TileRenderer.rowLoop_opaque {Image Biome : Type} (R : TileRenderer Image Biome)
    (dx dy mw : Int) (b : RenderBlock Image) :
    ∀ (k fuel : Nat) (block : BlockRowIterator) (st sk st' : RowState Image),
      R.rowStateAt dx dy mw k block st = some sk →
      (BlockRowIterator.next^[k] block).end_ = false →
      R.OpaqueAt (BlockRowIterator.next^[k] block).current sk →
      R.rowLoop dx dy mw fuel block st = some st' → b ∈ st'.row_nodes →
      (∃ a ∈ st.row_nodes, SameSpot a b) ∨
      ∃ j : Nat, j ≤ k ∧ b.pos = (BlockRowIterator.next^[j] block).current := by
  intro k
  induction k with
  | zero =>
    intro fuel block st sk st' hsk hne hop hrun hb
    simp only [TileRenderer.rowStateAt, Option.some.injEq] at hsk
    subst hsk
    simp only [Function.iterate_zero, id_eq] at hne hop
    have hbrk := R.rowBody_break_of_opaque dx dy mw _ _ hop
    cases fuel with
    | zero => simp [TileRenderer.rowLoop, hne] at hrun
    | succ fuel =>
      simp only [TileRenderer.rowLoop, hne, hbrk, if_true, Bool.false_eq_true, if_false,
        Option.some.injEq] at hrun
      subst hrun
      rcases R.mem_rowBody dx dy mw _ _ b hb with h1 | h1
      · exact Or.inl h1
      · exact Or.inr ⟨0, le_refl _, h1.1⟩
  | succ k ih =>
    intro fuel block st sk st' hsk hne hop hrun hb
    simp only [TileRenderer.rowStateAt] at hsk
    split_ifs at hsk with he hbrk
    have he' : block.end_ = false := by simpa using he
    have hbrk' : (R.rowBody dx dy mw block.current st).2 = false := by simpa using hbrk
    rw [Function.iterate_succ_apply] at hne hop
    cases fuel with
    | zero => simp [TileRenderer.rowLoop, he'] at hrun
    | succ fuel =>
      simp only [TileRenderer.rowLoop, he', hbrk', Bool.false_eq_true, if_false] at hrun
      rcases ih fuel block.next _ sk st' hsk hne hop hrun hb with ⟨a, ha, hs⟩ | ⟨j, hj, hp⟩
      · rcases R.mem_rowBody dx dy mw _ _ a ha with ⟨a', ha', hs'⟩ | h1
        · exact Or.inl ⟨a', ha', hs'.trans hs⟩
        · exact Or.inr ⟨0, Nat.zero_le _, hs.1.trans h1.1⟩
      · exact Or.inr ⟨j + 1, by omega, by rw [Function.iterate_succ_apply]; exact hp⟩

/-- When the loop is left before the `k`-th run of its body, the finished row
holds only render blocks of the voxels before the `k`-th. -/
theorem TileRenderer.rowLoop_left_early {Image Biome : Type}
    (R : TileRenderer Image Biome) (dx dy mw : Int) (b : RenderBlock Image) :
    ∀ (k fuel : Nat) (block : BlockRowIterator) (st st' : RowState Image),
      R.rowStateAt dx dy mw k block st = none →
      R.rowLoop dx dy mw fuel block st = some st' → b ∈ st'.row_nodes →
      (∃ a ∈ st.row_nodes, SameSpot a b) ∨
      ∃ j : Nat, j ≤ k ∧ b.pos = (BlockRowIterator.next^[j] block).current := by
  intro k
  induction k with
  | zero =>
    intro fuel block st st' hsk
    simp [TileRenderer.rowStateAt] at hsk
  | succ k ih =>
    intro fuel block st st' hsk hrun hb
    by_cases he : block.end_ = true
    · have : R.rowLoop dx dy mw fuel block st = some st := by
        cases fuel <;> simp [TileRenderer.rowLoop, he]
      rw [this, Option.some.injEq] at hrun
      subst hrun
      exact Or.inl ⟨b, hb, rfl, rfl, rfl⟩
    · have he' : block.end_ = false := by simpa using he
      cases fuel with
      | zero => simp [TileRenderer.rowLoop, he'] at hrun
      | succ fuel =>
        cases hbrk : (R.rowBody dx dy mw block.current st).2 with
        | true =>
          simp only [TileRenderer.rowLoop, he', hbrk, if_true, Bool.false_eq_true, if_false,
            Option.some.injEq] at hrun
          subst hrun
          rcases R.mem_rowBody dx dy mw _ _ b hb with h1 | h1
          · exact Or.inl h1
          · exact Or.inr ⟨0, Nat.zero_le _, h1.1⟩
        | false =>
          simp only [TileRenderer.rowLoop, he', hbrk, Bool.false_eq_true, if_false] at hrun
          simp only [TileRenderer.rowStateAt, he', hbrk, Bool.false_eq_true, if_false] at hsk
          rcases ih fuel block.next _ st' hsk hrun hb with ⟨a, ha, hs⟩ | ⟨j, hj, hp⟩
          · rcases R.mem_rowBody dx dy mw _ _ a ha with ⟨a', ha', hs'⟩ | h1
            · exact Or.inl ⟨a', ha', hs'.trans hs⟩
            · exact Or.inr ⟨0, Nat.zero_le _, hs.1.trans h1.1⟩
          · exact Or.inr ⟨j + 1, by omega, by rw [Function.iterate_succ_apply]; exact hp⟩

/-- C6. Take the row of any top voxel `top` and its `k`-th voxel `p`
(`k ≤ top.y`). The row loop finishes, and if the body, whenever it runs for
`p`, reads there a block that is not air and is opaque under the data of
`checkNeighbors`, then every render block of the finished row is that of one
of the voxels `0, ..., k` of the row, and so is not below `p`: no voxel deeper
than `p` has a render block. -/
theorem opaque_voxel_hides_deeper {Image Biome : Type} (R : TileRenderer Image Biome)
    (dx dy mw : Int) (top : BlockPos) (hint : Option Chunk) (k : Nat)
    (hk : (k : Int) ≤ top.y) :
    ∃ st', R.rowLoop dx dy mw (top.y + 1).toNat (BlockRowIterator.init top)
        { chunk := hint, water := 0, row_nodes := [] } = some st' ∧
      ((∀ sk, R.rowStateAt dx dy mw k (BlockRowIterator.init top)
            { chunk := hint, water := 0, row_nodes := [] } = some sk →
          R.OpaqueAt (BlockRowIterator.next^[k] (BlockRowIterator.init top)).current sk) →
        ∀ b ∈ st'.row_nodes,
          (∃ j : Nat, j ≤ k ∧
            b.pos = (BlockRowIterator.next^[j] (BlockRowIterator.init top)).current) ∧
          (BlockRowIterator.next^[k] (BlockRowIterator.init top)).current.y ≤ b.pos.y) := by
  obtain ⟨st', hst'⟩ := R.rowLoop_some dx dy mw (top.y + 1).toNat (BlockRowIterator.init top)
    { chunk := hint, water := 0, row_nodes := [] }
    (by simp only [BlockRowIterator.init]; omega)
  refine ⟨st', hst', ?_⟩
  intro hop b hb
  have hne : (BlockRowIterator.next^[k] (BlockRowIterator.init top)).end_ = false := by
    rw [BlockRowIterator.iterate_next]
    simp only [BlockRowIterator.end_, decide_eq_false_iff_not]
    omega
  have key : ∃ j : Nat, j ≤ k ∧
      b.pos = (BlockRowIterator.next^[j] (BlockRowIterator.init top)).current := by
    cases hs : R.rowStateAt dx dy mw k (BlockRowIterator.init top)
        { chunk := hint, water := 0, row_nodes := [] } with
    | none =>
      rcases R.rowLoop_left_early dx dy mw b k _ _ _ _ hs hst' hb with ⟨a, ha, _⟩ | h
      · simp at ha
      · exact h
    | some sk =>
      rcases R.rowLoop_opaque dx dy mw b k _ _ _ sk _ hs hne (hop sk hs) hst' hb with
        ⟨a, ha, _⟩ | h
      · simp at ha
      · exact h
  refine ⟨key, ?_⟩
  obtain ⟨j, hj, hp⟩ := key
  rw [hp, BlockRowIterator.iterate_next, BlockRowIterator.iterate_next]
  simp only []
  omega

/-- C6, witness: in the world of scenario A the row started at (-1, 65, 1)
meets air and then, as its voxel 1, the stone at (0, 64, 0). -/
theorem opaque_voxel_hides_deeper_witness :
    ((1 : Nat) : Int) ≤ (⟨-1, 1, 65⟩ : BlockPos).y ∧
    ∃ st', (demoRenderer oneStone).rowLoop 0 0 5 ((⟨-1, 1, 65⟩ : BlockPos).y + 1).toNat
        (BlockRowIterator.init ⟨-1, 1, 65⟩)
        { chunk := none, water := 0, row_nodes := [] } = some st' ∧
      ∀ b ∈ st'.row_nodes,
        (∃ j : Nat, j ≤ 1 ∧
          b.pos = (BlockRowIterator.next^[j] (BlockRowIterator.init ⟨-1, 1, 65⟩)).current) ∧
        (BlockRowIterator.next^[1] (BlockRowIterator.init ⟨-1, 1, 65⟩)).current.y ≤ b.pos.y := by
  obtain ⟨st', h1, h2⟩ := opaque_voxel_hides_deeper (demoRenderer oneStone) 0 0 5
    ⟨-1, 1, 65⟩ none 1 (by decide)
  refine ⟨by decide, st', h1, h2 ?_⟩
  intro sk hsk
  simp [TileRenderer.rowStateAt, TileRenderer.rowBody, BlockRowIterator.end_,
    BlockRowIterator.init, BlockRowIterator.next, TileRenderer.chunkFor, demoRenderer,
    worldOf, isoPos, oneStone] at hsk
  subst hsk
  refine ⟨{ pos := ⟨0, 0⟩,
            getBlockID := fun l => (oneStone (isoPos.toGlobalPos l ⟨0, 0⟩)).id,
            getBlockData := fun l => (oneStone (isoPos.toGlobalPos l ⟨0, 0⟩)).data,
            getBiomeAt := fun _ => 1 }, ?_, ?_, ?_⟩
  · simp [TileRenderer.chunkFor, demoRenderer, worldOf, isoPos, BlockRowIterator.init,
      BlockRowIterator.next]
  · simp [demoRenderer, isoPos, oneStone, BlockRowIterator.init, BlockRowIterator.next]
  · simp [demoRenderer, isoPos, oneStone, BlockRowIterator.init, BlockRowIterator.next,
      demoImages]
/-! ## Doors -/

theorem and_three_cases (n : Nat) :
    n &&& 3 = 0 ∨ n &&& 3 = 1 ∨ n &&& 3 = 2 ∨ n &&& 3 = 3 := by
  have h : n &&& 3 ≤ 3 := Nat.and_le_right
  omega

theorem TileRenderer.specialData_door {Image Biome : Type} (R : TileRenderer Image Biome)
    (pos : BlockPos) (chunk : Option Chunk) (id data : Nat)
    (hid : id = 64 ∨ id = 71) (hK : R.consts.DoorsOk) :
    R.specialData pos chunk id data = R.doorSpec pos chunk data := by
  obtain ⟨hn, hs, he, hw, ht0, ht, hns, hne, hnw, hse, hsw, hew⟩ := hK
  have h1 : ¬ ((id = 8 ∨ id = 9) ∧ data = 0) := by omega
  have h2 : ¬ (id = 54 ∨ id = 95 ∨ id = 130 ∨ id = 146) := by omega
  have hmt : R.consts.DOOR_TOP % 65536 ≠ 0 := by omega
  unfold TileRenderer.specialData TileRenderer.doorSpec
  simp only [h1, h2, hid, if_true, if_false]
  by_cases hu : data &&& 8 ≠ 0
  · simp only [hu, hmt, if_true, ne_eq, not_false_eq_true, decide_True, if_true]
    generalize (R.getBlock (pos.add R.consts.DIR_BOTTOM) chunk).data = bd
    generalize decide (¬ data &&& 1 = 0) = flip
    generalize hcl : decide (¬ bd &&& 4 = 0) = closed
    rcases and_three_cases bd with h | h | h | h <;>
    cases flip <;> cases closed <;>
    simp [h, Facing.ofBits, Facing.rotateClosed, Facing.door,
      getDoorDirectionClosed, Nat.mod_eq_of_lt, hn, hs, he, hw, hns, hne, hnw, hse, hsw, hew,
      Ne.symm hns, Ne.symm hne, Ne.symm hnw, Ne.symm hse, Ne.symm hsw, Ne.symm hew]
  · have hu' : data &&& 8 = 0 := by simpa using hu
    simp only [hu', ne_eq, not_true_eq_false, if_false, decide_False, Bool.false_eq_true]
    generalize (R.getBlock (pos.add R.consts.DIR_TOP) chunk).data = td
    generalize decide (¬ td &&& 1 = 0) = flip
    generalize hcl : decide (¬ data &&& 4 = 0) = closed
    rcases and_three_cases data with h | h | h | h <;>
    cases flip <;> cases closed <;>
    simp [h, Facing.ofBits, Facing.rotateClosed, Facing.door,
      getDoorDirectionClosed, Nat.mod_eq_of_lt, hn, hs, he, hw, hns, hne, hnw, hse, hsw, hew,
      Ne.symm hns, Ne.symm hne, Ne.symm hnw, Ne.symm hse, Ne.symm hsw, Ne.symm hew]
/-! ## Flags in 16-bit data -/

theorem and_or16 (a m c : Nat) (hc : c < 65536) :
    or16 a m &&& c = (a &&& c) ||| (m &&& c) := by
  apply Nat.eq_of_testBit_eq
  intro i
  unfold or16
  have h16 : (65536 : Nat) = 2 ^ 16 := by norm_num
  rw [h16, Nat.testBit_and, Nat.testBit_mod_two_pow, Nat.testBit_or, Nat.testBit_or,
    Nat.testBit_and, Nat.testBit_and]
  by_cases hi : i < 16
  · simp only [hi, decide_True, Bool.true_and]
    cases a.testBit i <;> cases m.testBit i <;> cases c.testBit i <;> rfl
  · have hci : c.testBit i = false := by
      apply Nat.testBit_lt_two_pow
      calc c < 2 ^ 16 := by omega
        _ ≤ 2 ^ i := Nat.pow_le_pow_right (by norm_num) (by omega)
    simp [hci]

theorem lor_eq_zero (x y : Nat) : x ||| y = 0 ↔ x = 0 ∧ y = 0 := by
  constructor
  · intro h
    have hb : ∀ i, (x.testBit i || y.testBit i) = false := by
      intro i
      rw [← Nat.testBit_or, h, Nat.zero_testBit]
    constructor <;> apply Nat.eq_of_testBit_eq <;> intro i <;>
      have := hb i <;> simp_all
  · rintro ⟨rfl, rfl⟩
    rfl

theorem hasFlag_or16 (a m c : Nat) (hc : c < 65536) :
    hasFlag (or16 a m) c = (hasFlag a c || hasFlag m c) := by
  unfold hasFlag
  rw [and_or16 a m c hc]
  by_cases h1 : a &&& c = 0 <;> by_cases h2 : m &&& c = 0 <;>
    simp [h1, h2, lor_eq_zero]

theorem hasFlag_ite_or16 (p : Prop) [Decidable p] (d m c : Nat) (hc : c < 65536) :
    hasFlag (if p then or16 d m else d) c = (hasFlag d c || (decide p && hasFlag m c)) := by
  by_cases hp : p <;> simp [hp, hasFlag_or16 _ _ _ hc]
theorem Consts.FlagsOk.unpack {Biome : Type} {K : Consts Biome} (h : K.FlagsOk) :
    (0 < K.DATA_NORTH ∧ 0 < K.DATA_SOUTH ∧ 0 < K.DATA_EAST ∧ 0 < K.DATA_WEST ∧
      0 < K.EDGE_NORTH ∧ 0 < K.EDGE_EAST ∧ 0 < K.EDGE_BOTTOM) ∧
    (K.DATA_NORTH < 65536 ∧ K.DATA_SOUTH < 65536 ∧ K.DATA_EAST < 65536 ∧
      K.DATA_WEST < 65536 ∧ K.EDGE_NORTH < 65536 ∧ K.EDGE_EAST < 65536 ∧
      K.EDGE_BOTTOM < 65536) := by
  obtain ⟨h1, _⟩ := h
  simp only [Consts.flags, List.mem_cons, List.mem_singleton, forall_eq_or_imp, forall_eq,
      List.not_mem_nil, false_imp_iff, implies_true, and_true] at h1
  tauto

/-- Among the flags, one flag has a bit of another only when they are the same
flag. -/
theorem Consts.FlagsOk.hasFlag_getD {Biome : Type} {K : Consts Biome} (h : K.FlagsOk)
    (i j : Nat) (hi : i < 7) (hj : j < 7) :
    hasFlag (K.flags.getD i 0) (K.flags.getD j 0) = decide (i = j) := by
  obtain ⟨⟨p0, p1, p2, p3, p4, p5, p6⟩, _⟩ := h.unpack
  obtain ⟨_, h2⟩ := h
  simp only [Consts.flags, List.pairwise_cons, List.mem_cons, List.mem_singleton,
    forall_eq_or_imp, forall_eq, List.not_mem_nil, false_imp_iff, implies_true, and_true,
    List.Pairwise.nil] at h2
  obtain ⟨⟨h00, h01, h02, h03, h04, h05⟩, ⟨h10, h11, h12, h13, h14⟩, ⟨h20, h21, h22, h23⟩, ⟨h30, h31, h32⟩, ⟨h40, h41⟩, h50⟩ := h2
  have hsym : ∀ x y : Nat, x &&& y = 0 → y &&& x = 0 := fun x y hxy => by
    rw [Nat.and_comm]; exact hxy
  interval_cases i <;> interval_cases j <;>
    simp [Consts.flags, hasFlag, Nat.and_self, Nat.pos_iff_ne_zero.mp,
      Nat.pos_iff_ne_zero.mp p0, Nat.pos_iff_ne_zero.mp p1, Nat.pos_iff_ne_zero.mp p2, Nat.pos_iff_ne_zero.mp p3, Nat.pos_iff_ne_zero.mp p4, Nat.pos_iff_ne_zero.mp p5, Nat.pos_iff_ne_zero.mp p6,
      h00, h01, h02, h03, h04, h05, h10, h11, h12, h13, h14, h20, h21, h22, h23, h30, h31, h32, h40, h41, h50, hsym _ _ h00, hsym _ _ h01, hsym _ _ h02, hsym _ _ h03, hsym _ _ h04, hsym _ _ h05, hsym _ _ h10, hsym _ _ h11, hsym _ _ h12, hsym _ _ h13, hsym _ _ h14, hsym _ _ h20, hsym _ _ h21, hsym _ _ h22, hsym _ _ h23, hsym _ _ h30, hsym _ _ h31, hsym _ _ h32, hsym _ _ h40, hsym _ _ h41, hsym _ _ h50]
theorem Consts.FlagsOk.getD_lt {Biome : Type} {K : Consts Biome} (h : K.FlagsOk)
    (j : Nat) (hj : j < 7) : K.flags.getD j 0 < 65536 := by
  obtain ⟨_, ⟨q0, q1, q2, q3, q4, q5, q6⟩⟩ := h.unpack
  interval_cases j <;> simpa [Consts.flags]

theorem Consts.FlagsOk.hasFlag_ne {Biome : Type} {K : Consts Biome} (h : K.FlagsOk)
    (i j : Nat) (hi : i < 7) (hj : j < 7) (hij : i ≠ j) :
    hasFlag (K.flags.getD i 0) (K.flags.getD j 0) = false := by
  rw [h.hasFlag_getD i j hi hj]
  simpa using hij

theorem Consts.FlagsOk.hasFlag_same {Biome : Type} {K : Consts Biome} (h : K.FlagsOk)
    (i : Nat) (hi : i < 7) :
    hasFlag (K.flags.getD i 0) (K.flags.getD i 0) = true := by
  rw [h.hasFlag_getD i i hi hi]
  simp

/-- The shadow-edge pass leaves every flag other than the three edge flags as
it finds it. -/
theorem TileRenderer.hasFlag_shadowEdges_data {Image Biome : Type}
    (R : TileRenderer Image Biome) (pos : BlockPos) (chunk : Option Chunk) (id d : Nat)
    (hK : R.consts.FlagsOk) (j : Nat) (hj : j < 4) :
    hasFlag (R.shadowEdges pos chunk id d) (R.consts.flags.getD j 0) =
      hasFlag d (R.consts.flags.getD j 0) := by
  have hc := hK.getD_lt j (by omega)
  have e4 := hK.hasFlag_ne 4 j (by omega) (by omega) (by omega)
  have e5 := hK.hasFlag_ne 5 j (by omega) (by omega) (by omega)
  have e6 := hK.hasFlag_ne 6 j (by omega) (by omega) (by omega)
  change hasFlag R.consts.EDGE_NORTH (R.consts.flags.getD j 0) = false at e4
  change hasFlag R.consts.EDGE_EAST (R.consts.flags.getD j 0) = false at e5
  change hasFlag R.consts.EDGE_BOTTOM (R.consts.flags.getD j 0) = false at e6
  unfold TileRenderer.shadowEdges
  by_cases ht : R.images.isBlockTransparent id d = true
  · simp [ht]
  · simp only [Bool.not_eq_true] at ht
    simp only [ht, Bool.not_false, if_true, hasFlag_ite_or16 _ _ _ _ hc, e4, e5, e6,
      Bool.and_false, Bool.or_false]
/-! ## Fences, iron bars, glass panes, nether fences -/

theorem TileRenderer.hasFlag_specialData_fence {Image Biome : Type}
    (R : TileRenderer Image Biome) (pos : BlockPos) (chunk : Option Chunk) (id data : Nat)
    (hid : id = 85 ∨ id = 101 ∨ id = 102 ∨ id = 113) (hK : R.consts.FlagsOk)
    (j : Nat) (hj : j < 4) :
    hasFlag (R.specialData pos chunk id data) (R.consts.flags.getD j 0) =
      (hasFlag data (R.consts.flags.getD j 0) ||
        R.connects id (R.getBlock (pos.add
          ([R.consts.DIR_NORTH, R.consts.DIR_SOUTH, R.consts.DIR_EAST,
            R.consts.DIR_WEST].getD j ⟨0, 0, 0⟩)) chunk)) := by
  have hc := hK.getD_lt j (by omega)
  have e0 := hK.hasFlag_getD 0 j (by omega) (by omega)
  have e1 := hK.hasFlag_getD 1 j (by omega) (by omega)
  have e2 := hK.hasFlag_getD 2 j (by omega) (by omega)
  have e3 := hK.hasFlag_getD 3 j (by omega) (by omega)
  change hasFlag R.consts.DATA_NORTH (R.consts.flags.getD j 0) = _ at e0
  change hasFlag R.consts.DATA_SOUTH (R.consts.flags.getD j 0) = _ at e1
  change hasFlag R.consts.DATA_EAST (R.consts.flags.getD j 0) = _ at e2
  change hasFlag R.consts.DATA_WEST (R.consts.flags.getD j 0) = _ at e3
  have h1 : ¬ ((id = 8 ∨ id = 9) ∧ data = 0) := by omega
  have h2 : ¬ (id = 54 ∨ id = 95 ∨ id = 130 ∨ id = 146) := by omega
  have h3 : ¬ (id = 64 ∨ id = 71) := by omega
  unfold TileRenderer.specialData
  simp only [h1, h2, h3, hid, if_true, if_false]
  simp only [hasFlag_ite_or16 _ _ _ _ hc, e0, e1, e2, e3, TileRenderer.connects]
  interval_cases j <;> simp [Bool.or_assoc]
theorem demoConsts_doorsOk : demoConsts.DoorsOk := by
  unfold Consts.DoorsOk demoConsts
  decide

theorem demoConsts_flagsOk : demoConsts.FlagsOk := by
  unfold Consts.FlagsOk Consts.flags demoConsts
  constructor
  · intro f hf
    simp only [List.mem_cons, List.mem_singleton, List.not_mem_nil, or_false] at hf
    rcases hf with h | h | h | h | h | h | h <;> subst h <;> decide
  · decide

/-- C9: for a door (id 64 or 71) `checkNeighbors` returns the data of the
door rule followed by the shadow-edge pass, and the door rule ORs into the data
the direction of the spec: the facing read from bits 0-1 of the lower half
(0 west, 1 north, 2 east, 3 south) when bit 2 of the lower half is clear, and
the glossary rotation of that facing (by the hinge flag, bit 0 of the upper
half) when it is set; whichever half the block is. -/
theorem door_direction_table {Image Biome : Type} (R : TileRenderer Image Biome)
    (pos : BlockPos) (chunk : Option Chunk) (id data : Nat)
    (hid : id = 64 ∨ id = 71) (hK : R.consts.DoorsOk) :
    R.specialData pos chunk id data = R.doorSpec pos chunk data ∧
    R.checkNeighbors pos chunk id data =
      R.shadowEdges pos chunk id (R.doorSpec pos chunk data) := by
  have h := R.specialData_door pos chunk id data hid hK
  exact ⟨h, by unfold TileRenderer.checkNeighbors; rw [h]⟩

/-- C9, witness: scenario E. The closed, unflipped door facing north gets
`DOOR_EAST` (64) ORed into its data 5. -/
theorem door_direction_table_witness :
    (demoRenderer closedDoor).consts.DoorsOk ∧
    (demoRenderer closedDoor).specialData ⟨0, 0, 64⟩ none 64 5 = 5 ||| 64 :=
  ⟨demoConsts_doorsOk,
    (door_direction_table (demoRenderer closedDoor) ⟨0, 0, 64⟩ none 64 5 (Or.inl rfl)
      demoConsts_doorsOk).1.trans (by decide)⟩

/-- C10: for a fence, iron bar, glass pane or nether fence (id 85, 101, 102,
113) whose raw data has no connectivity bit, the data returned by
`checkNeighbors` has the connectivity bit of a side exactly when the neighbour
on that side is not air and has the same id or is opaque, or the block is a
fence and the neighbour a fence gate. -/
theorem fence_connectivity {Image Biome : Type} (R : TileRenderer Image Biome)
    (pos : BlockPos) (chunk : Option Chunk) (id data : Nat)
    (hid : id = 85 ∨ id = 101 ∨ id = 102 ∨ id = 113) (hK : R.consts.FlagsOk)
    (hraw : hasFlag data R.consts.DATA_NORTH = false ∧
      hasFlag data R.consts.DATA_SOUTH = false ∧
      hasFlag data R.consts.DATA_EAST = false ∧
      hasFlag data R.consts.DATA_WEST = false) :
    hasFlag (R.checkNeighbors pos chunk id data) R.consts.DATA_NORTH =
      R.connects id (R.getBlock (pos.add R.consts.DIR_NORTH) chunk) ∧
    hasFlag (R.checkNeighbors pos chunk id data) R.consts.DATA_SOUTH =
      R.connects id (R.getBlock (pos.add R.consts.DIR_SOUTH) chunk) ∧
    hasFlag (R.checkNeighbors pos chunk id data) R.consts.DATA_EAST =
      R.connects id (R.getBlock (pos.add R.consts.DIR_EAST) chunk) ∧
    hasFlag (R.checkNeighbors pos chunk id data) R.consts.DATA_WEST =
      R.connects id (R.getBlock (pos.add R.consts.DIR_WEST) chunk) := by
  obtain ⟨r0, r1, r2, r3⟩ := hraw
  have s0 := R.hasFlag_shadowEdges_data pos chunk id (R.specialData pos chunk id data) hK 0
    (by omega)
  have s1 := R.hasFlag_shadowEdges_data pos chunk id (R.specialData pos chunk id data) hK 1
    (by omega)
  have s2 := R.hasFlag_shadowEdges_data pos chunk id (R.specialData pos chunk id data) hK 2
    (by omega)
  have s3 := R.hasFlag_shadowEdges_data pos chunk id (R.specialData pos chunk id data) hK 3
    (by omega)
  have f0 := R.hasFlag_specialData_fence pos chunk id data hid hK 0 (by omega)
  have f1 := R.hasFlag_specialData_fence pos chunk id data hid hK 1 (by omega)
  have f2 := R.hasFlag_specialData_fence pos chunk id data hid hK 2 (by omega)
  have f3 := R.hasFlag_specialData_fence pos chunk id data hid hK 3 (by omega)
  refine ⟨?_, ?_, ?_, ?_⟩
  · change hasFlag _ R.consts.DATA_NORTH = hasFlag _ R.consts.DATA_NORTH at s0
    change hasFlag _ R.consts.DATA_NORTH = (hasFlag data R.consts.DATA_NORTH ||
      R.connects id (R.getBlock (pos.add R.consts.DIR_NORTH) chunk)) at f0
    rw [r0, Bool.false_or] at f0
    exact s0.trans f0
  · change hasFlag _ R.consts.DATA_SOUTH = hasFlag _ R.consts.DATA_SOUTH at s1
    change hasFlag _ R.consts.DATA_SOUTH = (hasFlag data R.consts.DATA_SOUTH ||
      R.connects id (R.getBlock (pos.add R.consts.DIR_SOUTH) chunk)) at f1
    rw [r1, Bool.false_or] at f1
    exact s1.trans f1
  · change hasFlag _ R.consts.DATA_EAST = hasFlag _ R.consts.DATA_EAST at s2
    change hasFlag _ R.consts.DATA_EAST = (hasFlag data R.consts.DATA_EAST ||
      R.connects id (R.getBlock (pos.add R.consts.DIR_EAST) chunk)) at f2
    rw [r2, Bool.false_or] at f2
    exact s2.trans f2
  · change hasFlag _ R.consts.DATA_WEST = hasFlag _ R.consts.DATA_WEST at s3
    change hasFlag _ R.consts.DATA_WEST = (hasFlag data R.consts.DATA_WEST ||
      R.connects id (R.getBlock (pos.add R.consts.DIR_WEST) chunk)) at f3
    rw [r3, Bool.false_or] at f3
    exact s3.trans f3

/-- C10, witness: the middle fence of three in an east-west line gets the east
and west bits and neither the north nor the south bit. -/
theorem fence_connectivity_witness :
    (demoRenderer fenceLine).consts.FlagsOk ∧
    hasFlag ((demoRenderer fenceLine).checkNeighbors ⟨0, 0, 64⟩ none 85 0) 16 = false ∧
    hasFlag ((demoRenderer fenceLine).checkNeighbors ⟨0, 0, 64⟩ none 85 0) 64 = false ∧
    hasFlag ((demoRenderer fenceLine).checkNeighbors ⟨0, 0, 64⟩ none 85 0) 32 = true ∧
    hasFlag ((demoRenderer fenceLine).checkNeighbors ⟨0, 0, 64⟩ none 85 0) 128 = true := by
  have h := fence_connectivity (demoRenderer fenceLine) ⟨0, 0, 64⟩ none 85 0 (Or.inl rfl)
    demoConsts_flagsOk ⟨by decide, by decide, by decide, by decide⟩
  exact ⟨demoConsts_flagsOk, h.1.trans (by decide), h.2.1.trans (by decide),
    h.2.2.1.trans (by decide), h.2.2.2.trans (by decide)⟩
theorem or16_lt (a m : Nat) : or16 a m < 65536 := by
  unfold or16
  omega

theorem or16_mod_left (a m : Nat) : or16 (a % 65536) m = or16 a m := by
  unfold or16
  apply Nat.eq_of_testBit_eq
  intro i
  have h16 : (65536 : Nat) = 2 ^ 16 := by norm_num
  rw [h16, Nat.testBit_mod_two_pow, Nat.testBit_mod_two_pow, Nat.testBit_or, Nat.testBit_or,
    Nat.testBit_mod_two_pow]
  by_cases hi : i < 16 <;> simp [hi]

theorem or16_or16 (a b c : Nat) : or16 (or16 a b) c = or16 (a ||| b) c := by
  unfold or16
  exact or16_mod_left (a ||| b) c

theorem ite_or16 (p : Prop) [Decidable p] (d m : Nat) (hd : d < 65536) :
    (if p then or16 d m else d) = or16 d (if p then m else 0) := by
  by_cases hp : p
  · simp [hp]
  · simp [hp, or16, Nat.mod_eq_of_lt hd]

theorem or16_of_lt (a m : Nat) (ha : a < 65536) (hm : m < 65536) : or16 a m = a ||| m := by
  unfold or16
  apply Nat.mod_eq_of_lt
  have h16 : (65536 : Nat) = 2 ^ 16 := by norm_num
  rw [h16] at ha hm ⊢
  exact Nat.or_lt_two_pow ha hm
/-! ## Water, chests, shadow edges -/

theorem lor_land_right (a b c : Nat) : (a ||| b) &&& c = (a &&& c) ||| (b &&& c) := by
  apply Nat.eq_of_testBit_eq
  intro i
  rw [Nat.testBit_and, Nat.testBit_or, Nat.testBit_or, Nat.testBit_and, Nat.testBit_and]
  cases a.testBit i <;> cases b.testBit i <;> cases c.testBit i <;> rfl

theorem hasFlag_lor (a b c : Nat) : hasFlag (a ||| b) c = (hasFlag a c || hasFlag b c) := by
  unfold hasFlag
  rw [lor_land_right]
  by_cases h1 : a &&& c = 0 <;> by_cases h2 : b &&& c = 0 <;>
    simp [h1, h2, lor_eq_zero]

theorem hasFlag_zero (c : Nat) : hasFlag 0 c = false := by
  simp [hasFlag]

theorem hasFlag_ite_zero (p : Bool) (m c : Nat) :
    hasFlag (if p = true then m else 0) c = (p && hasFlag m c) := by
  cases p <;> simp [hasFlag_zero]

theorem TileRenderer.specialData_water {Image Biome : Type} (R : TileRenderer Image Biome)
    (pos : BlockPos) (chunk : Option Chunk) (id : Nat) (hid : id = 8 ∨ id = 9)
    (hW : R.consts.DATA_WEST < 65536) (hS : R.consts.DATA_SOUTH < 65536) :
    R.specialData pos chunk id 0 =
      (if (R.getBlock (pos.add R.consts.DIR_WEST) chunk).isFullWater = true
        then R.consts.DATA_WEST else 0) |||
      (if (R.getBlock (pos.add R.consts.DIR_SOUTH) chunk).isFullWater = true
        then R.consts.DATA_SOUTH else 0) := by
  unfold TileRenderer.specialData
  simp only [hid, and_self, if_true]
  have hw : ((R.getBlock (pos.add R.consts.DIR_WEST) chunk).id = 8 ∨
      (R.getBlock (pos.add R.consts.DIR_WEST) chunk).id = 9) ∧
      (R.getBlock (pos.add R.consts.DIR_WEST) chunk).data = 0 ↔
      (R.getBlock (pos.add R.consts.DIR_WEST) chunk).isFullWater = true := by
    simp [Block.isFullWater]
  have hs : ((R.getBlock (pos.add R.consts.DIR_SOUTH) chunk).id = 8 ∨
      (R.getBlock (pos.add R.consts.DIR_SOUTH) chunk).id = 9) ∧
      (R.getBlock (pos.add R.consts.DIR_SOUTH) chunk).data = 0 ↔
      (R.getBlock (pos.add R.consts.DIR_SOUTH) chunk).isFullWater = true := by
    simp [Block.isFullWater]
  simp only [hw, hs]
  cases (R.getBlock (pos.add R.consts.DIR_WEST) chunk).isFullWater <;>
  cases (R.getBlock (pos.add R.consts.DIR_SOUTH) chunk).isFullWater <;>
  simp [or16_of_lt, hW, hS]

theorem TileRenderer.shadowEdges_transparent {Image Biome : Type}
    (R : TileRenderer Image Biome) (pos : BlockPos) (chunk : Option Chunk) (id d : Nat)
    (h : R.images.isBlockTransparent id d = true) : R.shadowEdges pos chunk id d = d := by
  unfold TileRenderer.shadowEdges
  simp [h]

/-- C11: a full water block (id 8 or 9, raw data 0) that the catalog reports
transparent gets from `checkNeighbors` the data `WEST`-if-the-west-neighbour-
is-full-water OR `SOUTH`-if-the-south-neighbour-is-full-water: the west bit is
set exactly when the west neighbour is a full water block, the south bit
exactly when the south neighbour is, and the north and east bits never. -/
theorem water_connectivity {Image Biome : Type} (R : TileRenderer Image Biome)
    (pos : BlockPos) (chunk : Option Chunk) (id : Nat) (hid : id = 8 ∨ id = 9)
    (hK : R.consts.FlagsOk)
    (htr : R.images.isBlockTransparent id (R.specialData pos chunk id 0) = true) :
    R.checkNeighbors pos chunk id 0 =
      ((if (R.getBlock (pos.add R.consts.DIR_WEST) chunk).isFullWater = true
        then R.consts.DATA_WEST else 0) |||
      (if (R.getBlock (pos.add R.consts.DIR_SOUTH) chunk).isFullWater = true
        then R.consts.DATA_SOUTH else 0)) ∧
    hasFlag (R.checkNeighbors pos chunk id 0) R.consts.DATA_WEST =
      (R.getBlock (pos.add R.consts.DIR_WEST) chunk).isFullWater ∧
    hasFlag (R.checkNeighbors pos chunk id 0) R.consts.DATA_SOUTH =
      (R.getBlock (pos.add R.consts.DIR_SOUTH) chunk).isFullWater ∧
    hasFlag (R.checkNeighbors pos chunk id 0) R.consts.DATA_NORTH = false ∧
    hasFlag (R.checkNeighbors pos chunk id 0) R.consts.DATA_EAST = false := by
  obtain ⟨_, ⟨_, hS, _, hW, _, _, _⟩⟩ := hK.unpack
  have hsd := R.specialData_water pos chunk id hid hW hS
  have hcn : R.checkNeighbors pos chunk id 0 = R.specialData pos chunk id 0 := by
    unfold TileRenderer.checkNeighbors
    exact R.shadowEdges_transparent pos chunk id _ htr
  have ww : hasFlag R.consts.DATA_WEST R.consts.DATA_WEST = true := hK.hasFlag_same 3 (by omega)
  have ss : hasFlag R.consts.DATA_SOUTH R.consts.DATA_SOUTH = true :=
    hK.hasFlag_same 1 (by omega)
  have ws : hasFlag R.consts.DATA_WEST R.consts.DATA_SOUTH = false :=
    hK.hasFlag_ne 3 1 (by omega) (by omega) (by omega)
  have sw : hasFlag R.consts.DATA_SOUTH R.consts.DATA_WEST = false :=
    hK.hasFlag_ne 1 3 (by omega) (by omega) (by omega)
  have wn : hasFlag R.consts.DATA_WEST R.consts.DATA_NORTH = false :=
    hK.hasFlag_ne 3 0 (by omega) (by omega) (by omega)
  have sn : hasFlag R.consts.DATA_SOUTH R.consts.DATA_NORTH = false :=
    hK.hasFlag_ne 1 0 (by omega) (by omega) (by omega)
  have we : hasFlag R.consts.DATA_WEST R.consts.DATA_EAST = false :=
    hK.hasFlag_ne 3 2 (by omega) (by omega) (by omega)
  have se : hasFlag R.consts.DATA_SOUTH R.consts.DATA_EAST = false :=
    hK.hasFlag_ne 1 2 (by omega) (by omega) (by omega)
  rw [hcn, hsd]
  refine ⟨rfl, ?_, ?_, ?_, ?_⟩ <;>
    simp only [hasFlag_lor, hasFlag_ite_zero, ww, ss, ws, sw, wn, sn, we, se, Bool.and_true,
      Bool.and_false, Bool.or_false, Bool.false_or]
/-- C11, witness: water in a layer of full water gets exactly
`DATA_WEST ||| DATA_SOUTH`. -/
theorem water_connectivity_witness :
    (demoRenderer waterLayer).consts.FlagsOk ∧
    (demoRenderer waterLayer).checkNeighbors ⟨0, 0, 64⟩ none 9 0 = 128 ||| 64 :=
  ⟨demoConsts_flagsOk,
    (water_connectivity (demoRenderer waterLayer) ⟨0, 0, 64⟩ none 9 (Or.inr rfl)
      demoConsts_flagsOk (by decide)).1.trans (by decide)⟩

theorem TileRenderer.specialData_chest {Image Biome : Type} (R : TileRenderer Image Biome)
    (pos : BlockPos) (chunk : Option Chunk) (id data : Nat)
    (hid : id = 54 ∨ id = 95 ∨ id = 130 ∨ id = 146) :
    R.specialData pos chunk id data =
      if id = 54 then
        (chestFacing R.consts data |||
          chestFlag R.consts.DATA_NORTH (R.getBlock (pos.add R.consts.DIR_NORTH) chunk) |||
          chestFlag R.consts.DATA_SOUTH (R.getBlock (pos.add R.consts.DIR_SOUTH) chunk) |||
          chestFlag R.consts.DATA_EAST (R.getBlock (pos.add R.consts.DIR_EAST) chunk) |||
          chestFlag R.consts.DATA_WEST (R.getBlock (pos.add R.consts.DIR_WEST) chunk)) % 65536
      else chestFacing R.consts data % 65536 := by
  have h1 : ¬ ((id = 8 ∨ id = 9) ∧ data = 0) := by omega
  have hf : (if data = 2 then R.consts.DATA_NORTH % 65536
      else if data = 3 then R.consts.DATA_SOUTH % 65536
      else if data = 4 then R.consts.DATA_WEST % 65536
      else R.consts.DATA_EAST % 65536) = chestFacing R.consts data % 65536 := by
    unfold chestFacing
    split_ifs <;> rfl
  unfold TileRenderer.specialData
  simp only [h1, hid, if_true, if_false, hf]
  by_cases h54 : id = 54
  · simp only [h54, if_true]
    have hlt : chestFacing R.consts data % 65536 < 65536 := Nat.mod_lt _ (by norm_num)
    rw [ite_or16 _ _ _ hlt, ite_or16 _ _ _ (or16_lt _ _), ite_or16 _ _ _ (or16_lt _ _),
      ite_or16 _ _ _ (or16_lt _ _)]
    simp only [or16_or16, or16_mod_left]
    rfl
  · simp only [h54, if_false]

theorem TileRenderer.hasFlag_shadowEdges_opaque {Image Biome : Type}
    (R : TileRenderer Image Biome) (pos : BlockPos) (chunk : Option Chunk) (id d c : Nat)
    (hc : c < 65536) (hop : R.images.isBlockTransparent id d = false) :
    hasFlag (R.shadowEdges pos chunk id d) c =
      (hasFlag d c ||
        (R.seesThrough (R.getBlock (pos.add R.consts.DIR_NORTH) chunk) &&
          hasFlag R.consts.EDGE_NORTH c) ||
        (R.seesThrough (R.getBlock (pos.add R.consts.DIR_EAST) chunk) &&
          hasFlag R.consts.EDGE_EAST c) ||
        (R.seesThrough (R.getBlock (pos.add R.consts.DIR_BOTTOM) chunk) &&
          hasFlag R.consts.EDGE_BOTTOM c)) := by
  unfold TileRenderer.shadowEdges
  simp only [hop, Bool.not_false, if_true, hasFlag_ite_or16 _ _ _ _ hc,
    TileRenderer.seesThrough]
  simp

/-! ## Scenario B: the flat stone plane -/

theorem TileRenderer.specialData_plain {Image Biome : Type} (R : TileRenderer Image Biome)
    (pos : BlockPos) (chunk : Option Chunk) (id data : Nat)
    (h : id ∉ [8, 9, 54, 95, 130, 146, 64, 71, 85, 101, 102, 113]) :
    R.specialData pos chunk id data = data := by
  simp only [List.mem_cons, List.mem_singleton, List.not_mem_nil, or_false, not_or] at h
  obtain ⟨a1, a2, a3, a4, a5, a6, a7, a8, a9, a10, a11, a12⟩ := h
  unfold TileRenderer.specialData
  simp [a1, a2, a3, a4, a5, a6, a7, a8, a9, a10, a11, a12]

theorem getBlock_stonePlane (p : BlockPos) :
    (demoRenderer stonePlane).getBlock p none = if p.y = 64 then ⟨1, 0⟩ else ⟨0, 0⟩ := by
  unfold TileRenderer.getBlock
  by_cases hy : p.y < 0
  · have : p.y ≠ 64 := by omega
    simp [hy, this]
  · by_cases h64 : p.y = 64 <;>
      simp [hy, h64, TileRenderer.chunkFor, demoRenderer, worldOf, isoPos, stonePlane]

/-- C14, the claim fails: on the stone plane of scenario B, with every chunk
loaded, `checkNeighbors` sets `EDGE_BOTTOM` on the stone at (0, 64, 0), whose
bottom neighbour is air. -/
theorem stone_plane_bottom_edge :
    ¬ (hasFlag ((demoRenderer stonePlane).checkNeighbors ⟨0, 0, 64⟩ none 1 0)
          (demoRenderer stonePlane).consts.EDGE_NORTH = false ∧
        hasFlag ((demoRenderer stonePlane).checkNeighbors ⟨0, 0, 64⟩ none 1 0)
          (demoRenderer stonePlane).consts.EDGE_EAST = false ∧
        hasFlag ((demoRenderer stonePlane).checkNeighbors ⟨0, 0, 64⟩ none 1 0)
          (demoRenderer stonePlane).consts.EDGE_BOTTOM = false) := by
  decide

/-- C14, amended: in a world that reads as opaque stone (id 1) at every
position of height 64 and as air everywhere else, `checkNeighbors` sets on a
stone of the plane neither `EDGE_NORTH` nor `EDGE_EAST`, and it sets
`EDGE_BOTTOM`: it returns exactly `EDGE_BOTTOM`. -/
theorem stone_plane_edges {Image Biome : Type} (R : TileRenderer Image Biome)
    (pos : BlockPos) (chunk : Option Chunk) (hK : R.consts.FlagsOk)
    (hworld : ∀ p : BlockPos, R.getBlock p chunk = if p.y = 64 then ⟨1, 0⟩ else ⟨0, 0⟩)
    (hstone : ∀ d : Nat, R.images.isBlockTransparent 1 d = false)
    (hdir : R.consts.DIR_NORTH.y = 0 ∧ R.consts.DIR_EAST.y = 0 ∧ R.consts.DIR_BOTTOM.y = -1)
    (hpos : pos.y = 64) :
    R.checkNeighbors pos chunk 1 0 = R.consts.EDGE_BOTTOM ∧
    hasFlag (R.checkNeighbors pos chunk 1 0) R.consts.EDGE_NORTH = false ∧
    hasFlag (R.checkNeighbors pos chunk 1 0) R.consts.EDGE_EAST = false ∧
    hasFlag (R.checkNeighbors pos chunk 1 0) R.consts.EDGE_BOTTOM = true := by
  obtain ⟨dn, de, db⟩ := hdir
  obtain ⟨_, ⟨_, _, _, _, _, _, hB⟩⟩ := hK.unpack
  have hsd : R.specialData pos chunk 1 0 = 0 := R.specialData_plain pos chunk 1 0 (by decide)
  have hn : R.getBlock (pos.add R.consts.DIR_NORTH) chunk = ⟨1, 0⟩ := by
    rw [hworld, if_pos (by simp only [BlockPos.add]; omega)]
  have he : R.getBlock (pos.add R.consts.DIR_EAST) chunk = ⟨1, 0⟩ := by
    rw [hworld, if_pos (by simp only [BlockPos.add]; omega)]
  have hb : R.getBlock (pos.add R.consts.DIR_BOTTOM) chunk = ⟨0, 0⟩ := by
    rw [hworld, if_neg (by simp only [BlockPos.add]; omega)]
  have hr : R.checkNeighbors pos chunk 1 0 = R.consts.EDGE_BOTTOM := by
    unfold TileRenderer.checkNeighbors TileRenderer.shadowEdges
    simp [hsd, hstone, hn, he, hb, or16, Nat.mod_eq_of_lt hB]
  rw [hr]
  exact ⟨rfl, hK.hasFlag_ne 6 4 (by omega) (by omega) (by omega),
    hK.hasFlag_ne 6 5 (by omega) (by omega) (by omega), hK.hasFlag_same 6 (by omega)⟩

/-- C14, witness: the sample renderer over the stone plane, at (0, 64, 0). -/
theorem stone_plane_edges_witness :
    (demoRenderer stonePlane).consts.FlagsOk ∧
    (demoRenderer stonePlane).checkNeighbors ⟨0, 0, 64⟩ none 1 0 = 32768 :=
  ⟨demoConsts_flagsOk,
    (stone_plane_edges (demoRenderer stonePlane) ⟨0, 0, 64⟩ none demoConsts_flagsOk
      getBlock_stonePlane (fun _ => rfl) ⟨rfl, rfl, rfl⟩ rfl).1⟩
/-! ## Biome blending -/

theorem TileRenderer.biomeStep_eq {Image Biome : Type} (R : TileRenderer Image Biome)
    (pos : BlockPos) (chunk : Chunk) (acc : Biome × Int) (d : Int × Int) :
    R.biomeStep pos chunk acc d =
      match R.neighborBiome pos chunk d with
      | none => acc
      | some i =>
        if i < R.consts.BIOMES_SIZE then
          (R.consts.biomeAdd acc.1 (R.consts.BIOMES i), acc.2 + 1)
        else acc := by
  unfold TileRenderer.biomeStep TileRenderer.neighborBiome
  by_cases h : R.posApi.chunkOf (pos.add ⟨d.1, d.2, 0⟩) = chunk.pos
  · simp [h]
  · simp only [h, ne_eq, not_false_eq_true, if_true, if_false]
    cases R.world.getChunk (R.posApi.chunkOf (pos.add ⟨d.1, d.2, 0⟩)) <;> simp

theorem TileRenderer.foldl_biomeStep {Image Biome : Type} (R : TileRenderer Image Biome)
    (pos : BlockPos) (chunk : Chunk) (offsets : List (Int × Int)) (acc : Biome × Int) :
    offsets.foldl (R.biomeStep pos chunk) acc =
      (((R.contributing pos chunk offsets).map R.consts.BIOMES).foldl R.consts.biomeAdd acc.1,
        acc.2 + ((R.contributing pos chunk offsets).length : Int)) := by
  induction offsets generalizing acc with
  | nil => simp [TileRenderer.contributing]
  | cons d l ih =>
    rw [List.foldl_cons, ih, R.biomeStep_eq]
    unfold TileRenderer.contributing
    cases hn : R.neighborBiome pos chunk d with
    | none => simp [List.filterMap_cons, hn]
    | some i =>
      by_cases hi : i < R.consts.BIOMES_SIZE
      · simp [List.filterMap_cons, hn, hi, List.filter_cons]
        omega
      · simp [List.filterMap_cons, hn, hi, List.filter_cons]

/-- C15: with `render_biomes` on and an in-range biome id at `pos`, `getBiome`
returns the biome of `pos` plus the biomes of the contributing neighbours,
divided by one plus their number; the contributing neighbours are those of the
eight horizontal neighbours (same y) whose chunk is loaded and whose biome id
is in range. The divisor is between 1 and 9, and it is 9 when all eight
contribute. -/
theorem biome_average {Image Biome : Type} (R : TileRenderer Image Biome)
    (pos : BlockPos) (chunk : Chunk) (hrb : R.render_biomes = true)
    (hin : chunk.getBiomeAt (R.posApi.localOf pos) % 256 < R.consts.BIOMES_SIZE) :
    R.getBiome pos chunk =
      R.consts.biomeDiv
        (((R.contributing pos chunk biomeOffsets).map R.consts.BIOMES).foldl R.consts.biomeAdd
          (R.consts.BIOMES (chunk.getBiomeAt (R.posApi.localOf pos) % 256)))
        (1 + ((R.contributing pos chunk biomeOffsets).length : Int)) ∧
    (1 : Int) ≤ 1 + ((R.contributing pos chunk biomeOffsets).length : Int) ∧
    1 + ((R.contributing pos chunk biomeOffsets).length : Int) ≤ 9 ∧
    (biomeOffsets.length = 8 ∧ biomeOffsets.Nodup ∧
      ∀ d ∈ biomeOffsets, d ≠ (0, 0) ∧ -1 ≤ d.1 ∧ d.1 ≤ 1 ∧ -1 ≤ d.2 ∧ d.2 ≤ 1) ∧
    ((∀ d ∈ biomeOffsets, ∃ i, R.neighborBiome pos chunk d = some i ∧
        i < R.consts.BIOMES_SIZE) →
      1 + ((R.contributing pos chunk biomeOffsets).length : Int) = 9) := by
  have hlen : (R.contributing pos chunk biomeOffsets).length ≤ 8 := by
    unfold TileRenderer.contributing
    calc _ ≤ (biomeOffsets.filterMap (R.neighborBiome pos chunk)).length :=
          List.length_filter_le _ _
      _ ≤ biomeOffsets.length := List.length_filterMap_le _ _
      _ = 8 := rfl
  refine ⟨?_, by omega, by omega, by decide, ?_⟩
  · unfold TileRenderer.getBiome
    simp only [hrb, hin, and_self, if_true]
    rw [R.foldl_biomeStep]
  · intro hall
    have h8 : (R.contributing pos chunk biomeOffsets).length = 8 := by
      unfold TileRenderer.contributing biomeOffsets
      simp only [biomeOffsets, List.mem_cons, List.mem_singleton, List.not_mem_nil, or_false,
        forall_eq_or_imp, forall_eq] at hall
      obtain ⟨⟨i1, e1, l1⟩, ⟨i2, e2, l2⟩, ⟨i3, e3, l3⟩, ⟨i4, e4, l4⟩, ⟨i5, e5, l5⟩,
        ⟨i6, e6, l6⟩, ⟨i7, e7, l7⟩, ⟨i8, e8, l8⟩⟩ := hall
      have e8' : R.neighborBiome pos chunk 1 = some i8 := e8
      simp [List.filterMap_cons, e1, e2, e3, e4, e5, e6, e7, e8', l1, l2, l3, l4, l5, l6, l7,
        l8]
    omega

/-- C15, witness: at (0, 64, 0) of `biomeWorld` five neighbours contribute:
the two in chunk (-1, 0) with biome 5 and three in the hint chunk with biome
2; the neighbour in the missing chunk and the two with the out-of-range id do
not. The result is (2 + 5 + 5 + 2 + 2 + 2) / 6 = 3. -/
theorem biome_average_witness :
    biomeRenderer.render_biomes = true ∧
    biomeRenderer.getBiome ⟨0, 0, 64⟩ (biomeChunk ⟨0, 0⟩ 2) = 3 :=
  ⟨rfl, (biome_average biomeRenderer ⟨0, 0, 64⟩ (biomeChunk ⟨0, 0⟩ 2) rfl
    (by decide)).1.trans (by decide)⟩
/-! ## Water collapsing -/

theorem flushRow_eq_foldl {Image : Type} :
    ∀ (row blocks : List (RenderBlock Image)),
      flushRow row blocks = (flushKept row).foldl (fun acc a => setInsert a acc) blocks := by
  intro row
  induction row with
  | nil => intro blocks; rfl
  | cons a l ih =>
    intro blocks
    cases l with
    | nil => rfl
    | cons nxt rest =>
      simp only [flushRow, flushKept]
      split_ifs with h
      · exact ih blocks
      · rw [List.foldl_cons]
        exact ih _

/-- C17, the code at the failing input: in the `wideId` world the row from
(0, 2, 0) collects the leaves and then the block with id 274. The item of the
block 274 stores its id in 8 bits, as 18, and the flush leaves it out as a leaf
hidden under a leaf, although the block it was made from does not have id
18. -/
theorem leaf_dedup_drops_wide_id :
    wideId ⟨1, -1, 1⟩ = ⟨274, 0⟩ ∧
    ∃ st', (demoRenderer wideId).rowLoop 0 0 5 3 (BlockRowIterator.init ⟨0, 0, 2⟩)
        { chunk := none, water := 0, row_nodes := [] } = some st' ∧
      st'.row_nodes.map (fun b => (b.pos, b.id)) = [(⟨1, -1, 1⟩, 18), (⟨0, 0, 2⟩, 18)] ∧
      (flushKept st'.row_nodes).map (fun b => b.pos) = [⟨0, 0, 2⟩] ∧
      (flushRow st'.row_nodes []).map (fun b => b.pos) = [⟨0, 0, 2⟩] := by
  refine ⟨by decide, _, rfl, ?_, ?_, ?_⟩
  · decide
  · decide
  · decide
theorem BlockPos.eq_of_not_lt {a b : BlockPos} (h1 : a.lt b = false) (h2 : b.lt a = false) :
    a = b := by
  simp only [BlockPos.lt, decide_eq_false_iff_not] at h1 h2
  cases a
  cases b
  simp only [BlockPos.mk.injEq]
  simp only at h1 h2
  omega

theorem mem_setInsert_of_mem {Image : Type} (x b : RenderBlock Image) :
    ∀ l : List (RenderBlock Image), b ∈ l → b ∈ setInsert x l := by
  intro l
  induction l with
  | nil => intro h; simp at h
  | cons a l ih =>
    intro h
    simp only [setInsert]
    split_ifs
    · rcases List.mem_cons.mp h with h | h
      · rw [h]; exact List.mem_cons_self _ _
      · exact List.mem_cons_of_mem _ (ih h)
    · exact List.mem_cons_of_mem _ h
    · exact h

theorem exists_pos_setInsert {Image : Type} (x : RenderBlock Image) :
    ∀ l : List (RenderBlock Image), ∃ b ∈ setInsert x l, b.pos = x.pos := by
  intro l
  induction l with
  | nil => exact ⟨x, by simp [setInsert], rfl⟩
  | cons a l ih =>
    simp only [setInsert]
    split_ifs with h1 h2
    · obtain ⟨b, hb, hp⟩ := ih
      exact ⟨b, List.mem_cons_of_mem _ hb, hp⟩
    · exact ⟨x, List.mem_cons_self _ _, rfl⟩
    · refine ⟨a, List.mem_cons_self _ _, ?_⟩
      exact BlockPos.eq_of_not_lt (by simpa [RenderBlock.lt] using h1)
        (by simpa [RenderBlock.lt] using h2)

theorem exists_pos_foldl_setInsert {Image : Type} (p : BlockPos) :
    ∀ (kept acc : List (RenderBlock Image)),
      ((∃ b ∈ acc, b.pos = p) ∨ ∃ a ∈ kept, a.pos = p) →
      ∃ b ∈ kept.foldl (fun acc a => setInsert a acc) acc, b.pos = p := by
  intro kept
  induction kept with
  | nil =>
    intro acc h
    rcases h with h | ⟨a, ha, _⟩
    · exact h
    · simp at ha
  | cons a l ih =>
    intro acc h
    rw [List.foldl_cons]
    apply ih
    rcases h with ⟨b, hb, hp⟩ | ⟨b, hb, hp⟩
    · exact Or.inl ⟨b, mem_setInsert_of_mem _ _ _ hb, hp⟩
    · rcases List.mem_cons.mp hb with hb | hb
      · obtain ⟨c, hc, hcp⟩ := exists_pos_setInsert a acc
        exact Or.inl ⟨c, hc, by rw [hcp, ← hb, hp]⟩
      · exact Or.inr ⟨b, hb, hp⟩

theorem getLast_mem_flushKept {Image : Type} :
    ∀ (row : List (RenderBlock Image)) (hne : row ≠ []), row.getLast hne ∈ flushKept row := by
  intro row
  induction row with
  | nil => intro hne; exact absurd rfl hne
  | cons a l ih =>
    intro hne
    cases l with
    | nil => simp [flushKept]
    | cons nxt rest =>
      have h := ih (by simp)
      rw [List.getLast_cons (by simp)]
      simp only [flushKept]
      split_ifs
      · exact h
      · exact List.mem_cons_of_mem _ h

theorem flushKept_sublist {Image : Type} :
    ∀ row : List (RenderBlock Image), (flushKept row).Sublist row := by
  intro row
  induction row with
  | nil => exact List.Sublist.slnil
  | cons a l ih =>
    cases l with
    | nil => exact List.Sublist.refl _
    | cons nxt rest =>
      simp only [flushKept]
      split_ifs
      · exact List.Sublist.cons _ ih
      · exact List.Sublist.cons₂ _ ih

theorem collapseWater_sorted {Image Biome : Type} (R : TileRenderer Image Biome)
    (chunk : Option Chunk) :
    ∀ l : List (RenderBlock Image),
      l.Pairwise (fun a b => a.pos.lt b.pos = true) →
      (R.collapseWater chunk l).Pairwise (fun a b => a.pos.lt b.pos = true) := by
  intro l
  induction l with
  | nil => intro _; simp [TileRenderer.collapseWater]
  | cons a l ih =>
    intro h
    rw [List.pairwise_cons] at h
    simp only [TileRenderer.collapseWater]
    split_ifs
    · exact setInsert_sorted _ l h.2
    · exact ih h.2

theorem TileRenderer.rowBody_sorted {Image Biome : Type} (R : TileRenderer Image Biome)
    (draw_x draw_y max_water : Int) (p : BlockPos) (st : RowState Image)
    (h : st.row_nodes.Pairwise (fun a b => a.pos.lt b.pos = true)) :
    (R.rowBody draw_x draw_y max_water p st).1.row_nodes.Pairwise
      (fun a b => a.pos.lt b.pos = true) := by
  unfold TileRenderer.rowBody
  cases hc : R.chunkFor (R.posApi.chunkOf p) st.chunk with
  | none => simpa only [hc] using h
  | some c =>
    simp only [hc]
    split_ifs
    all_goals first
      | exact h
      | exact collapseWater_sorted R _ _ h
      | exact setInsert_sorted _ _ h

theorem TileRenderer.rowLoop_sorted {Image Biome : Type} (R : TileRenderer Image Biome)
    (draw_x draw_y max_water : Int) :
    ∀ (fuel : Nat) (block : BlockRowIterator) (st st' : RowState Image),
      st.row_nodes.Pairwise (fun a b => a.pos.lt b.pos = true) →
      R.rowLoop draw_x draw_y max_water fuel block st = some st' →
      st'.row_nodes.Pairwise (fun a b => a.pos.lt b.pos = true) := by
  intro fuel
  induction fuel with
  | zero =>
    intro block st st' h hrun
    simp only [TileRenderer.rowLoop] at hrun
    split_ifs at hrun
    cases hrun
    exact h
  | succ f ih =>
    intro block st st' h hrun
    simp only [TileRenderer.rowLoop] at hrun
    have hb := R.rowBody_sorted draw_x draw_y max_water block.current st h
    split_ifs at hrun
    · cases hrun
      exact h
    · cases hrun
      exact hb
    · exact ih _ _ _ hb hrun
theorem le_getLast_of_sorted {Image : Type} (row : List (RenderBlock Image)) (hne : row ≠ [])
    (h : row.Pairwise (fun a b => a.pos.lt b.pos = true)) :
    ∀ b ∈ row, b.pos.y ≤ (row.getLast hne).pos.y := by
  intro b hb
  have hsplit := List.dropLast_append_getLast hne
  rw [← hsplit] at h hb
  rw [List.pairwise_append] at h
  rcases List.mem_append.mp hb with hb | hb
  · exact BlockPos.lt_height (h.2.2 b hb _ (List.mem_singleton_self _))
  · rw [List.mem_singleton.mp hb]

/-- C18, the claim fails: in the `twoLeaves` world the row from (0, 2, 0)
collects the leaf at height 2 and then the leaf at height 1. The flush leaves
out the deepest item, the leaf at height 1 collected last, and inserts the
leaf at height 2 alone. -/
theorem flush_drops_deepest_leaf :
    ∃ st', (demoRenderer twoLeaves).rowLoop 0 0 5 3 (BlockRowIterator.init ⟨0, 0, 2⟩)
        { chunk := none, water := 0, row_nodes := [] } = some st' ∧
      st'.row_nodes.map (fun b => b.pos) = [⟨1, -1, 1⟩, ⟨0, 0, 2⟩] ∧
      (flushKept st'.row_nodes).map (fun b => b.pos) = [⟨0, 0, 2⟩] ∧
      (flushRow st'.row_nodes []).map (fun b => b.pos) = [⟨0, 0, 2⟩] := by
  refine ⟨_, rfl, ?_, ?_, ?_⟩
  · decide
  · decide
  · decide

/-- C18, amended: when the items a row loop collected are flushed into the
blocks set, the last item in the order of the row set, which is the item with
the greatest height (the shallowest one of the row), is always passed to
`blocks.insert`, and after the flush the blocks set holds an item at its
position, whatever the ids and the other items are. -/
theorem flush_keeps_shallowest {Image Biome : Type} (R : TileRenderer Image Biome)
    (draw_x draw_y max_water : Int) (fuel : Nat) (block : BlockRowIterator)
    (chunk : Option Chunk) (st' : RowState Image) (blocks : List (RenderBlock Image))
    (hrun : R.rowLoop draw_x draw_y max_water fuel block
      { chunk := chunk, water := 0, row_nodes := [] } = some st')
    (hne : st'.row_nodes ≠ []) :
    (∀ b ∈ st'.row_nodes, b.pos.y ≤ (st'.row_nodes.getLast hne).pos.y) ∧
    st'.row_nodes.getLast hne ∈ flushKept st'.row_nodes ∧
    ∃ b ∈ flushRow st'.row_nodes blocks, b.pos = (st'.row_nodes.getLast hne).pos := by
  have hsorted := R.rowLoop_sorted draw_x draw_y max_water fuel block _ st'
    List.Pairwise.nil hrun
  refine ⟨le_getLast_of_sorted _ hne hsorted, getLast_mem_flushKept _ hne, ?_⟩
  rw [flushRow_eq_foldl]
  exact exists_pos_foldl_setInsert _ _ _ (Or.inr ⟨_, getLast_mem_flushKept _ hne, rfl⟩)

/-- C18, witness: the row of the `twoLeaves` world; the flush keeps an item
at (0, 2, 0), the upper leaf. -/
theorem flush_keeps_shallowest_witness :
    ∃ st', (demoRenderer twoLeaves).rowLoop 0 0 5 3 (BlockRowIterator.init ⟨0, 0, 2⟩)
        { chunk := none, water := 0, row_nodes := [] } = some st' ∧
      ∃ hne : st'.row_nodes ≠ [],
        (st'.row_nodes.getLast hne).pos = ⟨0, 0, 2⟩ ∧
        ∃ b ∈ flushRow st'.row_nodes [], b.pos = (st'.row_nodes.getLast hne).pos :=
  ⟨_, rfl, List.ne_nil_of_length_pos (by decide), by decide,
    (flush_keeps_shallowest (demoRenderer twoLeaves) 0 0 5 3 (BlockRowIterator.init ⟨0, 0, 2⟩)
      none _ [] rfl (List.ne_nil_of_length_pos (by decide))).2.2⟩
/-! ## One step of the top iterator -/

theorem perm_setInsert {Image : Type} (x : RenderBlock Image) :
    ∀ l : List (RenderBlock Image), (∀ b ∈ l, b.pos ≠ x.pos) →
      (setInsert x l).Perm (x :: l) := by
  intro l
  induction l with
  | nil => intro _; exact List.Perm.refl _
  | cons a l ih =>
    intro h
    simp only [setInsert]
    split_ifs with h1 h2
    · exact ((ih (fun b hb => h b (List.mem_cons_of_mem _ hb))).cons a).trans
        (List.Perm.swap x a l)
    · exact List.Perm.refl _
    · exfalso
      exact h a (List.mem_cons_self _ _)
        (BlockPos.eq_of_not_lt (by simpa [RenderBlock.lt] using h1)
          (by simpa [RenderBlock.lt] using h2))

theorem perm_foldl_setInsert {Image : Type} :
    ∀ (kept acc : List (RenderBlock Image)),
      (kept.map (fun b => b.pos)).Nodup →
      (∀ a ∈ kept, ∀ b ∈ acc, b.pos ≠ a.pos) →
      (kept.foldl (fun acc a => setInsert a acc) acc).Perm (kept ++ acc) := by
  intro kept
  induction kept with
  | nil => intro acc _ _; exact List.Perm.refl _
  | cons a l ih =>
    intro acc hnd hdis
    rw [List.map_cons, List.nodup_cons] at hnd
    rw [List.foldl_cons]
    have hp := perm_setInsert a acc (hdis a (List.mem_cons_self _ _))
    have h1 := ih (setInsert a acc) hnd.2 (by
      intro x hx b hb
      rcases mem_setInsert _ _ _ hb with hb | hb
      · rw [hb]
        intro heq
        exact hnd.1 (List.mem_map.mpr ⟨x, hx, heq.symm⟩)
      · exact hdis x (List.mem_cons_of_mem _ hx) b hb)
    refine h1.trans ?_
    refine (List.Perm.append_left l hp).trans ?_
    exact List.perm_middle

theorem nodup_pos_of_sorted {Image : Type} (l : List (RenderBlock Image))
    (h : l.Pairwise (fun a b => a.pos.lt b.pos = true)) :
    (l.map (fun b => b.pos)).Nodup := by
  rw [List.Nodup, List.pairwise_map]
  refine h.imp ?_
  intro a b hab heq
  rw [heq, BlockPos.lt_irrefl] at hab
  exact absurd hab (by simp)

/-- The row of one top block: its items are voxels of the row, pairwise at
different positions. -/
theorem TileRenderer.row_of_top {Image Biome : Type} (R : TileRenderer Image Biome)
    (hD : R.posApi.DiagStep) (mw : Int) (it : TileTopBlockIterator) (chunk : Option Chunk)
    (st : RowState Image)
    (hst : R.rowLoop it.draw_x it.draw_y mw (it.current.y + 1).toNat
      (BlockRowIterator.init it.current)
      { chunk := chunk, water := 0, row_nodes := [] } = some st) :
    ((flushKept st.row_nodes).map (fun b => b.pos)).Nodup ∧
    ∀ b ∈ flushKept st.row_nodes,
      (R.posApi.getRow b.pos, R.posApi.getCol b.pos) = it.rowCol R.posApi := by
  have hsorted := R.rowLoop_sorted _ _ _ _ _ _ st List.Pairwise.nil hst
  refine ⟨nodup_pos_of_sorted _ (hsorted.sublist (flushKept_sublist _)), ?_⟩
  intro b hb
  have hb' : b ∈ st.row_nodes := (flushKept_sublist _).subset hb
  rcases R.mem_rowLoop _ _ _ b _ _ _ _ hst hb' with ⟨a0, ha0, _⟩ | ⟨j, _, hp, _, _⟩
  · simp at ha0
  · have hd := diag_iterate R.posApi hD it.current j
    rw [hp, hd.1, hd.2]
    rfl

theorem TileRenderer.tileLoop_kept {Image Biome : Type} (R : TileRenderer Image Biome)
    (hD : R.posApi.DiagStep) (mw : Int) :
    ∀ (fuel : Nat) (it : TileTopBlockIterator) (ys : List TileTopBlockIterator)
      (acc : Option Chunk × List (RenderBlock Image)),
      TileTopBlockIterator.run R.posApi fuel it = some ys →
      (ys.map (TileTopBlockIterator.rowCol R.posApi)).Nodup →
      (∀ b ∈ acc.2, ∀ s ∈ ys,
        (R.posApi.getRow b.pos, R.posApi.getCol b.pos) ≠ s.rowCol R.posApi) →
      ∃ res kept, R.tileLoop mw fuel it acc = some res ∧
        R.tileKept mw fuel it acc.1 = some kept ∧
        res.2.Perm (kept ++ acc.2) ∧
        (kept.map (fun b => b.pos)).Nodup ∧
        ∀ b ∈ kept, ∃ s ∈ ys,
          (R.posApi.getRow b.pos, R.posApi.getCol b.pos) = s.rowCol R.posApi := by
  intro fuel
  induction fuel with
  | zero =>
    intro it ys acc hrun _ _
    simp only [TileTopBlockIterator.run] at hrun
    split_ifs at hrun with he
    exact ⟨acc, [], by simp [TileRenderer.tileLoop, he], by simp [TileRenderer.tileKept, he],
      by simp, by simp, by simp⟩
  | succ fuel ih =>
    intro it ys acc hrun hnd hacc
    simp only [TileTopBlockIterator.run] at hrun
    split_ifs at hrun with he
    · exact ⟨acc, [], by simp [TileRenderer.tileLoop, he],
        by simp [TileRenderer.tileKept, he], by simp, by simp, by simp⟩
    · cases hr : TileTopBlockIterator.run R.posApi fuel (it.next R.posApi) with
      | none => simp [hr] at hrun
      | some ys' =>
        simp only [hr, Option.map_some', Option.some.injEq] at hrun
        subst hrun
        rw [List.map_cons, List.nodup_cons] at hnd
        obtain ⟨st, hst⟩ := R.rowLoop_some it.draw_x it.draw_y mw (it.current.y + 1).toNat
          (BlockRowIterator.init it.current) { chunk := acc.1, water := 0, row_nodes := [] }
          (by simp only [BlockRowIterator.init]; omega)
        obtain ⟨hknd, hkrc⟩ := R.row_of_top hD mw it acc.1 st hst
        have hbody : R.tileBody mw it acc = some (st.chunk, flushRow st.row_nodes acc.2) := by
          simp only [TileRenderer.tileBody, hst]
        have hdis : ∀ a ∈ flushKept st.row_nodes, ∀ b ∈ acc.2, b.pos ≠ a.pos := by
          intro a ha b hb heq
          apply hacc b hb it (List.mem_cons_self _ _)
          rw [heq]
          exact hkrc a ha
        have hperm : (flushRow st.row_nodes acc.2).Perm (flushKept st.row_nodes ++ acc.2) := by
          rw [flushRow_eq_foldl]
          exact perm_foldl_setInsert _ _ hknd hdis
        obtain ⟨res, kept, hres, hkept, hp, hnd', hrc⟩ := ih (it.next R.posApi) ys'
          (st.chunk, flushRow st.row_nodes acc.2) hr hnd.2 (by
            intro b hb s hs
            rcases List.mem_append.mp (hperm.subset hb) with h1 | h1
            · rw [hkrc b h1]
              intro heq
              exact hnd.1 (List.mem_map.mpr ⟨s, hs, heq.symm⟩)
            · exact hacc b h1 s (List.mem_cons_of_mem _ hs))
        refine ⟨res, flushKept st.row_nodes ++ kept, ?_, ?_, ?_, ?_, ?_⟩
        · simp only [TileRenderer.tileLoop, he, Bool.false_eq_true, if_false, hbody, hres]
        · simp only [TileRenderer.tileKept, he, Bool.false_eq_true, if_false, hst, hkept,
            Option.map_some']
        · refine hp.trans ?_
          refine (List.Perm.append_left kept hperm).trans ?_
          rw [← List.append_assoc]
          exact List.Perm.append_right _ List.perm_append_comm
        · rw [List.map_append, List.nodup_append]
          refine ⟨hknd, hnd', ?_⟩
          intro p hp1 hp2
          obtain ⟨a, ha, rfl⟩ := List.mem_map.mp hp1
          obtain ⟨b, hb, hbp⟩ := List.mem_map.mp hp2
          obtain ⟨s, hs, hsrc⟩ := hrc b hb
          apply hnd.1
          refine List.mem_map.mpr ⟨s, hs, ?_⟩
          rw [← hsrc, ← hkrc a ha, hbp]
        · intro b hb
          rcases List.mem_append.mp hb with h1 | h1
          · exact ⟨it, List.mem_cons_self _ _, hkrc b h1⟩
          · obtain ⟨s, hs, hsrc⟩ := hrc b h1
            exact ⟨s, List.mem_cons_of_mem _ hs, hsrc⟩
/-- C20: under a projection with the laws of the source's comments, in one
`renderTile` call the top iterator yields no voxel twice, the rows started
from two different top voxels have no voxel in common, and a row has no voxel
twice; hence the render blocks passed to `blocks.insert` are pairwise at
different positions and the blocks set ends up holding every one of them: none
is dropped for an earlier one with the same position. -/
theorem no_voxel_reached_twice {Image Biome : Type} (R : TileRenderer Image Biome)
    (hZ : R.posApi.ZStep) (hL : R.posApi.LeftStep) (hD : R.posApi.DiagStep)
    (tile : TilePos) :
    ∃ ys : List TileTopBlockIterator,
      (∀ fuel, ys.length ≤ fuel →
        TileTopBlockIterator.run R.posApi fuel
          (TileTopBlockIterator.init R.posApi tile R.images.getBlockImageSize
            R.images.getTileSize) = some ys) ∧
      (ys.map (fun s => s.current)).Nodup ∧
      (∀ s1 ∈ ys, ∀ s2 ∈ ys, s1.current ≠ s2.current → ∀ j k : Nat,
        (BlockRowIterator.next^[j] (BlockRowIterator.init s1.current)).current ≠
          (BlockRowIterator.next^[k] (BlockRowIterator.init s2.current)).current) ∧
      (∀ (p : BlockPos) (j k : Nat), j ≠ k →
        (BlockRowIterator.next^[j] (BlockRowIterator.init p)).current ≠
          (BlockRowIterator.next^[k] (BlockRowIterator.init p)).current) ∧
      ∀ fuel, ys.length ≤ fuel →
        ∃ out kept, R.renderTile fuel tile = some out ∧
          R.tileKept R.images.getMaxWaterNeededOpaque fuel
            (TileTopBlockIterator.init R.posApi tile R.images.getBlockImageSize
              R.images.getTileSize) none = some kept ∧
          (kept.map (fun b => b.pos)).Nodup ∧
          out.blits.Perm kept := by
  obtain ⟨ys, h⟩ := topRun_init R.posApi hZ hL tile R.images.getBlockImageSize
    R.images.getTileSize
  have hnd := h.nodup
  refine ⟨ys, h.run_eq, ?_, ?_, ?_, ?_⟩
  · have hmap : ys.map (TileTopBlockIterator.rowCol R.posApi) =
        (ys.map (fun s => s.current)).map
          (fun p => (R.posApi.getRow p, R.posApi.getCol p)) := by
      rw [List.map_map]
      rfl
    rw [hmap] at hnd
    exact List.Nodup.of_map _ hnd
  · intro s1 hs1 s2 hs2 hne j k heq
    have d1 := diag_iterate R.posApi hD s1.current j
    have d2 := diag_iterate R.posApi hD s2.current k
    rw [heq] at d1
    have hrc : s1.rowCol R.posApi = s2.rowCol R.posApi := by
      simp only [TileTopBlockIterator.rowCol, Prod.mk.injEq]
      exact ⟨d1.1.symm.trans d2.1, d1.2.symm.trans d2.2⟩
    have := List.inj_on_of_nodup_map hnd hs1 hs2 hrc
    exact hne (by rw [this])
  · intro p j k hjk heq
    rw [BlockRowIterator.iterate_next, BlockRowIterator.iterate_next] at heq
    simp only [BlockPos.mk.injEq] at heq
    omega
  · intro fuel hfuel
    obtain ⟨res, kept, hres, hkept, hp, hknd, _⟩ := R.tileLoop_kept hD
      R.images.getMaxWaterNeededOpaque fuel _ ys (none, []) (h.run_eq fuel hfuel) hnd
      (by intro b hb; simp at hb)
    refine ⟨_, kept, R.renderTile_of_tileLoop fuel tile res hres, hkept, hknd, ?_⟩
    simpa using hp

/-! ## The chunk hint does not change what is read -/

theorem TileRenderer.chunkFor_of_hintOk {Image Biome : Type} (R : TileRenderer Image Biome)
    (cp : ChunkPos) (hint : Option Chunk) (h : R.HintOk hint) :
    R.chunkFor cp hint = R.world.getChunk cp := by
  unfold TileRenderer.chunkFor
  cases hint with
  | none => rfl
  | some c =>
    simp only
    split_ifs with hne
    · rfl
    · have heq : cp = c.pos := by simpa using hne
      rw [heq]
      exact (h c rfl).symm

theorem TileRenderer.hintOk_getChunk {Image Biome : Type} (R : TileRenderer Image Biome)
    (hS : R.world.Stable) (cp : ChunkPos) : R.HintOk (R.world.getChunk cp) := by
  intro c hc
  rw [hS cp c hc]
  exact hc

theorem TileRenderer.rowBody_chunk {Image Biome : Type} (R : TileRenderer Image Biome)
    (dx dy mw : Int) (p : BlockPos) (st : RowState Image) :
    (R.rowBody dx dy mw p st).1.chunk = R.chunkFor (R.posApi.chunkOf p) st.chunk := by
  unfold TileRenderer.rowBody
  cases hc : R.chunkFor (R.posApi.chunkOf p) st.chunk with
  | none => simp only [hc]
  | some c =>
    simp only [hc]
    split_ifs <;> rfl

theorem TileRenderer.rowBody_hint {Image Biome : Type} (R : TileRenderer Image Biome)
    (dx dy mw : Int) (p : BlockPos) (hint : Option Chunk) (w : Int)
    (l : List (RenderBlock Image)) (h : R.HintOk hint) :
    R.rowBody dx dy mw p { chunk := hint, water := w, row_nodes := l } =
      R.rowBody dx dy mw p { chunk := none, water := w, row_nodes := l } := by
  have h1 := R.chunkFor_of_hintOk (R.posApi.chunkOf p) hint h
  have h2 : R.chunkFor (R.posApi.chunkOf p) none = R.world.getChunk (R.posApi.chunkOf p) := rfl
  unfold TileRenderer.rowBody
  simp only [h1, h2]

theorem TileRenderer.rowLoop_hintOk {Image Biome : Type} (R : TileRenderer Image Biome)
    (hS : R.world.Stable) (dx dy mw : Int) :
    ∀ (fuel : Nat) (block : BlockRowIterator) (st st' : RowState Image),
      R.HintOk st.chunk → R.rowLoop dx dy mw fuel block st = some st' →
      R.HintOk st'.chunk := by
  intro fuel
  induction fuel with
  | zero =>
    intro block st st' h hrun
    simp only [TileRenderer.rowLoop] at hrun
    split_ifs at hrun
    cases hrun
    exact h
  | succ f ih =>
    intro block st st' h hrun
    have hb : R.HintOk (R.rowBody dx dy mw block.current st).1.chunk := by
      rw [R.rowBody_chunk, R.chunkFor_of_hintOk _ _ h]
      exact R.hintOk_getChunk hS _
    simp only [TileRenderer.rowLoop] at hrun
    split_ifs at hrun
    · cases hrun
      exact h
    · cases hrun
      exact hb
    · exact ih _ _ _ hb hrun

theorem TileRenderer.rowLoop_hint {Image Biome : Type} (R : TileRenderer Image Biome)
    (dx dy mw : Int) (fuel : Nat) (block : BlockRowIterator) (hint : Option Chunk) (w : Int)
    (l : List (RenderBlock Image)) (h : R.HintOk hint) (hne : block.end_ = false) :
    R.rowLoop dx dy mw (fuel + 1) block { chunk := hint, water := w, row_nodes := l } =
      R.rowLoop dx dy mw (fuel + 1) block { chunk := none, water := w, row_nodes := l } := by
  simp only [TileRenderer.rowLoop, hne, Bool.false_eq_true, if_false]
  rw [R.rowBody_hint dx dy mw block.current hint w l h]

/-- The render blocks a row passes to `blocks.insert` are among those of the
whole call, for the row of every top voxel the iterator yields. -/
theorem TileRenderer.tileKept_rows {Image Biome : Type} (R : TileRenderer Image Biome)
    (hS : R.world.Stable) (mw : Int) :
    ∀ (fuel : Nat) (it : TileTopBlockIterator) (ys : List TileTopBlockIterator)
      (hint : Option Chunk) (kept : List (RenderBlock Image)),
      R.HintOk hint →
      TileTopBlockIterator.run R.posApi fuel it = some ys →
      R.tileKept mw fuel it hint = some kept →
      ∀ s ∈ ys, 0 ≤ s.current.y → ∀ st,
        R.rowLoop s.draw_x s.draw_y mw (s.current.y + 1).toNat
          (BlockRowIterator.init s.current)
          { chunk := none, water := 0, row_nodes := [] } = some st →
        ∀ b ∈ flushKept st.row_nodes, b ∈ kept := by
  intro fuel
  induction fuel with
  | zero =>
    intro it ys hint kept _ hrun _ s hs
    simp only [TileTopBlockIterator.run] at hrun
    split_ifs at hrun
    cases hrun
    simp at hs
  | succ fuel ih =>
    intro it ys hint kept hh hrun hkept s hs hy st hst b hb
    simp only [TileTopBlockIterator.run] at hrun
    simp only [TileRenderer.tileKept] at hkept
    split_ifs at hrun hkept with he
    · cases hrun
      simp at hs
    · cases hr : TileTopBlockIterator.run R.posApi fuel (it.next R.posApi) with
      | none => simp [hr] at hrun
      | some ys' =>
        simp only [hr, Option.map_some', Option.some.injEq] at hrun
        subst hrun
        cases hrow : R.rowLoop it.draw_x it.draw_y mw (it.current.y + 1).toNat
            (BlockRowIterator.init it.current)
            { chunk := hint, water := 0, row_nodes := [] } with
        | none => simp [hrow] at hkept
        | some st0 =>
          simp only [hrow] at hkept
          cases hk : R.tileKept mw fuel (it.next R.posApi) st0.chunk with
          | none => simp [hk] at hkept
          | some kept' =>
            simp only [hk, Option.map_some', Option.some.injEq] at hkept
            subst hkept
            rcases List.mem_cons.mp hs with hs | hs
            · subst hs
              obtain ⟨f, hf⟩ : ∃ f, (s.current.y + 1).toNat = f + 1 :=
                ⟨(s.current.y + 1).toNat - 1, by omega⟩
              rw [hf] at hrow hst
              rw [R.rowLoop_hint _ _ _ f _ hint 0 [] hh
                (by simp only [BlockRowIterator.end_, BlockRowIterator.init,
                  decide_eq_false_iff_not]; omega)] at hrow
              rw [hrow] at hst
              cases hst
              exact List.mem_append_left _ hb
            · exact List.mem_append_right _
                (ih _ ys' st0.chunk kept'
                  (R.rowLoop_hintOk hS _ _ _ _ _ _ st0 hh hrow) hr hk s hs hy st hst b hb)
theorem worldOf_stable (blockAt : BlockPos → Block) : (worldOf blockAt).Stable := by
  intro cp c h
  simp only [worldOf, Option.some.injEq] at h
  rw [← h]

/-- Every render block that the row of a yielded top voxel passes to
`blocks.insert` is blitted. -/
theorem TileRenderer.rows_blitted {Image Biome : Type} (R : TileRenderer Image Biome)
    (hS : R.world.Stable) (hD : R.posApi.DiagStep) (tile : TilePos) (fuel : Nat)
    (ys : List TileTopBlockIterator)
    (hrun : TileTopBlockIterator.run R.posApi fuel
      (TileTopBlockIterator.init R.posApi tile R.images.getBlockImageSize
        R.images.getTileSize) = some ys)
    (hnd : (ys.map (TileTopBlockIterator.rowCol R.posApi)).Nodup) :
    ∃ out, R.renderTile fuel tile = some out ∧
      ∀ s ∈ ys, 0 ≤ s.current.y → ∀ st,
        R.rowLoop s.draw_x s.draw_y R.images.getMaxWaterNeededOpaque
          (s.current.y + 1).toNat (BlockRowIterator.init s.current)
          { chunk := none, water := 0, row_nodes := [] } = some st →
        ∀ b ∈ flushKept st.row_nodes, b ∈ out.blits := by
  obtain ⟨res, kept, hres, hkept, hp, _, _⟩ := R.tileLoop_kept hD
    R.images.getMaxWaterNeededOpaque fuel _ ys (none, []) hrun hnd
    (by intro b hb; simp at hb)
  refine ⟨_, R.renderTile_of_tileLoop fuel tile res hres, ?_⟩
  intro s hs hy st hst b hb
  have hk := R.tileKept_rows hS R.images.getMaxWaterNeededOpaque fuel _ ys none kept
    (by intro c hc; cases hc) hrun hkept s hs hy st hst b hb
  exact hp.symm.subset (List.mem_append_left _ hk)

/-- In the `glassOverStone` world, tile (0, 0) blits the stone and the glass,
both at the pixel (248, -8) of their row. -/
theorem glassOverStone_blits :
    ∃ n : Nat, ∀ fuel, n ≤ fuel →
      ∃ out, (demoRenderer glassOverStone).renderTile fuel ⟨0, 0⟩ = some out ∧
        (∃ a ∈ out.blits, a.pos = ⟨25, 22, 254⟩ ∧ a.x = 248 ∧ a.y = -8) ∧
        (∃ b ∈ out.blits, b.pos = ⟨24, 23, 255⟩ ∧ b.x = 248 ∧ b.y = -8) := by
  obtain ⟨ys, h⟩ := topRun_init isoPos isoPos_zstep isoPos_leftstep ⟨0, 0⟩ 16 256
  refine ⟨ys.length + 2, fun fuel hf => ?_⟩
  have hrun := h.run_eq fuel (by omega)
  obtain ⟨out, hout, hrows⟩ := (demoRenderer glassOverStone).rows_blitted
    (worldOf_stable _) isoPos_diagstep ⟨0, 0⟩ fuel ys hrun h.nodup
  obtain ⟨f, rfl⟩ : ∃ f, fuel = f + 2 := ⟨fuel - 2, by omega⟩
  have hmem : (TileTopBlockIterator.init isoPos ⟨0, 0⟩ 16 256).next isoPos ∈ ys := by
    have hrun' : TileTopBlockIterator.run isoPos (f + 2)
        (TileTopBlockIterator.init isoPos ⟨0, 0⟩ 16 256) = some ys := hrun
    rw [TileTopBlockIterator.run_of_not_end isoPos (f + 1) _ (by decide),
      TileTopBlockIterator.run_of_not_end isoPos f _ (by decide)] at hrun'
    cases hr : TileTopBlockIterator.run isoPos f
        (((TileTopBlockIterator.init isoPos ⟨0, 0⟩ 16 256).next isoPos).next isoPos) with
    | none => simp [hr] at hrun'
    | some l =>
      simp only [hr, Option.map_some', Option.some.injEq] at hrun'
      rw [← hrun']
      simp
  have hrow : ∃ st, (demoRenderer glassOverStone).rowLoop
      ((TileTopBlockIterator.init isoPos ⟨0, 0⟩ 16 256).next isoPos).draw_x
      ((TileTopBlockIterator.init isoPos ⟨0, 0⟩ 16 256).next isoPos).draw_y
      (demoRenderer glassOverStone).images.getMaxWaterNeededOpaque
      (((TileTopBlockIterator.init isoPos ⟨0, 0⟩ 16 256).next isoPos).current.y + 1).toNat
      (BlockRowIterator.init ((TileTopBlockIterator.init isoPos ⟨0, 0⟩ 16 256).next
        isoPos).current)
      { chunk := none, water := 0, row_nodes := [] } = some st ∧
      (∃ a ∈ flushKept st.row_nodes, a.pos = ⟨25, 22, 254⟩ ∧ a.x = 248 ∧ a.y = -8) ∧
      (∃ b ∈ flushKept st.row_nodes, b.pos = ⟨24, 23, 255⟩ ∧ b.x = 248 ∧ b.y = -8) := by
    refine ⟨_, rfl, ?_, ?_⟩
    · decide
    · decide
  obtain ⟨st, hst, ⟨a, ha, hap⟩, ⟨b, hb, hbp⟩⟩ := hrow
  have hitems := hrows _ hmem (by decide) st hst
  exact ⟨out, hout, ⟨a, hitems a ha, hap⟩, ⟨b, hitems b hb, hbp⟩⟩
/-! ## Chests: the flags in what checkNeighbors returns -/

/-- Among the flags of a chest, one flag has a bit of another only when they
are the same flag. -/
theorem Consts.ChestFlagsOk.hasFlag_chestGetD {Biome : Type} {K : Consts Biome}
    (h : K.ChestFlagsOk) (i j : Nat) (hi : i < 11) (hj : j < 11) :
    hasFlag (K.chestFlags.getD i 0) (K.chestFlags.getD j 0) = decide (i = j) := by
  obtain ⟨h1, h2⟩ := h
  simp only [Consts.chestFlags, List.mem_cons, List.mem_singleton, forall_eq_or_imp,
    forall_eq, List.not_mem_nil, false_imp_iff, implies_true, and_true] at h1
  obtain ⟨⟨p0, _⟩, ⟨p1, _⟩, ⟨p2, _⟩, ⟨p3, _⟩, ⟨p4, _⟩, ⟨p5, _⟩, ⟨p6, _⟩, ⟨p7, _⟩, ⟨p8, _⟩,
    ⟨p9, _⟩, ⟨p10, _⟩⟩ := h1
  simp only [Consts.chestFlags, List.pairwise_cons, List.mem_cons, List.mem_singleton,
    forall_eq_or_imp, forall_eq, List.not_mem_nil, false_imp_iff, implies_true, and_true,
    List.Pairwise.nil] at h2
  obtain ⟨⟨h0_0, h0_1, h0_2, h0_3, h0_4, h0_5, h0_6, h0_7, h0_8, h0_9⟩, ⟨h1_0, h1_1, h1_2, h1_3, h1_4, h1_5, h1_6, h1_7, h1_8⟩, ⟨h2_0, h2_1, h2_2, h2_3, h2_4, h2_5, h2_6, h2_7⟩, ⟨h3_0, h3_1, h3_2, h3_3, h3_4, h3_5, h3_6⟩, ⟨h4_0, h4_1, h4_2, h4_3, h4_4, h4_5⟩, ⟨h5_0, h5_1, h5_2, h5_3, h5_4⟩, ⟨h6_0, h6_1, h6_2, h6_3⟩, ⟨h7_0, h7_1, h7_2⟩, ⟨h8_0, h8_1⟩, h9_0⟩ := h2
  have hsym : ∀ x y : Nat, x &&& y = 0 → y &&& x = 0 := fun x y hxy => by
    rw [Nat.and_comm]; exact hxy
  interval_cases i <;> interval_cases j <;>
    simp [Consts.chestFlags, hasFlag, Nat.and_self,
      Nat.pos_iff_ne_zero.mp p0, Nat.pos_iff_ne_zero.mp p1, Nat.pos_iff_ne_zero.mp p2,
      Nat.pos_iff_ne_zero.mp p3, Nat.pos_iff_ne_zero.mp p4, Nat.pos_iff_ne_zero.mp p5,
      Nat.pos_iff_ne_zero.mp p6, Nat.pos_iff_ne_zero.mp p7, Nat.pos_iff_ne_zero.mp p8,
      Nat.pos_iff_ne_zero.mp p9, Nat.pos_iff_ne_zero.mp p10,
      h0_0, h0_1, h0_2, h0_3, h0_4, h0_5, h0_6, h0_7, h0_8, h0_9, h1_0, h1_1, h1_2, h1_3,
      h1_4, h1_5, h1_6, h1_7, h1_8, h2_0, h2_1, h2_2, h2_3, h2_4, h2_5, h2_6, h2_7, h3_0,
      h3_1, h3_2, h3_3, h3_4, h3_5, h3_6, h4_0, h4_1, h4_2, h4_3, h4_4, h4_5, h5_0, h5_1,
      h5_2, h5_3, h5_4, h6_0, h6_1, h6_2, h6_3, h7_0, h7_1, h7_2, h8_0, h8_1, h9_0,
      hsym _ _ h0_0, hsym _ _ h0_1, hsym _ _ h0_2, hsym _ _ h0_3, hsym _ _ h0_4,
      hsym _ _ h0_5, hsym _ _ h0_6, hsym _ _ h0_7, hsym _ _ h0_8, hsym _ _ h0_9,
      hsym _ _ h1_0, hsym _ _ h1_1, hsym _ _ h1_2, hsym _ _ h1_3, hsym _ _ h1_4,
      hsym _ _ h1_5, hsym _ _ h1_6, hsym _ _ h1_7, hsym _ _ h1_8, hsym _ _ h2_0,
      hsym _ _ h2_1, hsym _ _ h2_2, hsym _ _ h2_3, hsym _ _ h2_4, hsym _ _ h2_5,
      hsym _ _ h2_6, hsym _ _ h2_7, hsym _ _ h3_0, hsym _ _ h3_1, hsym _ _ h3_2,
      hsym _ _ h3_3, hsym _ _ h3_4, hsym _ _ h3_5, hsym _ _ h3_6, hsym _ _ h4_0,
      hsym _ _ h4_1, hsym _ _ h4_2, hsym _ _ h4_3, hsym _ _ h4_4, hsym _ _ h4_5,
      hsym _ _ h5_0, hsym _ _ h5_1, hsym _ _ h5_2, hsym _ _ h5_3, hsym _ _ h5_4,
      hsym _ _ h6_0, hsym _ _ h6_1, hsym _ _ h6_2, hsym _ _ h6_3, hsym _ _ h7_0,
      hsym _ _ h7_1, hsym _ _ h7_2, hsym _ _ h8_0, hsym _ _ h8_1, hsym _ _ h9_0]

theorem Consts.ChestFlagsOk.chestGetD_lt {Biome : Type} {K : Consts Biome} (h : K.ChestFlagsOk)
    (j : Nat) (hj : j < 11) : K.chestFlags.getD j 0 < 65536 := by
  have h1 := h.1
  simp only [Consts.chestFlags, List.mem_cons, List.mem_singleton, forall_eq_or_imp,
    forall_eq, List.not_mem_nil, false_imp_iff, implies_true, and_true] at h1
  obtain ⟨⟨_, q0⟩, ⟨_, q1⟩, ⟨_, q2⟩, ⟨_, q3⟩, ⟨_, q4⟩, ⟨_, q5⟩, ⟨_, q6⟩, ⟨_, q7⟩, ⟨_, q8⟩,
    ⟨_, q9⟩, ⟨_, q10⟩⟩ := h1
  interval_cases j <;> simpa [Consts.chestFlags]
theorem hasFlag_mod (x c : Nat) (hc : c < 65536) : hasFlag (x % 65536) c = hasFlag x c := by
  have h : x % 65536 = or16 x 0 := by simp [or16]
  rw [h, hasFlag_or16 x 0 c hc, hasFlag_zero, Bool.or_false]

theorem TileRenderer.hasFlag_shadowEdges_of_disjoint {Image Biome : Type}
    (R : TileRenderer Image Biome) (pos : BlockPos) (chunk : Option Chunk) (id d c : Nat)
    (hc : c < 65536) (e4 : hasFlag R.consts.EDGE_NORTH c = false)
    (e5 : hasFlag R.consts.EDGE_EAST c = false)
    (e6 : hasFlag R.consts.EDGE_BOTTOM c = false) :
    hasFlag (R.shadowEdges pos chunk id d) c = hasFlag d c := by
  by_cases ht : R.images.isBlockTransparent id d = true
  · rw [R.shadowEdges_transparent pos chunk id d ht]
  · simp only [Bool.not_eq_true] at ht
    rw [R.hasFlag_shadowEdges_opaque pos chunk id d c hc ht]
    simp only [e4, e5, e6, Bool.and_false, Bool.or_false]

/-- The connectivity and double-chest flags in what `checkNeighbors` returns
for a chest: the facing flag of the raw data, and for id 54 the double-chest
flag of each side whose neighbour has id 54. -/
theorem TileRenderer.hasFlag_checkNeighbors_chest {Image Biome : Type}
    (R : TileRenderer Image Biome) (pos : BlockPos) (chunk : Option Chunk) (id data : Nat)
    (hid : id = 54 ∨ id = 95 ∨ id = 130 ∨ id = 146) (hK : R.consts.ChestFlagsOk)
    (j : Nat) (hj : j < 11) (hje : j < 4 ∨ 7 ≤ j) :
    hasFlag (R.checkNeighbors pos chunk id data) (R.consts.chestFlags.getD j 0) =
      [decide (data = 2), decide (data = 3),
        decide (data ≠ 2 ∧ data ≠ 3 ∧ data ≠ 4), decide (data = 4),
        false, false, false,
        decide (id = 54) && decide ((R.getBlock (pos.add R.consts.DIR_NORTH) chunk).id = 54),
        decide (id = 54) && decide ((R.getBlock (pos.add R.consts.DIR_SOUTH) chunk).id = 54),
        decide (id = 54) && decide ((R.getBlock (pos.add R.consts.DIR_EAST) chunk).id = 54),
        decide (id = 54) && decide ((R.getBlock (pos.add R.consts.DIR_WEST) chunk).id = 54)
        ].getD j false := by
  have hc := hK.chestGetD_lt j hj
  have e0 := hK.hasFlag_chestGetD 0 j (by omega) hj
  have e1 := hK.hasFlag_chestGetD 1 j (by omega) hj
  have e2 := hK.hasFlag_chestGetD 2 j (by omega) hj
  have e3 := hK.hasFlag_chestGetD 3 j (by omega) hj
  have e4 := hK.hasFlag_chestGetD 4 j (by omega) hj
  have e5 := hK.hasFlag_chestGetD 5 j (by omega) hj
  have e6 := hK.hasFlag_chestGetD 6 j (by omega) hj
  have e7 := hK.hasFlag_chestGetD 7 j (by omega) hj
  have e8 := hK.hasFlag_chestGetD 8 j (by omega) hj
  have e9 := hK.hasFlag_chestGetD 9 j (by omega) hj
  have e10 := hK.hasFlag_chestGetD 10 j (by omega) hj
  change hasFlag R.consts.DATA_NORTH (R.consts.chestFlags.getD j 0) = _ at e0
  change hasFlag R.consts.DATA_SOUTH (R.consts.chestFlags.getD j 0) = _ at e1
  change hasFlag R.consts.DATA_EAST (R.consts.chestFlags.getD j 0) = _ at e2
  change hasFlag R.consts.DATA_WEST (R.consts.chestFlags.getD j 0) = _ at e3
  change hasFlag R.consts.EDGE_NORTH (R.consts.chestFlags.getD j 0) = _ at e4
  change hasFlag R.consts.EDGE_EAST (R.consts.chestFlags.getD j 0) = _ at e5
  change hasFlag R.consts.EDGE_BOTTOM (R.consts.chestFlags.getD j 0) = _ at e6
  change hasFlag (R.consts.DATA_NORTH <<< 4) (R.consts.chestFlags.getD j 0) = _ at e7
  change hasFlag (R.consts.DATA_SOUTH <<< 4) (R.consts.chestFlags.getD j 0) = _ at e8
  change hasFlag (R.consts.DATA_EAST <<< 4) (R.consts.chestFlags.getD j 0) = _ at e9
  change hasFlag (R.consts.DATA_WEST <<< 4) (R.consts.chestFlags.getD j 0) = _ at e10
  have h4 : decide (4 = j) = false := by simp; omega
  have h5 : decide (5 = j) = false := by simp; omega
  have h6 : decide (6 = j) = false := by simp; omega
  rw [h4] at e4
  rw [h5] at e5
  rw [h6] at e6
  unfold TileRenderer.checkNeighbors
  rw [R.hasFlag_shadowEdges_of_disjoint pos chunk id _ _ hc e4 e5 e6,
    R.specialData_chest pos chunk id data hid]
  have hfacing : hasFlag (chestFacing R.consts data) (R.consts.chestFlags.getD j 0) =
      ((decide (data = 2) && decide (0 = j)) || (decide (data = 3) && decide (1 = j)) ||
        (decide (data = 4) && decide (3 = j)) ||
        (decide (data ≠ 2 ∧ data ≠ 3 ∧ data ≠ 4) && decide (2 = j))) := by
    unfold chestFacing
    split_ifs with a b c
    · rw [e0]; subst a; simp
    · rw [e1]; subst b; simp
    · rw [e3]; subst c; simp
    · rw [e2]; simp [a, b, c]
  have hflag : ∀ (side : Nat) (nb : Block),
      hasFlag (chestFlag side nb) (R.consts.chestFlags.getD j 0) =
        (decide (nb.id = 54) && hasFlag (side <<< 4) (R.consts.chestFlags.getD j 0)) := by
    intro side nb
    unfold chestFlag
    by_cases h : nb.id = 54 <;> simp [h, hasFlag_zero]
  by_cases h54 : id = 54
  · simp only [h54, if_true, hasFlag_mod _ _ hc, hasFlag_lor, hfacing, hflag, e7, e8, e9, e10,
      decide_True, Bool.true_and]
    rcases hje with hlt | hge
    · interval_cases j <;> simp
    · interval_cases j <;> simp
  · simp only [h54, if_false, hasFlag_mod _ _ hc, hfacing, decide_False, Bool.false_and]
    rcases hje with hlt | hge
    · interval_cases j <;> simp
    · interval_cases j <;> simp
theorem demoConsts_chestFlagsOk : demoConsts.ChestFlagsOk := by
  unfold Consts.ChestFlagsOk Consts.chestFlags demoConsts
  constructor
  · intro f hf
    simp only [List.mem_cons, List.mem_singleton, List.not_mem_nil, or_false] at hf
    rcases hf with h | h | h | h | h | h | h | h | h | h | h <;> subst h <;> decide
  · decide

/-- C12: for a chest (id 54, 95, 130, 146) the chest rule discards the raw
data and puts the facing constant in its place (raw 2 north, 3 south, 4 west,
else east); for id 54 it ORs in, for each side whose neighbour has id 54, that
side's connectivity constant shifted left by 4, and nothing else; for ids 95,
130 and 146 it ORs in nothing. In the data `checkNeighbors` returns, after the
shadow-edge pass, the connectivity flag of a side is set exactly when it is
the facing, and the double-chest flag of a side exactly when the id is 54 and
the neighbour on that side has id 54. -/
theorem chest_flags {Image Biome : Type} (R : TileRenderer Image Biome)
    (pos : BlockPos) (chunk : Option Chunk) (id data : Nat)
    (hid : id = 54 ∨ id = 95 ∨ id = 130 ∨ id = 146) (hK : R.consts.ChestFlagsOk) :
    (id = 54 → R.specialData pos chunk id data =
      (chestFacing R.consts data |||
        chestFlag R.consts.DATA_NORTH (R.getBlock (pos.add R.consts.DIR_NORTH) chunk) |||
        chestFlag R.consts.DATA_SOUTH (R.getBlock (pos.add R.consts.DIR_SOUTH) chunk) |||
        chestFlag R.consts.DATA_EAST (R.getBlock (pos.add R.consts.DIR_EAST) chunk) |||
        chestFlag R.consts.DATA_WEST (R.getBlock (pos.add R.consts.DIR_WEST) chunk)) % 65536) ∧
    (id ≠ 54 → R.specialData pos chunk id data = chestFacing R.consts data % 65536) ∧
    (hasFlag (R.checkNeighbors pos chunk id data) R.consts.DATA_NORTH = decide (data = 2) ∧
      hasFlag (R.checkNeighbors pos chunk id data) R.consts.DATA_SOUTH = decide (data = 3) ∧
      hasFlag (R.checkNeighbors pos chunk id data) R.consts.DATA_WEST = decide (data = 4) ∧
      hasFlag (R.checkNeighbors pos chunk id data) R.consts.DATA_EAST =
        decide (data ≠ 2 ∧ data ≠ 3 ∧ data ≠ 4)) ∧
    (hasFlag (R.checkNeighbors pos chunk id data) (R.consts.DATA_NORTH <<< 4) =
        (decide (id = 54) &&
          decide ((R.getBlock (pos.add R.consts.DIR_NORTH) chunk).id = 54)) ∧
      hasFlag (R.checkNeighbors pos chunk id data) (R.consts.DATA_SOUTH <<< 4) =
        (decide (id = 54) &&
          decide ((R.getBlock (pos.add R.consts.DIR_SOUTH) chunk).id = 54)) ∧
      hasFlag (R.checkNeighbors pos chunk id data) (R.consts.DATA_EAST <<< 4) =
        (decide (id = 54) &&
          decide ((R.getBlock (pos.add R.consts.DIR_EAST) chunk).id = 54)) ∧
      hasFlag (R.checkNeighbors pos chunk id data) (R.consts.DATA_WEST <<< 4) =
        (decide (id = 54) &&
          decide ((R.getBlock (pos.add R.consts.DIR_WEST) chunk).id = 54))) := by
  have h := R.specialData_chest pos chunk id data hid
  have t := fun j hj hje => R.hasFlag_checkNeighbors_chest pos chunk id data hid hK j hj hje
  refine ⟨fun h54 => ?_, fun h54 => ?_, ⟨?_, ?_, ?_, ?_⟩, ⟨?_, ?_, ?_, ?_⟩⟩
  · rw [h, if_pos h54]
  · rw [h, if_neg h54]
  · exact t 0 (by omega) (by omega)
  · exact t 1 (by omega) (by omega)
  · exact t 3 (by omega) (by omega)
  · exact t 2 (by omega) (by omega)
  · exact t 7 (by omega) (by omega)
  · exact t 8 (by omega) (by omega)
  · exact t 9 (by omega) (by omega)
  · exact t 10 (by omega) (by omega)

/-- C12, witness: scenario D, two chests facing south side by side. What
`checkNeighbors` returns for the chest at x = 0 has, of the double-chest
flags, the east one (512) alone, and for the chest at x = 1 the west one
(2048) alone; both have the south flag (64) as facing. -/
theorem chest_flags_witness :
    demoConsts.ChestFlagsOk ∧
    ((demoRenderer doubleChest).checkNeighbors ⟨0, 0, 64⟩ none 54 3 &&&
        (256 + 512 + 1024 + 2048) = 512 ∧
      hasFlag ((demoRenderer doubleChest).checkNeighbors ⟨0, 0, 64⟩ none 54 3) 512 = true ∧
      hasFlag ((demoRenderer doubleChest).checkNeighbors ⟨0, 0, 64⟩ none 54 3) 2048 = false ∧
      hasFlag ((demoRenderer doubleChest).checkNeighbors ⟨0, 0, 64⟩ none 54 3) 64 = true) ∧
    ((demoRenderer doubleChest).checkNeighbors ⟨1, 0, 64⟩ none 54 3 &&&
        (256 + 512 + 1024 + 2048) = 2048 ∧
      hasFlag ((demoRenderer doubleChest).checkNeighbors ⟨1, 0, 64⟩ none 54 3) 2048 = true ∧
      hasFlag ((demoRenderer doubleChest).checkNeighbors ⟨1, 0, 64⟩ none 54 3) 512 = false ∧
      hasFlag ((demoRenderer doubleChest).checkNeighbors ⟨1, 0, 64⟩ none 54 3) 64 = true) := by
  have h0 := chest_flags (demoRenderer doubleChest) ⟨0, 0, 64⟩ none 54 3 (Or.inl rfl)
    demoConsts_chestFlagsOk
  have h1 := chest_flags (demoRenderer doubleChest) ⟨1, 0, 64⟩ none 54 3 (Or.inl rfl)
    demoConsts_chestFlagsOk
  exact ⟨demoConsts_chestFlagsOk,
    ⟨by decide, h0.2.2.2.2.2.1.trans (by decide), h0.2.2.2.2.2.2.trans (by decide),
      h0.2.2.1.2.1.trans (by decide)⟩,
    ⟨by decide, h1.2.2.2.2.2.2.trans (by decide), h1.2.2.2.2.2.1.trans (by decide),
      h1.2.2.1.2.1.trans (by decide)⟩⟩
/-- What `getBlock` returns lets a shadow edge show exactly when the voxel it
was asked for does. -/
theorem TileRenderer.seesThrough_getBlock {Image Biome : Type}
    (R : TileRenderer Image Biome) (chunk : Option Chunk) (p : BlockPos) :
    R.seesThrough (R.getBlock p chunk) = R.openAt chunk p := by
  unfold TileRenderer.getBlock TileRenderer.openAt
  by_cases hy : p.y < 0
  · simp [hy, TileRenderer.seesThrough]
  · simp only [hy, if_false]
    cases hc : R.chunkFor (R.posApi.chunkOf p) chunk with
    | none => simp [TileRenderer.seesThrough]
    | some c =>
      simp only
      by_cases h0 : c.getBlockID (R.posApi.localOf p) % 65536 = 0
      · simp [h0, TileRenderer.seesThrough]
      · simp [h0, TileRenderer.seesThrough]

/-- C13: let `d` be the data after the block-specific rule, with no edge bit.
If the catalog reports `(id, d)` opaque, `checkNeighbors` sets `EDGE_NORTH`,
`EDGE_EAST`, `EDGE_BOTTOM` exactly when the voxel to the north, east, bottom
is air (below y = 0, in a missing chunk, or of id 0) or of a block the catalog
reports transparent, and a block at y = 0 gets `EDGE_BOTTOM`; if the catalog
reports `(id, d)` transparent, `checkNeighbors` returns `d` and sets no edge
bit. -/
theorem edge_flags {Image Biome : Type} (R : TileRenderer Image Biome)
    (pos : BlockPos) (chunk : Option Chunk) (id data : Nat) (hK : R.consts.FlagsOk)
    (hno : hasFlag (R.specialData pos chunk id data) R.consts.EDGE_NORTH = false ∧
      hasFlag (R.specialData pos chunk id data) R.consts.EDGE_EAST = false ∧
      hasFlag (R.specialData pos chunk id data) R.consts.EDGE_BOTTOM = false) :
    (R.images.isBlockTransparent id (R.specialData pos chunk id data) = false →
      hasFlag (R.checkNeighbors pos chunk id data) R.consts.EDGE_NORTH =
        R.openAt chunk (pos.add R.consts.DIR_NORTH) ∧
      hasFlag (R.checkNeighbors pos chunk id data) R.consts.EDGE_EAST =
        R.openAt chunk (pos.add R.consts.DIR_EAST) ∧
      hasFlag (R.checkNeighbors pos chunk id data) R.consts.EDGE_BOTTOM =
        R.openAt chunk (pos.add R.consts.DIR_BOTTOM) ∧
      (pos.y = 0 → R.consts.DIR_BOTTOM.y = -1 →
        hasFlag (R.checkNeighbors pos chunk id data) R.consts.EDGE_BOTTOM = true)) ∧
    (R.images.isBlockTransparent id (R.specialData pos chunk id data) = true →
      R.checkNeighbors pos chunk id data = R.specialData pos chunk id data ∧
      hasFlag (R.checkNeighbors pos chunk id data) R.consts.EDGE_NORTH = false ∧
      hasFlag (R.checkNeighbors pos chunk id data) R.consts.EDGE_EAST = false ∧
      hasFlag (R.checkNeighbors pos chunk id data) R.consts.EDGE_BOTTOM = false) := by
  obtain ⟨n0, n1, n2⟩ := hno
  obtain ⟨_, ⟨_, _, _, _, hN, hE, hB⟩⟩ := hK.unpack
  have nn : hasFlag R.consts.EDGE_NORTH R.consts.EDGE_NORTH = true := hK.hasFlag_same 4 (by omega)
  have ee : hasFlag R.consts.EDGE_EAST R.consts.EDGE_EAST = true := hK.hasFlag_same 5 (by omega)
  have bb : hasFlag R.consts.EDGE_BOTTOM R.consts.EDGE_BOTTOM = true :=
    hK.hasFlag_same 6 (by omega)
  have ne : hasFlag R.consts.EDGE_NORTH R.consts.EDGE_EAST = false :=
    hK.hasFlag_ne 4 5 (by omega) (by omega) (by omega)
  have nb : hasFlag R.consts.EDGE_NORTH R.consts.EDGE_BOTTOM = false :=
    hK.hasFlag_ne 4 6 (by omega) (by omega) (by omega)
  have en : hasFlag R.consts.EDGE_EAST R.consts.EDGE_NORTH = false :=
    hK.hasFlag_ne 5 4 (by omega) (by omega) (by omega)
  have eb : hasFlag R.consts.EDGE_EAST R.consts.EDGE_BOTTOM = false :=
    hK.hasFlag_ne 5 6 (by omega) (by omega) (by omega)
  have bn : hasFlag R.consts.EDGE_BOTTOM R.consts.EDGE_NORTH = false :=
    hK.hasFlag_ne 6 4 (by omega) (by omega) (by omega)
  have be : hasFlag R.consts.EDGE_BOTTOM R.consts.EDGE_EAST = false :=
    hK.hasFlag_ne 6 5 (by omega) (by omega) (by omega)
  have hB' : ∀ hop : R.images.isBlockTransparent id (R.specialData pos chunk id data) = false,
      hasFlag (R.checkNeighbors pos chunk id data) R.consts.EDGE_BOTTOM =
        R.openAt chunk (pos.add R.consts.DIR_BOTTOM) := by
    intro hop
    unfold TileRenderer.checkNeighbors
    rw [R.hasFlag_shadowEdges_opaque pos chunk id _ _ hB hop]
    simp only [R.seesThrough_getBlock]
    simp only [n2, nb, eb, bb, Bool.and_false, Bool.and_true, Bool.or_false, Bool.false_or]
  refine ⟨fun hop => ⟨?_, ?_, hB' hop, ?_⟩, fun htr => ?_⟩
  · unfold TileRenderer.checkNeighbors
    rw [R.hasFlag_shadowEdges_opaque pos chunk id _ _ hN hop]
    simp only [R.seesThrough_getBlock]
    simp only [n0, nn, en, bn, Bool.and_false, Bool.and_true, Bool.or_false, Bool.false_or]
  · unfold TileRenderer.checkNeighbors
    rw [R.hasFlag_shadowEdges_opaque pos chunk id _ _ hE hop]
    simp only [R.seesThrough_getBlock]
    simp only [n1, ne, ee, be, Bool.and_false, Bool.and_true, Bool.or_false, Bool.false_or]
  · intro hy hd
    rw [hB' hop]
    unfold TileRenderer.openAt
    rw [if_pos (by simp only [BlockPos.add]; omega)]
  · have hcn : R.checkNeighbors pos chunk id data = R.specialData pos chunk id data := by
      unfold TileRenderer.checkNeighbors
      exact R.shadowEdges_transparent pos chunk id _ htr
    rw [hcn]
    exact ⟨rfl, n0, n1, n2⟩

/-- C13, witness: the stone at (0, 0, 0) of the `edgeCorner` world, at the
bottom of the world, with stone to the north and glass to the east, gets
`EDGE_EAST` and `EDGE_BOTTOM` and not `EDGE_NORTH`; the single stone of
scenario A, surrounded by air, gets all three. -/
theorem edge_flags_witness :
    demoConsts.FlagsOk ∧
    (hasFlag ((demoRenderer edgeCorner).checkNeighbors ⟨0, 0, 0⟩ none 1 0) 8192 = false ∧
      hasFlag ((demoRenderer edgeCorner).checkNeighbors ⟨0, 0, 0⟩ none 1 0) 16384 = true ∧
      hasFlag ((demoRenderer edgeCorner).checkNeighbors ⟨0, 0, 0⟩ none 1 0) 32768 = true ∧
      (demoRenderer edgeCorner).checkNeighbors ⟨0, 0, 0⟩ none 1 0 = 16384 ||| 32768) ∧
    (hasFlag ((demoRenderer oneStone).checkNeighbors ⟨0, 0, 64⟩ none 1 0) 8192 = true ∧
      hasFlag ((demoRenderer oneStone).checkNeighbors ⟨0, 0, 64⟩ none 1 0) 16384 = true ∧
      hasFlag ((demoRenderer oneStone).checkNeighbors ⟨0, 0, 64⟩ none 1 0) 32768 = true ∧
      (demoRenderer oneStone).checkNeighbors ⟨0, 0, 64⟩ none 1 0 =
        8192 ||| 16384 ||| 32768) := by
  have h := (edge_flags (demoRenderer edgeCorner) ⟨0, 0, 0⟩ none 1 0 demoConsts_flagsOk
    ⟨by decide, by decide, by decide⟩).1 (by decide)
  have h' := (edge_flags (demoRenderer oneStone) ⟨0, 0, 64⟩ none 1 0 demoConsts_flagsOk
    ⟨by decide, by decide, by decide⟩).1 (by decide)
  exact ⟨demoConsts_flagsOk,
    ⟨h.1.trans (by decide), h.2.1.trans (by decide), h.2.2.2 rfl rfl, by decide⟩,
    ⟨h'.1.trans (by decide), h'.2.1.trans (by decide), h'.2.2.1.trans (by decide),
      by decide⟩⟩
theorem sublist_pair_of_pairwise {α : Type} (r : α → α → Prop) :
    ∀ (l : List α), l.Pairwise r → ∀ a b : α, a ∈ l → b ∈ l → ¬ r b a → a ≠ b →
      [a, b].Sublist l := by
  intro l
  induction l with
  | nil => intro _ a b ha; simp at ha
  | cons x l ih =>
    intro h a b ha hb hab hne
    rw [List.pairwise_cons] at h
    rcases List.mem_cons.mp ha with ha1 | ha1
    · rcases List.mem_cons.mp hb with hb1 | hb1
      · exact absurd (ha1.trans hb1.symm) hne
      · rw [ha1]
        exact List.Sublist.cons₂ _ (List.singleton_sublist.mpr hb1)
    · rcases List.mem_cons.mp hb with hb1 | hb1
      · rw [hb1] at hab
        exact absurd (h.1 a ha1) hab
      · exact List.Sublist.cons _ (ih h.2 a b ha1 hb1 hab hne)

/-- C8, witness: tile (0, 0) of the `glassOverStone` world. The stone at
height 254 and the glass at height 255 above it, two render blocks of one row,
are both blitted, the stone before the glass. -/
theorem blits_in_painters_order_witness :
    isoPos.ZStep ∧ isoPos.LeftStep ∧
    ∃ n : Nat, ∀ fuel, n ≤ fuel →
      ∃ out, (demoRenderer glassOverStone).renderTile fuel ⟨0, 0⟩ = some out ∧
        out.blits.Pairwise (fun a b => a.pos.lt b.pos = true) ∧
        out.blits.Pairwise (fun a b => a.pos ≠ b.pos) ∧
        out.blits.Pairwise (fun a b => a.pos.y ≤ b.pos.y) ∧
        ∃ a b, [a, b].Sublist out.blits ∧ a.pos = ⟨25, 22, 254⟩ ∧ b.pos = ⟨24, 23, 255⟩ := by
  obtain ⟨n1, h⟩ := blits_in_painters_order (demoRenderer glassOverStone) isoPos_zstep
    isoPos_leftstep ⟨0, 0⟩
  obtain ⟨n, hn⟩ := glassOverStone_blits
  refine ⟨isoPos_zstep, isoPos_leftstep, max n1 n, fun fuel hf => ?_⟩
  obtain ⟨out, hout, hp1, hp2, hp3⟩ := h fuel (le_trans (le_max_left _ _) hf)
  obtain ⟨out', hout', ⟨a, ha, hap, _⟩, ⟨b, hb, hbp, _⟩⟩ :=
    hn fuel (le_trans (le_max_right _ _) hf)
  rw [hout] at hout'
  cases hout'
  refine ⟨out, hout, hp1, hp2, hp3, a, b, ?_, hap, hbp⟩
  refine sublist_pair_of_pairwise _ _ hp1 a b ha hb ?_ ?_
  · rw [hap, hbp]
    decide
  · intro heq
    rw [heq, hbp] at hap
    exact absurd hap (by decide)

/-- C20, witness: tile (0, 0) of the `glassOverStone` world. The render blocks
of the stone and of the glass are passed to `blocks.insert`, and the blits are
a permutation of the inserted blocks. -/
theorem no_voxel_reached_twice_witness :
    isoPos.ZStep ∧ isoPos.LeftStep ∧ isoPos.DiagStep ∧
    ∃ ys : List TileTopBlockIterator,
      (ys.map (fun s => s.current)).Nodup ∧
      ∃ n : Nat, ∀ fuel, n ≤ fuel →
        ∃ out kept, (demoRenderer glassOverStone).renderTile fuel ⟨0, 0⟩ = some out ∧
          (demoRenderer glassOverStone).tileKept 5 fuel
            (TileTopBlockIterator.init isoPos ⟨0, 0⟩ 16 256) none = some kept ∧
          (kept.map (fun b => b.pos)).Nodup ∧
          out.blits.Perm kept ∧
          (∃ a ∈ kept, a.pos = ⟨25, 22, 254⟩) ∧
          (∃ b ∈ kept, b.pos = ⟨24, 23, 255⟩) := by
  obtain ⟨ys, _, h2, _, _, h5⟩ := no_voxel_reached_twice (demoRenderer glassOverStone)
    isoPos_zstep isoPos_leftstep isoPos_diagstep ⟨0, 0⟩
  obtain ⟨n, hn⟩ := glassOverStone_blits
  refine ⟨isoPos_zstep, isoPos_leftstep, isoPos_diagstep, ys, h2, max ys.length n,
    fun fuel hf => ?_⟩
  obtain ⟨out, kept, hout, hkept, hnd, hperm⟩ := h5 fuel (le_trans (le_max_left _ _) hf)
  obtain ⟨out', hout', ⟨a, ha, hap, _⟩, ⟨b, hb, hbp, _⟩⟩ :=
    hn fuel (le_trans (le_max_right _ _) hf)
  rw [hout] at hout'
  cases hout'
  exact ⟨out, kept, hout, hkept, hnd, hperm, ⟨a, hperm.subset ha, hap⟩,
    ⟨b, hperm.subset hb, hbp⟩⟩

end Mapcrafter
